import Mathlib

/-!
# ElHex converter: ARM ELF32 to Intel HEX

A shallow embedding of `src/arm-elf-to-hex-converter.cpp` and the properties
of its record codec, segment encoder and orchestrator. The second source file,
`src/arm-elf-to-hex-converter/arm-elf-to-hex-converter.cpp`, is embedded in
the namespace `Variant` and compared with the first.

Conventions of the embedding

* `uint8_t`, `uint16_t`, `uint32_t` values are natural numbers; every place
  where the C++ code narrows a wider value is an explicit `% 2 ^ w`.
  A value that is stored in a field of such a type is below `2 ^ w`; the
  predicates `IntelHexRecord_t.WF`, `Elf32_Ehdr.WF` and `Elf32_Phdr.WF` say so.
* `&` and `>>` are `&&&` and `>>>` on `Nat`.
* A `std::ofstream` is the text written so far plus the formatting state
  that `operator<<` reads; a `std::ifstream` is the file's bytes, the read
  position and the two state bits the code can set.
* A local variable that the C++ code leaves uninitialised is an argument of
  the embedded function, so every theorem holds for every initial content.
-/

namespace ElHex

/-! ## Machine integers -/

/-- Conversion to `uint8_t`. -/
def u8 (x : Nat) : Nat := x % 256

/-- Conversion to `uint16_t`. -/
def u16 (x : Nat) : Nat := x % 65536

/-- Conversion to `uint32_t`. -/
def u32 (x : Nat) : Nat := x % 4294967296

/-- Conversion of an `int` to `uint8_t` (reduction modulo 256 into `0..255`). -/
def u8OfInt (x : Int) : Nat := Int.toNat (x % 256)

/-! ## HEX file defines and types -/

def HEX_MAX_RECORD_LENGTH : Nat := 16

def HEX_RECORD_TYPE_DATA : Nat := 0
def HEX_RECORD_TYPE_EOF : Nat := 1
def HEX_RECORD_TYPE_EXTENDED_LINEAR_ADDR : Nat := 4
def HEX_RECORD_TYPE_START_LINEAR_ADDR : Nat := 5

/-- The C++ struct `IntelHexRecord_t`: `data` is the array
`uint8_t data[HEX_MAX_RECORD_LENGTH]`. -/
structure IntelHexRecord_t where
  dataLength : Nat
  addressOffset : Nat
  type : Nat
  data : List Nat
  checksum : Nat
  deriving DecidableEq, Repr

/-- The value ranges the C++ field types impose on a record. -/
def IntelHexRecord_t.WF (r : IntelHexRecord_t) : Prop :=
  r.dataLength < 256 ∧ r.addressOffset < 65536 ∧ r.type < 256 ∧
  r.data.length = 16 ∧ (∀ b ∈ r.data, b < 256) ∧ r.checksum < 256

instance (r : IntelHexRecord_t) : Decidable r.WF := by
  unfold IntelHexRecord_t.WF; infer_instance

/-- Read of `record.data[i]`. -/
def IntelHexRecord_t.dataAt (r : IntelHexRecord_t) (i : Nat) : Nat :=
  r.data.getD i 0

/-- Assignment `record.data[i] = v`. -/
def IntelHexRecord_t.setData (r : IntelHexRecord_t) (i v : Nat) : IntelHexRecord_t :=
  { r with data := r.data.set i v }

/-! ## Record checksum -/

/-- The C++ function `IntelHex_CalcRecordChecksum`.

The first assignment adds the four header bytes as `int` and narrows the sum
to `uint8_t`; each `checksum += data[i]` narrows again; `checksum *= -1`
multiplies as `int` and narrows. -/
def IntelHex_CalcRecordChecksum (record : IntelHexRecord_t) : IntelHexRecord_t :=
  let c0 := u8 (record.dataLength
                + u8 (record.addressOffset &&& 0x00FF)
                + u8 ((record.addressOffset &&& 0xFF00) >>> 8)
                + record.type)
  let c1 := (List.range record.dataLength).foldl
              (fun c i => u8 (c + record.dataAt i)) c0
  { record with checksum := u8OfInt ((c1 : Int) * (-1)) }

/-- The sum of the bytes a record's checksum covers, over the natural numbers. -/
def recordByteSum (r : IntelHexRecord_t) : Nat :=
  r.dataLength + r.addressOffset % 256 + r.addressOffset / 256 % 256 + r.type
    + (r.data.take r.dataLength).sum

/-! ## Output stream -/

/-- A `std::ofstream`: whether writes reach a file (`good`), the text written
so far, and the formatting state `operator<<` consults: fill character, field
width, `std::hex` or `std::dec`, `std::uppercase`. -/
structure OStream where
  good : Bool
  buf : List Char
  fillCh : Char
  width : Nat
  hex : Bool
  uppercase : Bool
  deriving DecidableEq, Repr

/-- A stream just opened with `std::ios_base::out | std::ios_base::trunc`:
empty file, fill `' '`, width 0, decimal, lowercase. -/
def OStream.opened : OStream :=
  { good := true, buf := [], fillCh := ' ', width := 0, hex := false, uppercase := false }

/-- Character of one digit `d < 16`: `0-9`, then `A-F` or `a-f`. -/
def digitChar (uppercase : Bool) (d : Nat) : Char :=
  if d < 10 then Char.ofNat (48 + d)
  else Char.ofNat ((if uppercase then 55 else 87) + d)

/-- Digits of `n` in `base`, most significant first, no leading zero, at
least one digit; `fuel` bounds the number of digits. -/
def digitsAux (base : Nat) (uppercase : Bool) : Nat → Nat → List Char → List Char
  | 0, _, acc => acc
  | fuel + 1, n, acc =>
    let acc1 := digitChar uppercase (n % base) :: acc
    if n / base = 0 then acc1 else digitsAux base uppercase fuel (n / base) acc1

/-- Fill characters go before the text (no adjustment flag is ever set). -/
def OStream.pad (s : OStream) (cs : List Char) : List Char :=
  List.replicate (s.width - cs.length) s.fillCh ++ cs

/-- Unformatted append; nothing is written to a stream that is not good. -/
def OStream.write (s : OStream) (cs : List Char) : OStream :=
  if s.good then { s with buf := s.buf ++ cs } else s

/-- Formatted character output `os << c`: padded to the width, which is then reset. -/
def OStream.putChar (s : OStream) (c : Char) : OStream :=
  { s.write (s.pad [c]) with width := 0 }

/-- Formatted output `os << (int)n` of a non-negative `int`: digits in the
current base and case, padded to the width, which is then reset. -/
def OStream.putInt (s : OStream) (n : Nat) : OStream :=
  { s.write (s.pad (digitsAux (if s.hex then 16 else 10) s.uppercase (n + 1) n []))
    with width := 0 }

/-- Member `os.fill(c)`: sets the fill character, returns the previous one. -/
def OStream.fill (s : OStream) (c : Char) : Char × OStream :=
  (s.fillCh, { s with fillCh := c })

/-- Member `os.width(w)`. -/
def OStream.setWidth (s : OStream) (w : Nat) : OStream := { s with width := w }

/-- Manipulators `std::hex`, `std::dec`. -/
def OStream.setHex (s : OStream) (b : Bool) : OStream := { s with hex := b }

/-- Manipulators `std::uppercase`, `std::nouppercase`. -/
def OStream.setUppercase (s : OStream) (b : Bool) : OStream := { s with uppercase := b }

/-- Manipulator `std::endl`: an unformatted line break (and a flush). -/
def OStream.endl (s : OStream) : OStream := s.write ['\n']

/-! ## Record encoder -/

/-- The C++ function `IntelHex_WriteRecordToFile`. The widths are
`sizeof(field) * 2`: 2 for the `uint8_t` fields, 4 for `addressOffset`.
`prevFill` is the previous fill character, a `char` kept in a `uint8_t` and
converted back unchanged. Each `(int)` cast is of an unsigned field, so the
value written is non-negative. -/
def IntelHex_WriteRecordToFile (record : IntelHexRecord_t) (hexFileHandle : OStream) :
    OStream :=
  let h := hexFileHandle.putChar ':'
  let (prevFill, h) := h.fill '0'
  let h := (h.setHex true).setUppercase true
  let h := (h.setWidth 2).putInt record.dataLength
  let h := (h.setWidth 4).putInt record.addressOffset
  let h := (h.setWidth 2).putInt record.type
  let h := (List.range record.dataLength).foldl
             (fun h i => (h.setWidth 2).putInt (record.dataAt i)) h
  let h := (h.setWidth 2).putInt record.checksum
  let h := h.setWidth 1
  let h := (h.setHex false).setUppercase false
  let h := (h.fill prevFill).2
  h.endl

/-- A number as exactly `w` uppercase hexadecimal digits, most significant
first, zero-padded (the digits of `n mod 16 ^ w`). -/
def hexField : Nat → Nat → List Char
  | 0, _ => []
  | w + 1, n => hexField w (n / 16) ++ [digitChar true (n % 16)]

/-- The text of one Intel HEX record before the line break, as the format is
written down: `:`, length, address, type, data bytes, checksum. -/
def recordText (r : IntelHexRecord_t) : List Char :=
  ':' :: (hexField 2 r.dataLength ++ hexField 4 r.addressOffset ++ hexField 2 r.type
    ++ (r.data.take r.dataLength).flatMap (hexField 2) ++ hexField 2 r.checksum)

/-- One Intel HEX record line: the record text and a line break. -/
def recordLine (r : IntelHexRecord_t) : List Char := recordText r ++ ['\n']

/-- The characters `0-9A-F`. -/
def isUpperHexDigit (c : Char) : Bool := "0123456789ABCDEF".toList.contains c

/-- The stream state in which `IntelHex_WriteRecordToFile` is entered: the
stream accepts writes and no field width above 1 is pending. -/
def OStream.Ready (s : OStream) : Prop := s.good = true ∧ s.width ≤ 1

instance (s : OStream) : Decidable s.Ready := by
  unfold OStream.Ready; infer_instance

/-! ## Input stream -/

/-- A `std::ifstream` opened in binary mode: the file's bytes, the read
position, and whether an error bit is set. The code never clears the state,
and every operation it uses sets `eofbit` only together with `failbit`, so one
flag is the whole state. -/
structure IStream where
  bytes : List Nat
  pos : Nat
  fail : Bool
  deriving DecidableEq, Repr

/-- Every element of the file is a byte. -/
def IStream.WF (s : IStream) : Prop := ∀ b ∈ s.bytes, b < 256

instance (s : IStream) : Decidable s.WF := by
  unfold IStream.WF; infer_instance

/-- The value `EOF` of `std::char_traits<char>::eof()`. -/
def EOF : Int := -1

/-- Member `is.seekg(p)`: no effect once the stream has failed; a position
past the end is accepted and shows as end-of-file at the next read. -/
def IStream.seekg (s : IStream) (p : Nat) : IStream :=
  if s.fail then s else { s with pos := p }

/-- Member `is.get()`: the next byte as an `int`, or `EOF` with the stream
failed from then on. -/
def IStream.get (s : IStream) : Int × IStream :=
  if s.fail then (EOF, s)
  else match s.bytes[s.pos]? with
    | some b => ((b : Int), { s with pos := s.pos + 1 })
    | none => (EOF, { s with fail := true })

/-- Member `is.read(buf, n)`: the bytes stored into `buf` (fewer than `n` at
the end of the file, none on a failed stream), and the stream afterwards. -/
def IStream.read (s : IStream) (n : Nat) : List Nat × IStream :=
  if s.fail then ([], s)
  else
    let got := (s.bytes.drop s.pos).take n
    (got, { s with pos := s.pos + got.length, fail := decide (got.length < n) })

/-! ## ELF file defines and types -/

def EI_NIDENT : Nat := 16
def EI_MAG0 : Nat := 0
def EI_MAG1 : Nat := 1
def EI_CLASS : Nat := 4
def EI_DATA : Nat := 5
def EI_VERSION : Nat := 6
def ELFMAG0 : Nat := 0x7F
def ET_EXEC : Nat := 2
def EM_ARM : Nat := 0x28
def EV_CURRENT : Nat := 1
def ELFCLASS32 : Nat := 1
def ELFDATA2LSB : Nat := 1

/-- The C++ struct `Elf32_Ehdr` (52 bytes, no padding). -/
structure Elf32_Ehdr where
  e_ident : List Nat
  e_type : Nat
  e_machine : Nat
  e_version : Nat
  e_entry : Nat
  e_phoff : Nat
  e_shoff : Nat
  e_flags : Nat
  e_ehsize : Nat
  e_phentsize : Nat
  e_phnum : Nat
  e_shentsize : Nat
  e_shnum : Nat
  e_shstrndx : Nat
  deriving DecidableEq, Repr

/-- The C++ struct `Elf32_Phdr` (32 bytes, no padding). -/
structure Elf32_Phdr where
  p_type : Nat
  p_offset : Nat
  p_vaddr : Nat
  p_paddr : Nat
  p_filesz : Nat
  p_memsz : Nat
  p_flags : Nat
  p_align : Nat
  deriving DecidableEq, Repr

/-- The value ranges the C++ field types impose on a file header. -/
def Elf32_Ehdr.WF (h : Elf32_Ehdr) : Prop :=
  h.e_ident.length = 16 ∧ (∀ b ∈ h.e_ident, b < 256) ∧
  h.e_type < 65536 ∧ h.e_machine < 65536 ∧ h.e_version < 4294967296 ∧
  h.e_entry < 4294967296 ∧ h.e_phoff < 4294967296 ∧ h.e_shoff < 4294967296 ∧
  h.e_flags < 4294967296 ∧ h.e_ehsize < 65536 ∧ h.e_phentsize < 65536 ∧
  h.e_phnum < 65536 ∧ h.e_shentsize < 65536 ∧ h.e_shnum < 65536 ∧ h.e_shstrndx < 65536

instance (h : Elf32_Ehdr) : Decidable h.WF := by
  unfold Elf32_Ehdr.WF; infer_instance

/-- The value ranges the C++ field types impose on a program header entry. -/
def Elf32_Phdr.WF (p : Elf32_Phdr) : Prop :=
  p.p_type < 4294967296 ∧ p.p_offset < 4294967296 ∧ p.p_vaddr < 4294967296 ∧
  p.p_paddr < 4294967296 ∧ p.p_filesz < 4294967296 ∧ p.p_memsz < 4294967296 ∧
  p.p_flags < 4294967296 ∧ p.p_align < 4294967296

instance (p : Elf32_Phdr) : Decidable p.WF := by
  unfold Elf32_Phdr.WF; infer_instance

/-- Little-endian bytes of a `w`-byte unsigned integer. -/
def leBytes (w x : Nat) : List Nat := (List.range w).map (fun i => x / 256 ^ i % 256)

/-- The unsigned integer stored in little-endian bytes. -/
def ofLeBytes (bs : List Nat) : Nat := bs.foldr (fun b acc => b + 256 * acc) 0

/-- The bytes `bs[off .. off + w)` read as a little-endian unsigned integer. -/
def fieldAt (bs : List Nat) (off w : Nat) : Nat := ofLeBytes ((bs.drop off).take w)

/-- Object representation of an `Elf32_Ehdr` on a little-endian host. -/
def Elf32_Ehdr.toBytes (h : Elf32_Ehdr) : List Nat :=
  h.e_ident ++ leBytes 2 h.e_type ++ leBytes 2 h.e_machine ++ leBytes 4 h.e_version
    ++ leBytes 4 h.e_entry ++ leBytes 4 h.e_phoff ++ leBytes 4 h.e_shoff
    ++ leBytes 4 h.e_flags ++ leBytes 2 h.e_ehsize ++ leBytes 2 h.e_phentsize
    ++ leBytes 2 h.e_phnum ++ leBytes 2 h.e_shentsize ++ leBytes 2 h.e_shnum
    ++ leBytes 2 h.e_shstrndx

/-- The `Elf32_Ehdr` whose object representation is `bs`. -/
def Elf32_Ehdr.ofBytes (bs : List Nat) : Elf32_Ehdr :=
  { e_ident := bs.take 16
    e_type := fieldAt bs 16 2
    e_machine := fieldAt bs 18 2
    e_version := fieldAt bs 20 4
    e_entry := fieldAt bs 24 4
    e_phoff := fieldAt bs 28 4
    e_shoff := fieldAt bs 32 4
    e_flags := fieldAt bs 36 4
    e_ehsize := fieldAt bs 40 2
    e_phentsize := fieldAt bs 42 2
    e_phnum := fieldAt bs 44 2
    e_shentsize := fieldAt bs 46 2
    e_shnum := fieldAt bs 48 2
    e_shstrndx := fieldAt bs 50 2 }

/-- Object representation of an `Elf32_Phdr` on a little-endian host. -/
def Elf32_Phdr.toBytes (p : Elf32_Phdr) : List Nat :=
  leBytes 4 p.p_type ++ leBytes 4 p.p_offset ++ leBytes 4 p.p_vaddr ++ leBytes 4 p.p_paddr
    ++ leBytes 4 p.p_filesz ++ leBytes 4 p.p_memsz ++ leBytes 4 p.p_flags
    ++ leBytes 4 p.p_align

/-- The `Elf32_Phdr` whose object representation is `bs`. -/
def Elf32_Phdr.ofBytes (bs : List Nat) : Elf32_Phdr :=
  { p_type := fieldAt bs 0 4
    p_offset := fieldAt bs 4 4
    p_vaddr := fieldAt bs 8 4
    p_paddr := fieldAt bs 12 4
    p_filesz := fieldAt bs 16 4
    p_memsz := fieldAt bs 20 4
    p_flags := fieldAt bs 24 4
    p_align := fieldAt bs 28 4 }

/-- Memory after `read` stored `got` at the start of an object whose bytes
were `old`: the bytes not reached keep their previous content. -/
def overlay (old got : List Nat) : List Nat := got ++ old.drop got.length

/-! ## ELF reader -/

/-- The C++ function `ArmElf32_ExtractHeaderFromFile`; `sizeof(elfFileHeader)` is 52. -/
def ArmElf32_ExtractHeaderFromFile (elfFileHeader : Elf32_Ehdr) (elfFileHandle : IStream) :
    Elf32_Ehdr × IStream :=
  let h := elfFileHandle.seekg 0
  let rd := h.read 52
  (Elf32_Ehdr.ofBytes (overlay elfFileHeader.toBytes rd.1), rd.2)

/-- The C++ function `ArmElf32_ExtractProgramHeaderEntryFromFile`; the offset
is computed in `uint32_t`, and `sizeof(elfProgramHeader)` is 32. -/
def ArmElf32_ExtractProgramHeaderEntryFromFile (elfProgramHeader : Elf32_Phdr)
    (entryNum : Nat) (elfFileHeader : Elf32_Ehdr) (elfFileHandle : IStream) :
    Elf32_Phdr × IStream :=
  let h := elfFileHandle.seekg
    (u32 (elfFileHeader.e_phoff + u32 (entryNum * elfFileHeader.e_phentsize)))
  let rd := h.read 32
  (Elf32_Phdr.ofBytes (overlay elfProgramHeader.toBytes rd.1), rd.2)

/-- The C library function `strncmp` on NUL-terminated byte strings: zero iff
the strings agree up to the first NUL or up to `n` characters. -/
def strncmp (s1 s2 : List Nat) : Nat → Int
  | 0 => 0
  | n + 1 =>
    let c1 := s1.headD 0
    let c2 := s2.headD 0
    if c1 ≠ c2 then (c1 : Int) - (c2 : Int)
    else if c1 = 0 then 0
    else strncmp s1.tail s2.tail n

/-- The string literal `"ELF"` with its terminating NUL. -/
def strELF : List Nat := [69, 76, 70, 0]

/-- The C++ function `ArmElf32_CheckHeaderValidity`. -/
def ArmElf32_CheckHeaderValidity (elfFileHeader : Elf32_Ehdr) : Nat :=
  if elfFileHeader.e_ident.getD EI_MAG0 0 = ELFMAG0 ∧
     strncmp (elfFileHeader.e_ident.drop EI_MAG1) strELF 3 = 0 ∧
     elfFileHeader.e_ident.getD EI_CLASS 0 = ELFCLASS32 ∧
     elfFileHeader.e_ident.getD EI_DATA 0 = ELFDATA2LSB ∧
     elfFileHeader.e_ident.getD EI_VERSION 0 = EV_CURRENT ∧
     elfFileHeader.e_type = ET_EXEC ∧
     elfFileHeader.e_machine = EM_ARM ∧
     elfFileHeader.e_version = EV_CURRENT ∧
     elfFileHeader.e_phoff ≠ 0 ∧
     elfFileHeader.e_ehsize ≠ 0 ∧
     elfFileHeader.e_phentsize ≠ 0 ∧
     elfFileHeader.e_phnum ≠ 0
  then 1 else 0

/-! ## Segment encoder -/

/-- The loop `for (j = 0; j < n; j++) record.data[j] = (uint8_t)elfFileHandle.get();`. -/
def readData (n : Nat) (record : IntelHexRecord_t) (elfFileHandle : IStream) :
    IntelHexRecord_t × IStream :=
  (List.range n).foldl
    (fun (st : IntelHexRecord_t × IStream) j =>
      let (c, h) := st.2.get
      (st.1.setData j (u8OfInt c), h))
    (record, elfFileHandle)

/-- The variables the record loop of the segment encoder updates. The sink
`σ` is the output stream; it is a parameter so that the same translation can
also be run against a log of the records handed to the writer. -/
structure SegState (σ : Type) where
  record : IntelHexRecord_t
  segmentMemAddr : Nat
  elfFileHandle : IStream
  hexFileHandle : σ

/-- One iteration of the loop over the records of full length
(`for (uint32_t i = 0; i < p_filesz / HEX_MAX_RECORD_LENGTH; i++)`). -/
def fullRecordStep {σ : Type} (writeRecord : IntelHexRecord_t → σ → σ) (st : SegState σ) :
    SegState σ :=
  let record := { st.record with addressOffset := st.segmentMemAddr }
  let rd := readData HEX_MAX_RECORD_LENGTH record st.elfFileHandle
  let record := IntelHex_CalcRecordChecksum rd.1
  let hexFileHandle := writeRecord record st.hexFileHandle
  { record := record
    segmentMemAddr := u16 (st.segmentMemAddr + HEX_MAX_RECORD_LENGTH)
    elfFileHandle := rd.2
    hexFileHandle := hexFileHandle }

/-- The extended address record as the segment encoder builds it in its
local `record`, checksum included. -/
def segment_addressRecord (elfProgramHeader : Elf32_Phdr) (record : IntelHexRecord_t) :
    IntelHexRecord_t :=
  let record := { record with dataLength := 2, addressOffset := 0,
                              type := HEX_RECORD_TYPE_EXTENDED_LINEAR_ADDR }
  let record := record.setData 0 (u8 ((elfProgramHeader.p_paddr &&& 0xFFFF0000) >>> 24))
  let record := record.setData 1 (u8 ((elfProgramHeader.p_paddr &&& 0xFFFF0000) >>> 16))
  IntelHex_CalcRecordChecksum record

/-- The segment encoder up to the loop over full records: the extended
address record is written, the fields that stay fixed are set, the memory
offset is the low half of `p_paddr`, and the input is positioned at `p_offset`. -/
def segment_loopInit {σ : Type} (writeRecord : IntelHexRecord_t → σ → σ)
    (elfProgramHeader : Elf32_Phdr) (elfFileHandle : IStream) (hexFileHandle : σ)
    (record : IntelHexRecord_t) : SegState σ :=
  let record := segment_addressRecord elfProgramHeader record
  let hexFileHandle := writeRecord record hexFileHandle
  let record := { record with dataLength := HEX_MAX_RECORD_LENGTH,
                              type := HEX_RECORD_TYPE_DATA }
  let segmentMemAddr := u16 (elfProgramHeader.p_paddr &&& 0x0000FFFF)
  let elfFileHandle := elfFileHandle.seekg elfProgramHeader.p_offset
  { record := record
    segmentMemAddr := segmentMemAddr
    elfFileHandle := elfFileHandle
    hexFileHandle := hexFileHandle }

/-- The branch of the segment encoder that writes the record shorter than
`HEX_MAX_RECORD_LENGTH`. -/
def tailRecordStep {σ : Type} (writeRecord : IntelHexRecord_t → σ → σ)
    (elfProgramHeader : Elf32_Phdr) (st : SegState σ) : SegState σ :=
  let record := { st.record with
                    dataLength := u8 (elfProgramHeader.p_filesz % HEX_MAX_RECORD_LENGTH),
                    addressOffset := st.segmentMemAddr }
  let rd := readData record.dataLength record st.elfFileHandle
  let record := IntelHex_CalcRecordChecksum rd.1
  let hexFileHandle := writeRecord record st.hexFileHandle
  { record := record
    segmentMemAddr := st.segmentMemAddr
    elfFileHandle := rd.2
    hexFileHandle := hexFileHandle }

/-- The C++ function `IntelHex_WriteElfProgramHeaderEntryToFile`.

`writeRecord` stands for `IntelHex_WriteRecordToFile`; `record` is the initial
content of the uninitialised local of that name. The loop counter `i` is a
`uint32_t` bounded by `p_filesz / 16`, so it cannot wrap, and the body does not
read it: the loop is the body iterated `p_filesz / 16` times. -/
def IntelHex_WriteElfProgramHeaderEntryToFile {σ : Type}
    (writeRecord : IntelHexRecord_t → σ → σ) (elfProgramHeader : Elf32_Phdr)
    (elfFileHandle : IStream) (hexFileHandle : σ) (record : IntelHexRecord_t) :
    IStream × σ :=
  if elfProgramHeader.p_filesz ≠ 0 then
    let st := segment_loopInit writeRecord elfProgramHeader elfFileHandle hexFileHandle record
    let st := (fullRecordStep writeRecord)^[elfProgramHeader.p_filesz / HEX_MAX_RECORD_LENGTH] st
    let st := if elfProgramHeader.p_filesz % HEX_MAX_RECORD_LENGTH ≠ 0
              then tailRecordStep writeRecord elfProgramHeader st else st
    (st.elfFileHandle, st.hexFileHandle)
  else
    (elfFileHandle, hexFileHandle)

/-- The sink that keeps the records handed to the writer, in call order. -/
def logRecord (record : IntelHexRecord_t) (log : List IntelHexRecord_t) :
    List IntelHexRecord_t :=
  log ++ [record]

/-- The records `IntelHex_WriteElfProgramHeaderEntryToFile` emits, in order. -/
def segmentRecords (elfProgramHeader : Elf32_Phdr) (elfFileHandle : IStream)
    (record : IntelHexRecord_t) : List IntelHexRecord_t :=
  (IntelHex_WriteElfProgramHeaderEntryToFile logRecord elfProgramHeader elfFileHandle []
    record).2

/-- The Data records among a list of records. -/
def dataRecords (rs : List IntelHexRecord_t) : List IntelHexRecord_t :=
  rs.filter (fun r => r.type = HEX_RECORD_TYPE_DATA)

/-- The payload bytes of a list of records, concatenated in order. -/
def payload (rs : List IntelHexRecord_t) : List Nat :=
  rs.flatMap (fun r => r.data.take r.dataLength)

/-! ## Orchestrator -/

/-- Exit codes. -/
def EXIT_CODE_ALL_SUCCEEDED : Int := 0
def EXIT_CODE_INVALID_ARGS_COUNT : Int := -1
def EXIT_CODE_COULDNT_OPEN_ELF_FILE : Int := -2
def EXIT_CODE_INVALID_ELF_FILE : Int := -3
def EXIT_CODE_COULDNT_OPEN_HEX_FILE : Int := -4

/-- The loop of `main` over the program header table,
`for (uint8_t i = 0; i < elfFileHeader.e_phnum; i++)`. The counter is
incremented in `uint8_t`; `fuel` bounds the number of iterations and `none`
means the bound was reached with the loop still running. `k` counts the calls
of the segment encoder and `uninit k` is the initial content of the encoder's
uninitialised local `record` at call `k`. -/
def main_loop {σ : Type} (writeRecord : IntelHexRecord_t → σ → σ)
    (elfFileHeader : Elf32_Ehdr) (uninit : Nat → IntelHexRecord_t) :
    Nat → Nat → Nat → Elf32_Phdr → IStream → σ → Option (Elf32_Phdr × IStream × σ)
  | 0, _, _, _, _, _ => none
  | fuel + 1, k, i, elfProgramHeader, elfFileHandle, hexFileHandle =>
    if i < elfFileHeader.e_phnum then
      let ex := ArmElf32_ExtractProgramHeaderEntryFromFile elfProgramHeader i elfFileHeader
        elfFileHandle
      let wr := IntelHex_WriteElfProgramHeaderEntryToFile writeRecord ex.1 ex.2
        hexFileHandle (uninit k)
      main_loop writeRecord elfFileHeader uninit fuel (k + 1) (u8 (i + 1)) ex.1 wr.1 wr.2
    else
      some (elfProgramHeader, elfFileHandle, hexFileHandle)

/-- The start address record as `main` builds it in its local `record`,
checksum included. -/
def main_startRecord (elfFileHeader : Elf32_Ehdr) (record : IntelHexRecord_t) :
    IntelHexRecord_t :=
  let record := { record with dataLength := 4, addressOffset := 0,
                              type := HEX_RECORD_TYPE_START_LINEAR_ADDR }
  let record := record.setData 0 (u8 ((elfFileHeader.e_entry &&& 0xFF000000) >>> 24))
  let record := record.setData 1 (u8 ((elfFileHeader.e_entry &&& 0x00FF0000) >>> 16))
  let record := record.setData 2 (u8 ((elfFileHeader.e_entry &&& 0x0000FF00) >>> 8))
  let record := record.setData 3 (u8 (elfFileHeader.e_entry &&& 0x000000FF))
  IntelHex_CalcRecordChecksum record

/-- The End Of File record as `main` builds it in the same local `record`,
checksum included. -/
def main_eofRecord (record : IntelHexRecord_t) : IntelHexRecord_t :=
  let record := { record with dataLength := 0, addressOffset := 0,
                              type := HEX_RECORD_TYPE_EOF }
  IntelHex_CalcRecordChecksum record

/-- What a run of `main` leaves behind: the exit status and the output
stream, `none` when the output file was never opened. -/
structure MainResult (σ : Type) where
  status : Int
  hexFile : Option σ
  deriving DecidableEq

/-- The C++ function `main`.

`elfFile` is the content of the file `argv[1]` (`none`: it cannot be opened),
`hexFile` the stream `argv[2]` yields when opened (`none`: it cannot be
opened). `elfFileHeader`, `elfProgramHeader` and `record` are the initial
contents of the uninitialised locals of those names. The result is `none`
when the program header loop is still running after `fuel` iterations. -/
def main {σ : Type} (writeRecord : IntelHexRecord_t → σ → σ) (fuel : Nat) (argc : Int)
    (elfFile : Option (List Nat)) (hexFile : Option σ)
    (elfFileHeader : Elf32_Ehdr) (elfProgramHeader : Elf32_Phdr)
    (record : IntelHexRecord_t) (uninit : Nat → IntelHexRecord_t) :
    Option (MainResult σ) :=
  if argc = 3 then
    match elfFile with
    | some bytes =>
      let elfFileHandle : IStream := { bytes := bytes, pos := 0, fail := false }
      let ex := ArmElf32_ExtractHeaderFromFile elfFileHeader elfFileHandle
      let elfFileHeader := ex.1
      let elfFileHandle := ex.2
      if ArmElf32_CheckHeaderValidity elfFileHeader ≠ 0 then
        match hexFile with
        | some hexFileHandle =>
          match main_loop writeRecord elfFileHeader uninit fuel 0 0 elfProgramHeader
                  elfFileHandle hexFileHandle with
          | some (_, _, hexFileHandle) =>
            let record := main_startRecord elfFileHeader record
            let hexFileHandle := writeRecord record hexFileHandle
            let record := main_eofRecord record
            let hexFileHandle := writeRecord record hexFileHandle
            some { status := EXIT_CODE_ALL_SUCCEEDED, hexFile := some hexFileHandle }
          | none => none
        | none => some { status := EXIT_CODE_COULDNT_OPEN_HEX_FILE, hexFile := none }
      else some { status := EXIT_CODE_INVALID_ELF_FILE, hexFile := none }
    | none => some { status := EXIT_CODE_COULDNT_OPEN_ELF_FILE, hexFile := none }
  else some { status := EXIT_CODE_INVALID_ARGS_COUNT, hexFile := none }

/-- The function `main` of the variant
`src/arm-elf-to-hex-converter/arm-elf-to-hex-converter.cpp`, with `u8`, `u16`,
`u32` read as 8, 16 and 32-bit unsigned integers. Its text differs from `main`
in one condition: after `hexFileHandle.open(...)` it tests
`elfFileHandle.is_open()`. `unopened` is the stream object a failed `open`
leaves behind; the run goes on writing to it, and no file exists afterwards. -/
def main_variant {σ : Type} (writeRecord : IntelHexRecord_t → σ → σ) (fuel : Nat) (argc : Int)
    (elfFile : Option (List Nat)) (hexFile : Option σ) (unopened : σ)
    (elfFileHeader : Elf32_Ehdr) (elfProgramHeader : Elf32_Phdr)
    (record : IntelHexRecord_t) (uninit : Nat → IntelHexRecord_t) :
    Option (MainResult σ) :=
  if argc = 3 then
    match elfFile with
    | some bytes =>
      let elfFileHandle : IStream := { bytes := bytes, pos := 0, fail := false }
      let ex := ArmElf32_ExtractHeaderFromFile elfFileHeader elfFileHandle
      let elfFileHeader := ex.1
      let elfFileHandle := ex.2
      if ArmElf32_CheckHeaderValidity elfFileHeader ≠ 0 then
        let hexFileHandle := hexFile.getD unopened
        if elfFile.isSome then
          match main_loop writeRecord elfFileHeader uninit fuel 0 0 elfProgramHeader
                  elfFileHandle hexFileHandle with
          | some (_, _, hexFileHandle) =>
            let record := main_startRecord elfFileHeader record
            let hexFileHandle := writeRecord record hexFileHandle
            let record := main_eofRecord record
            let hexFileHandle := writeRecord record hexFileHandle
            some { status := EXIT_CODE_ALL_SUCCEEDED,
                   hexFile := hexFile.map (fun _ => hexFileHandle) }
          | none => none
        else some { status := EXIT_CODE_COULDNT_OPEN_HEX_FILE, hexFile := none }
      else some { status := EXIT_CODE_INVALID_ELF_FILE, hexFile := none }
    | none => some { status := EXIT_CODE_COULDNT_OPEN_ELF_FILE, hexFile := none }
  else some { status := EXIT_CODE_INVALID_ARGS_COUNT, hexFile := none }

/-- The `std::ofstream` a failed `open` leaves behind: no file, every write
is rejected. -/
def OStream.closed : OStream :=
  { good := false, buf := [], fillCh := ' ', width := 0, hex := false, uppercase := false }

/-- The exit status the description assigns to a run, from the four facts it
names: the argument count, whether the input opens, whether the header is
valid, whether the output opens. -/
def exitStatusSpec (argc : Int) (inputOpens headerValid outputOpens : Bool) : Int :=
  if argc ≠ 3 then -1
  else if !inputOpens then -2
  else if !headerValid then -3
  else if !outputOpens then -4
  else 0

/-- Whether the header `main` reads from the input passes the validity
predicate; `false` when there is no input to read. -/
def headerValidOf (elfFileHeader : Elf32_Ehdr) (elfFile : Option (List Nat)) : Bool :=
  match elfFile with
  | some bytes => decide (ArmElf32_CheckHeaderValidity
      (ArmElf32_ExtractHeaderFromFile elfFileHeader ⟨bytes, 0, false⟩).1 ≠ 0)
  | none => false

/-! ## Records and sinks -/

/-- Hand a list of records to the writer, in order. -/
def writeRecords {σ : Type} (writeRecord : IntelHexRecord_t → σ → σ) (out : σ)
    (rs : List IntelHexRecord_t) : σ :=
  rs.foldl (fun s r => writeRecord r s) out

/-- A loop state over the record log, seen as the loop state over the sink
that received the logged records. -/
def SegState.replay {σ : Type} (writeRecord : IntelHexRecord_t → σ → σ) (out : σ)
    (lt : SegState (List IntelHexRecord_t)) : SegState σ :=
  { record := lt.record
    segmentMemAddr := lt.segmentMemAddr
    elfFileHandle := lt.elfFileHandle
    hexFileHandle := writeRecords writeRecord out lt.hexFileHandle }

/-- Invariant of the loop over full records, after `k` iterations from `st0`,
on the record log: the records `L` appended so far are Data records of length
16 at consecutive 16-bit addresses, and, when the stream was good with
`16 * k` bytes left, their payload is those bytes. -/
def FullLoopInv (st0 st : SegState (List IntelHexRecord_t)) (k : Nat) : Prop :=
  st.record.dataLength = 16 ∧ st.record.type = 0 ∧
  st.record.data.length = st0.record.data.length ∧
  st.segmentMemAddr = (st0.segmentMemAddr + 16 * k) % 65536 ∧
  ∃ L : List IntelHexRecord_t,
    st.hexFileHandle = st0.hexFileHandle ++ L ∧ L.length = k ∧
    (∀ i (hi : i < L.length), L[i].type = 0 ∧ L[i].dataLength = 16 ∧
      L[i].addressOffset = (st0.segmentMemAddr + 16 * i) % 65536) ∧
    (∀ bytes pos, st0.elfFileHandle = ⟨bytes, pos, false⟩ → (∀ b ∈ bytes, b < 256) →
      st0.record.data.length = 16 → pos + 16 * k ≤ bytes.length →
      st.elfFileHandle = ⟨bytes, pos + 16 * k, false⟩ ∧
      payload L = (bytes.drop pos).take (16 * k))

/-! ## The program header table, entry by entry -/

/-- One entry of the program header table handled as the description says:
read entry `i`, then hand it to the segment encoder. The state is the last
entry read, the input stream and the sink. -/
def entryStep {σ : Type} (writeRecord : IntelHexRecord_t → σ → σ) (hdr : Elf32_Ehdr)
    (uninit : Nat → IntelHexRecord_t) (st : Elf32_Phdr × IStream × σ) (i : Nat) :
    Elf32_Phdr × IStream × σ :=
  let ex := ArmElf32_ExtractProgramHeaderEntryFromFile st.1 i hdr st.2.1
  let wr := IntelHex_WriteElfProgramHeaderEntryToFile writeRecord ex.1 ex.2 st.2.2 (uninit i)
  (ex.1, wr.1, wr.2)

/-- Entries `0 .. n - 1` handled in ascending index order. -/
def runEntries {σ : Type} (writeRecord : IntelHexRecord_t → σ → σ) (hdr : Elf32_Ehdr)
    (uninit : Nat → IntelHexRecord_t) (n : Nat) (st : Elf32_Phdr × IStream × σ) :
    Elf32_Phdr × IStream × σ :=
  (List.range n).foldl (entryStep writeRecord hdr uninit) st

/-- The records of program header entry `i`: what the segment encoder emits
for the entry read at index `i`, in the state the entries before it leave. -/
def entryRecords (hdr : Elf32_Ehdr) (uninit : Nat → IntelHexRecord_t)
    (elfProgramHeader : Elf32_Phdr) (elfFileHandle : IStream) (i : Nat) :
    List IntelHexRecord_t :=
  let st := runEntries logRecord hdr uninit i (elfProgramHeader, elfFileHandle, [])
  let ex := ArmElf32_ExtractProgramHeaderEntryFromFile st.1 i hdr st.2.1
  segmentRecords ex.1 ex.2 (uninit i)

/-! ## Sample inputs -/

/-- A Data record of full length, checksum not yet computed. -/
def sampleRecord : IntelHexRecord_t :=
  { dataLength := 16, addressOffset := 0x0010, type := 0,
    data := [0, 1, 2, 3, 4, 5, 6, 7, 8, 9, 10, 11, 12, 13, 14, 0xFF], checksum := 0 }

/-- A record buffer with arbitrary content, as an uninitialised local may hold. -/
def staleRecord : IntelHexRecord_t :=
  { dataLength := 0xCC, addressOffset := 0xCCCC, type := 0xCC,
    data := List.replicate 16 0xCC, checksum := 0xCC }

/-- A segment of 20 bytes at file offset 4, loaded at `0x0800FFF0`. -/
def samplePhdr : Elf32_Phdr :=
  { p_type := 1, p_offset := 4, p_vaddr := 0x0800FFF0, p_paddr := 0x0800FFF0,
    p_filesz := 20, p_memsz := 20, p_flags := 5, p_align := 4 }

/-- A segment without bytes in the file. -/
def emptyPhdr : Elf32_Phdr :=
  { p_type := 1, p_offset := 4, p_vaddr := 0x20000000, p_paddr := 0x20000000,
    p_filesz := 0, p_memsz := 64, p_flags := 6, p_align := 4 }

/-- A file of 24 bytes `100, 101, ...`. -/
def sampleBytes : List Nat := (List.range 24).map (fun i => 100 + i)

/-- A good stream on `sampleBytes`, positioned at the start. -/
def sampleStream : IStream := { bytes := sampleBytes, pos := 0, fail := false }

/-- The twelve conditions of a valid ARM32 executable header, as the format
description lists them. -/
def ValidArm32Header (h : Elf32_Ehdr) : Prop :=
  h.e_ident.getD 0 0 = 0x7F ∧
  (h.e_ident.getD 1 0 = 69 ∧ h.e_ident.getD 2 0 = 76 ∧ h.e_ident.getD 3 0 = 70) ∧
  h.e_ident.getD 4 0 = 1 ∧
  h.e_ident.getD 5 0 = 1 ∧
  h.e_ident.getD 6 0 = 1 ∧
  h.e_type = 2 ∧
  h.e_machine = 0x28 ∧
  h.e_version = 1 ∧
  h.e_phoff ≠ 0 ∧
  h.e_ehsize ≠ 0 ∧
  h.e_phentsize ≠ 0 ∧
  h.e_phnum ≠ 0

instance (h : Elf32_Ehdr) : Decidable (ValidArm32Header h) := by
  unfold ValidArm32Header; infer_instance

/-- The values the first seven identification bytes must have. -/
def requiredIdent : List Nat := [0x7F, 69, 76, 70, 1, 1, 1]

/-- A valid header: entry point `0x08000201`, one program header at offset 52. -/
def sampleHeader : Elf32_Ehdr :=
  { e_ident := [0x7F, 69, 76, 70, 1, 1, 1, 0, 0, 0, 0, 0, 0, 0, 0, 0]
    e_type := 2, e_machine := 0x28, e_version := 1, e_entry := 0x08000201, e_phoff := 52
    e_shoff := 0, e_flags := 0, e_ehsize := 52, e_phentsize := 32, e_phnum := 1
    e_shentsize := 0, e_shnum := 0, e_shstrndx := 0 }

/-- A complete image: `sampleHeader`, one program header entry for 20 bytes
at file offset 84 loaded at `0x08000000`, and the bytes `0 .. 19`. -/
def sampleFile : List Nat :=
  sampleHeader.toBytes
    ++ Elf32_Phdr.toBytes { p_type := 1, p_offset := 84, p_vaddr := 0x08000000,
                            p_paddr := 0x08000000, p_filesz := 20, p_memsz := 20,
                            p_flags := 5, p_align := 4 }
    ++ List.range 20

/-- Arbitrary initial content of `main`'s local `elfFileHeader`. -/
def staleHeader : Elf32_Ehdr := Elf32_Ehdr.ofBytes (List.replicate 52 0xAA)

/-- Arbitrary initial content of `main`'s local `elfProgramHeader`. -/
def stalePhdr : Elf32_Phdr := Elf32_Phdr.ofBytes (List.replicate 32 0xBB)

/-- A valid header that announces 256 program header entries. -/
def wideHeader : Elf32_Ehdr := { sampleHeader with e_phnum := 256 }

/-- A file that holds `wideHeader` and nothing else. -/
def wideFile : List Nat := wideHeader.toBytes

/-- The sample header with the first magic byte `0x7E`. -/
def badMagicHeader : Elf32_Ehdr :=
  { sampleHeader with e_ident := sampleHeader.e_ident.set 0 0x7E }

/-- The sample image with the first byte `0x7E`. -/
def badMagicFile : List Nat := sampleFile.set 0 0x7E

/-- The record with the given length, address, type and payload, the rest of
its data array zero, after `IntelHex_CalcRecordChecksum`. -/
def canonicalRecord (dl a t : Nat) (d : List Nat) : IntelHexRecord_t :=
  IntelHex_CalcRecordChecksum
    { dataLength := dl, addressOffset := a, type := t,
      data := d ++ List.replicate (16 - d.length) 0, checksum := 0 }

/-- The output stream after the five lines of the sample image. -/
def sampleOutput : OStream :=
  { good := true
    buf := (":020000040800F2\n:10000000000102030405060708090A0B0C0D0E0F78\n"
      ++ ":0400100010111213A6\n:0400000508000201EC\n:00000001FF\n").toList
    fillCh := ' ', width := 1, hex := false, uppercase := false }

/-- A segment of 33 bytes at file offset 0, loaded at `0x08000000`. -/
def phdr33 : Elf32_Phdr :=
  { p_type := 1, p_offset := 0, p_vaddr := 0x08000000, p_paddr := 0x08000000,
    p_filesz := 33, p_memsz := 33, p_flags := 5, p_align := 4 }

/-- A good stream on 40 bytes `0, 1, ..`. -/
def stream40 : IStream := { bytes := List.range 40, pos := 0, fail := false }

/-- The file position of program header entry `i`, as the description gives
it, in 32-bit arithmetic. -/
def phdrPosition (hdr : Elf32_Ehdr) (i : Nat) : Nat :=
  (hdr.e_phoff + i * hdr.e_phentsize) % 4294967296

/-- The first 51 bytes of the sample header: one byte short of a header. -/
def shortFile : List Nat := sampleHeader.toBytes.take 51

/-- A header object whose bytes are all zero. -/
def zeroHeader : Elf32_Ehdr := Elf32_Ehdr.ofBytes (List.replicate 52 0)

/-- A program header object whose bytes are all zero. -/
def zeroPhdr : Elf32_Phdr := Elf32_Phdr.ofBytes (List.replicate 32 0)

/-- The output stream after the two lines written for `shortFile`. -/
def shortOutput : OStream :=
  { good := true, buf := ":0400000508000201EC\n:00000001FF\n".toList
    fillCh := ' ', width := 1, hex := false, uppercase := false }

/-- The stream after `n` calls of `get()`. -/
def IStream.advance (s : IStream) : Nat → IStream
  | 0 => s
  | n + 1 => (IStream.advance s n).get.2

/-- The byte that the call number `j` (from 0) of `(uint8_t)get()` yields. -/
def IStream.peek (s : IStream) (j : Nat) : Nat := u8OfInt (s.advance j).get.1

/-- Invariant of the loop over full records, after `k` iterations from `st0`,
on the record log, whatever the source holds: the stream is the one after
`16 * k` calls of `get()`, and the payload of the records `L` appended so far
is what these calls yielded. -/
def PadInv (st0 st : SegState (List IntelHexRecord_t)) (k : Nat) : Prop :=
  st.record.dataLength = 16 ∧ st.record.data.length = 16 ∧
  st.elfFileHandle = st0.elfFileHandle.advance (16 * k) ∧
  ∃ L : List IntelHexRecord_t,
    st.hexFileHandle = st0.hexFileHandle ++ L ∧
    payload L = (List.range (16 * k)).map st0.elfFileHandle.peek

/-- A good stream on the first 10 bytes of `sampleBytes`: from offset 4 it
holds 6 bytes. -/
def shortStream : IStream := { bytes := sampleBytes.take 10, pos := 0, fail := false }

/-- The text written for `samplePhdr` from `shortStream`. -/
def shortSegmentText : List Char :=
  (":020000040800F2\n:10FFF00068696A6B6C6DFFFFFFFFFFFFFFFFFFFF8C\n"
    ++ ":04000000FFFFFFFF00\n").toList

/-- The stream as the segment encoder leaves it after `samplePhdr` on
`shortStream`: failed, at the end of the 10 bytes. -/
def failedStream : IStream := { bytes := sampleBytes.take 10, pos := 10, fail := true }

/-! ## Lines of the output, read back -/

/-- A record as it leaves `IntelHex_CalcRecordChecksum` in this program: its
fields are in range, `dataLength` is within the array, and the checksum
completes the byte sum to a multiple of 256. -/
def IntelHexRecord_t.Sealed (r : IntelHexRecord_t) : Prop :=
  r.WF ∧ r.dataLength ≤ 16 ∧ (recordByteSum r + r.checksum) % 256 = 0

instance (r : IntelHexRecord_t) : Decidable r.Sealed := by
  unfold IntelHexRecord_t.Sealed; infer_instance

/-- Invariant of the record loop on the record log: the record buffer holds
bytes, the fixed fields are those of a full Data record, the memory offset
fits 16 bits and every record logged so far is sealed. -/
def SealInv (st : SegState (List IntelHexRecord_t)) : Prop :=
  st.record.dataLength = 16 ∧ st.record.type = 0 ∧ st.record.data.length = 16 ∧
  (∀ b ∈ st.record.data, b < 256) ∧ st.segmentMemAddr < 65536 ∧
  ∀ r ∈ st.hexFileHandle, r.Sealed

/-- Value of an uppercase hexadecimal digit. -/
def hexDigitValue (c : Char) : Option Nat :=
  if '0' ≤ c ∧ c ≤ '9' then some (c.toNat - 48)
  else if 'A' ≤ c ∧ c ≤ 'F' then some (c.toNat - 55)
  else none

/-- The bytes an even-length string of uppercase hexadecimal digits spells,
two digits per byte; `none` for any other string. -/
def decodeHexBytes : List Char → Option (List Nat)
  | [] => some []
  | [_] => none
  | a :: b :: rest =>
    match hexDigitValue a, hexDigitValue b, decodeHexBytes rest with
    | some x, some y, some bs => some ((16 * x + y) :: bs)
    | _, _, _ => none

/-- The lines of a text, each without its line break; `cur` is the current
line, reversed. Characters after the last line break form a last line. -/
def splitLinesAux : List Char → List Char → List (List Char)
  | cur, [] => if cur = [] then [] else [cur.reverse]
  | cur, c :: rest =>
    if c = '\n' then cur.reverse :: splitLinesAux [] rest
    else splitLinesAux (c :: cur) rest

/-- The lines of a text, each without its line break. -/
def splitLines (cs : List Char) : List (List Char) := splitLinesAux [] cs

/-- The bytes of a record in the order of its line: length, address high,
address low, type, data, checksum. -/
def recordBytes (r : IntelHexRecord_t) : List Nat :=
  [r.dataLength, r.addressOffset / 256, r.addressOffset % 256, r.type]
    ++ r.data.take r.dataLength ++ [r.checksum]

/-! ## Further sample inputs and readers -/

/-- A valid header that announces 65535 program header entries. -/
def maxHeader : Elf32_Ehdr := { sampleHeader with e_phnum := 65535 }

/-- A file that holds `maxHeader` and nothing else. -/
def maxFile : List Nat := maxHeader.toBytes

/-- The bytes a record's checksum covers, in the order the code adds them:
length, low and high byte of the address, type, then the data bytes. -/
def checksumBytes (r : IntelHexRecord_t) : List Nat :=
  [r.dataLength, r.addressOffset % 256, r.addressOffset / 256 % 256, r.type]
    ++ r.data.take r.dataLength

/-- The checksum as the description prescribes it: the accumulator is reduced
to 8 bits after every single addition, and the result is negated modulo 256. -/
def checksumMaskedEachStep (r : IntelHexRecord_t) : Nat :=
  (256 - (checksumBytes r).foldl (fun acc b => (acc + b) % 256) 0) % 256

/-- The checksum in wide arithmetic: all bytes are summed without any
reduction, the sum is negated, and only the result is narrowed to 8 bits. -/
def checksumNarrowedAtEnd (r : IntelHexRecord_t) : Nat :=
  u8OfInt (-((checksumBytes r).sum : Int))

/-- The fields one line of the output spells. -/
structure ParsedRecord where
  dataLength : Nat
  addressOffset : Nat
  type : Nat
  data : List Nat
  checksum : Nat
  deriving DecidableEq, Repr

/-- A line, without its line break, read back at the fixed positions: after
the colon two digits of length, four of address (high byte first), two of
type, two per data byte, two of checksum, and nothing else. -/
def parseRecordLine (line : List Char) : Option ParsedRecord :=
  match line with
  | ':' :: body =>
    match decodeHexBytes body with
    | some (dl :: ah :: al :: t :: rest) =>
      if rest.length = dl + 1 then
        some { dataLength := dl, addressOffset := 256 * ah + al, type := t,
               data := rest.take dl, checksum := rest.getD dl 0 }
      else none
    | _ => none
  | _ => none

/-- The fields of a record that its line carries. -/
def IntelHexRecord_t.fields (r : IntelHexRecord_t) : ParsedRecord :=
  { dataLength := r.dataLength, addressOffset := r.addressOffset, type := r.type,
    data := r.data.take r.dataLength, checksum := r.checksum }

/-- A segment of 32 bytes at file offset 0, loaded at `0x0800FFF0`: its second
Data record starts at the 64KB boundary `0x08010000`. -/
def crossPhdr : Elf32_Phdr :=
  { p_type := 1, p_offset := 0, p_vaddr := 0x0800FFF0, p_paddr := 0x0800FFF0,
    p_filesz := 32, p_memsz := 32, p_flags := 5, p_align := 4 }

/-- The lines a segment is written as, from the three things they are made
of: the physical address `paddr`, the size `n` and the bytes `pl` of the
segment. One extended address line, then one Data line per started 16 bytes. -/
def segmentLines (paddr n : Nat) (pl : List Nat) : List (List Char) :=
  if n = 0 then []
  else
    recordText (canonicalRecord 2 0 HEX_RECORD_TYPE_EXTENDED_LINEAR_ADDR
        [paddr / 2 ^ 24 % 256, paddr / 2 ^ 16 % 256])
      :: (List.range ((n + 15) / 16)).map (fun i =>
            recordText (canonicalRecord (min 16 (n - 16 * i)) ((paddr % 65536 + 16 * i) % 65536)
              HEX_RECORD_TYPE_DATA ((pl.drop (16 * i)).take (min 16 (n - 16 * i)))))

/-- A short Data record in a reused buffer: 4 bytes of payload, then what an
earlier record left in `data[4..16)`, and a checksum not yet recomputed. -/
def staleTail : IntelHexRecord_t :=
  { dataLength := 4, addressOffset := 0x0010, type := 0,
    data := [0, 1, 2, 3] ++ List.replicate 12 0xCC, checksum := 0xAB }

/-- The same record in a buffer that held zeros. -/
def cleanTail : IntelHexRecord_t :=
  { dataLength := 4, addressOffset := 0x0010, type := 0,
    data := [0, 1, 2, 3] ++ List.replicate 12 0, checksum := 0 }

/-- The segment of `samplePhdr` under another type, virtual address, memory
size, flags and alignment. -/
def samplePhdrNote : Elf32_Phdr :=
  { samplePhdr with p_type := 4, p_vaddr := 0, p_memsz := 0, p_flags := 0, p_align := 1 }

/-! ## The second source file

`src/arm-elf-to-hex-converter/arm-elf-to-hex-converter.cpp`, translated function by
function, with the types `u8`, `u16`, `u32` of `STD_TYPES.h` read as unsigned
integers of 8, 16 and 32 bits. The structs have the same fields in the same
order as in the first file and are shared with it. -/

namespace Variant

/-- The C++ function `ArmElf32_ExtractHeaderFromFile` of the second file. -/
def ArmElf32_ExtractHeaderFromFile (elfFileHeader : Elf32_Ehdr) (elfFileHandle : IStream) :
    Elf32_Ehdr × IStream :=
  let h := elfFileHandle.seekg 0
  let rd := h.read 52
  (Elf32_Ehdr.ofBytes (overlay elfFileHeader.toBytes rd.1), rd.2)

/-- The C++ function `ArmElf32_ExtractProgramHeaderEntryFromFile` of the
second file; `entryNum` is a `u32` and the offset is computed in 32 bits. -/
def ArmElf32_ExtractProgramHeaderEntryFromFile (elfProgramHeader : Elf32_Phdr)
    (entryNum : Nat) (elfFileHeader : Elf32_Ehdr) (elfFileHandle : IStream) :
    Elf32_Phdr × IStream :=
  let h := elfFileHandle.seekg
    (u32 (elfFileHeader.e_phoff + u32 (entryNum * elfFileHeader.e_phentsize)))
  let rd := h.read 32
  (Elf32_Phdr.ofBytes (overlay elfProgramHeader.toBytes rd.1), rd.2)

/-- The C++ function `ArmElf32_CheckHeaderValidity` of the second file. -/
def ArmElf32_CheckHeaderValidity (elfFileHeader : Elf32_Ehdr) : Nat :=
  if elfFileHeader.e_ident.getD EI_MAG0 0 = ELFMAG0 ∧
     strncmp (elfFileHeader.e_ident.drop EI_MAG1) strELF 3 = 0 ∧
     elfFileHeader.e_ident.getD EI_CLASS 0 = ELFCLASS32 ∧
     elfFileHeader.e_ident.getD EI_DATA 0 = ELFDATA2LSB ∧
     elfFileHeader.e_ident.getD EI_VERSION 0 = EV_CURRENT ∧
     elfFileHeader.e_type = ET_EXEC ∧
     elfFileHeader.e_machine = EM_ARM ∧
     elfFileHeader.e_version = EV_CURRENT ∧
     elfFileHeader.e_phoff ≠ 0 ∧
     elfFileHeader.e_ehsize ≠ 0 ∧
     elfFileHeader.e_phentsize ≠ 0 ∧
     elfFileHeader.e_phnum ≠ 0
  then 1 else 0

/-- The C++ function `IntelHex_CalcRecordChecksum` of the second file: the
header bytes are added as `int` and narrowed to `u8`, each `+=` narrows again,
and so does `*= -1`. -/
def IntelHex_CalcRecordChecksum (record : IntelHexRecord_t) : IntelHexRecord_t :=
  let c0 := u8 (record.dataLength
                + u8 (record.addressOffset &&& 0x00FF)
                + u8 ((record.addressOffset &&& 0xFF00) >>> 8)
                + record.type)
  let c1 := (List.range record.dataLength).foldl
              (fun c i => u8 (c + record.dataAt i)) c0
  { record with checksum := u8OfInt ((c1 : Int) * (-1)) }

/-- The C++ function `IntelHex_WriteRecordToFile` of the second file. -/
def IntelHex_WriteRecordToFile (record : IntelHexRecord_t) (hexFileHandle : OStream) :
    OStream :=
  let h := hexFileHandle.putChar ':'
  let (prevFill, h) := h.fill '0'
  let h := (h.setHex true).setUppercase true
  let h := (h.setWidth 2).putInt record.dataLength
  let h := (h.setWidth 4).putInt record.addressOffset
  let h := (h.setWidth 2).putInt record.type
  let h := (List.range record.dataLength).foldl
             (fun h i => (h.setWidth 2).putInt (record.dataAt i)) h
  let h := (h.setWidth 2).putInt record.checksum
  let h := h.setWidth 1
  let h := (h.setHex false).setUppercase false
  let h := (h.fill prevFill).2
  h.endl

/-- The loop `for (j = 0; j < n; j++) record.data[j] = (u8)elfFileHandle.get();`
of the full records. -/
def readData (n : Nat) (record : IntelHexRecord_t) (elfFileHandle : IStream) :
    IntelHexRecord_t × IStream :=
  (List.range n).foldl
    (fun (st : IntelHexRecord_t × IStream) j =>
      let (c, h) := st.2.get
      (st.1.setData j (u8OfInt c), h))
    (record, elfFileHandle)

/-- The loop `for (j = 0; j < n; j++) record.data[j] = elfFileHandle.get();` of
the short record: no cast is written, and the assignment converts the `int` to
`u8` all the same. -/
def readDataConverted (n : Nat) (record : IntelHexRecord_t) (elfFileHandle : IStream) :
    IntelHexRecord_t × IStream :=
  (List.range n).foldl
    (fun (st : IntelHexRecord_t × IStream) j =>
      let (c, h) := st.2.get
      (st.1.setData j (u8OfInt c), h))
    (record, elfFileHandle)

/-- One iteration of the loop over the records of full length. -/
def fullRecordStep {σ : Type} (writeRecord : IntelHexRecord_t → σ → σ) (st : SegState σ) :
    SegState σ :=
  let record := { st.record with addressOffset := st.segmentMemAddr }
  let rd := readData HEX_MAX_RECORD_LENGTH record st.elfFileHandle
  let record := IntelHex_CalcRecordChecksum rd.1
  let hexFileHandle := writeRecord record st.hexFileHandle
  { record := record
    segmentMemAddr := u16 (st.segmentMemAddr + HEX_MAX_RECORD_LENGTH)
    elfFileHandle := rd.2
    hexFileHandle := hexFileHandle }

/-- The extended address record as the segment encoder builds it. -/
def segment_addressRecord (elfProgramHeader : Elf32_Phdr) (record : IntelHexRecord_t) :
    IntelHexRecord_t :=
  let record := { record with dataLength := 2, addressOffset := 0,
                              type := HEX_RECORD_TYPE_EXTENDED_LINEAR_ADDR }
  let record := record.setData 0 (u8 ((elfProgramHeader.p_paddr &&& 0xFFFF0000) >>> 24))
  let record := record.setData 1 (u8 ((elfProgramHeader.p_paddr &&& 0xFFFF0000) >>> 16))
  IntelHex_CalcRecordChecksum record

/-- The segment encoder up to the loop over full records. -/
def segment_loopInit {σ : Type} (writeRecord : IntelHexRecord_t → σ → σ)
    (elfProgramHeader : Elf32_Phdr) (elfFileHandle : IStream) (hexFileHandle : σ)
    (record : IntelHexRecord_t) : SegState σ :=
  let record := segment_addressRecord elfProgramHeader record
  let hexFileHandle := writeRecord record hexFileHandle
  let record := { record with dataLength := HEX_MAX_RECORD_LENGTH,
                              type := HEX_RECORD_TYPE_DATA }
  let segmentMemAddr := u16 (elfProgramHeader.p_paddr &&& 0x0000FFFF)
  let elfFileHandle := elfFileHandle.seekg elfProgramHeader.p_offset
  { record := record
    segmentMemAddr := segmentMemAddr
    elfFileHandle := elfFileHandle
    hexFileHandle := hexFileHandle }

/-- The branch of the segment encoder that writes the short record. -/
def tailRecordStep {σ : Type} (writeRecord : IntelHexRecord_t → σ → σ)
    (elfProgramHeader : Elf32_Phdr) (st : SegState σ) : SegState σ :=
  let record := { st.record with
                    dataLength := u8 (elfProgramHeader.p_filesz % HEX_MAX_RECORD_LENGTH),
                    addressOffset := st.segmentMemAddr }
  let rd := readDataConverted record.dataLength record st.elfFileHandle
  let record := IntelHex_CalcRecordChecksum rd.1
  let hexFileHandle := writeRecord record st.hexFileHandle
  { record := record
    segmentMemAddr := st.segmentMemAddr
    elfFileHandle := rd.2
    hexFileHandle := hexFileHandle }

/-- The C++ function `IntelHex_WriteElfProgramHeaderEntryToFile` of the second
file; `writeRecord` stands for `IntelHex_WriteRecordToFile` and `record` is the
initial content of the uninitialised local. -/
def IntelHex_WriteElfProgramHeaderEntryToFile {σ : Type}
    (writeRecord : IntelHexRecord_t → σ → σ) (elfProgramHeader : Elf32_Phdr)
    (elfFileHandle : IStream) (hexFileHandle : σ) (record : IntelHexRecord_t) :
    IStream × σ :=
  if elfProgramHeader.p_filesz ≠ 0 then
    let st := segment_loopInit writeRecord elfProgramHeader elfFileHandle hexFileHandle record
    let st := (fullRecordStep writeRecord)^[elfProgramHeader.p_filesz / HEX_MAX_RECORD_LENGTH] st
    let st := if elfProgramHeader.p_filesz % HEX_MAX_RECORD_LENGTH ≠ 0
              then tailRecordStep writeRecord elfProgramHeader st else st
    (st.elfFileHandle, st.hexFileHandle)
  else
    (elfFileHandle, hexFileHandle)

/-- The loop of `main` over the program header table,
`for (u8 i = 0; i < elfFileHeader.e_phnum; i++)`, bounded by `fuel`. -/
def main_loop {σ : Type} (writeRecord : IntelHexRecord_t → σ → σ)
    (elfFileHeader : Elf32_Ehdr) (uninit : Nat → IntelHexRecord_t) :
    Nat → Nat → Nat → Elf32_Phdr → IStream → σ → Option (Elf32_Phdr × IStream × σ)
  | 0, _, _, _, _, _ => none
  | fuel + 1, k, i, elfProgramHeader, elfFileHandle, hexFileHandle =>
    if i < elfFileHeader.e_phnum then
      let ex := ArmElf32_ExtractProgramHeaderEntryFromFile elfProgramHeader i elfFileHeader
        elfFileHandle
      let wr := IntelHex_WriteElfProgramHeaderEntryToFile writeRecord ex.1 ex.2
        hexFileHandle (uninit k)
      main_loop writeRecord elfFileHeader uninit fuel (k + 1) (u8 (i + 1)) ex.1 wr.1 wr.2
    else
      some (elfProgramHeader, elfFileHandle, hexFileHandle)

/-- The start address record as `main` builds it. -/
def main_startRecord (elfFileHeader : Elf32_Ehdr) (record : IntelHexRecord_t) :
    IntelHexRecord_t :=
  let record := { record with dataLength := 4, addressOffset := 0,
                              type := HEX_RECORD_TYPE_START_LINEAR_ADDR }
  let record := record.setData 0 (u8 ((elfFileHeader.e_entry &&& 0xFF000000) >>> 24))
  let record := record.setData 1 (u8 ((elfFileHeader.e_entry &&& 0x00FF0000) >>> 16))
  let record := record.setData 2 (u8 ((elfFileHeader.e_entry &&& 0x0000FF00) >>> 8))
  let record := record.setData 3 (u8 (elfFileHeader.e_entry &&& 0x000000FF))
  IntelHex_CalcRecordChecksum record

/-- The End Of File record as `main` builds it. -/
def main_eofRecord (record : IntelHexRecord_t) : IntelHexRecord_t :=
  let record := { record with dataLength := 0, addressOffset := 0,
                              type := HEX_RECORD_TYPE_EOF }
  IntelHex_CalcRecordChecksum record

/-- The C++ function `main` of the second file. After
`hexFileHandle.open(...)` it tests `elfFileHandle.is_open()`; `unopened` is the
stream object a failed `open` leaves behind. -/
def main {σ : Type} (writeRecord : IntelHexRecord_t → σ → σ) (fuel : Nat) (argc : Int)
    (elfFile : Option (List Nat)) (hexFile : Option σ) (unopened : σ)
    (elfFileHeader : Elf32_Ehdr) (elfProgramHeader : Elf32_Phdr)
    (record : IntelHexRecord_t) (uninit : Nat → IntelHexRecord_t) :
    Option (MainResult σ) :=
  if argc = 3 then
    match elfFile with
    | some bytes =>
      let elfFileHandle : IStream := { bytes := bytes, pos := 0, fail := false }
      let ex := ArmElf32_ExtractHeaderFromFile elfFileHeader elfFileHandle
      let elfFileHeader := ex.1
      let elfFileHandle := ex.2
      if ArmElf32_CheckHeaderValidity elfFileHeader ≠ 0 then
        let hexFileHandle := hexFile.getD unopened
        if elfFile.isSome then
          match main_loop writeRecord elfFileHeader uninit fuel 0 0 elfProgramHeader
                  elfFileHandle hexFileHandle with
          | some (_, _, hexFileHandle) =>
            let record := main_startRecord elfFileHeader record
            let hexFileHandle := writeRecord record hexFileHandle
            let record := main_eofRecord record
            let hexFileHandle := writeRecord record hexFileHandle
            some { status := EXIT_CODE_ALL_SUCCEEDED,
                   hexFile := hexFile.map (fun _ => hexFileHandle) }
          | none => none
        else some { status := EXIT_CODE_COULDNT_OPEN_HEX_FILE, hexFile := none }
      else some { status := EXIT_CODE_INVALID_ELF_FILE, hexFile := none }
    | none => some { status := EXIT_CODE_COULDNT_OPEN_ELF_FILE, hexFile := none }
  else some { status := EXIT_CODE_INVALID_ARGS_COUNT, hexFile := none }

end Variant

/-! # Proofs -/

/-! ## Arithmetic of masks and shifts -/

theorem and_shiftRight_distrib (x y k : Nat) :
    (x &&& y) >>> k = (x >>> k) &&& (y >>> k) := by
  apply Nat.eq_of_testBit_eq
  intro i
  simp [Nat.testBit_shiftRight, Nat.testBit_and]

theorem and_0xFF (x : Nat) : x &&& 0x00FF = x % 256 :=
  Nat.and_pow_two_sub_one_eq_mod x 8

theorem and_0xFF00_shift (x : Nat) : (x &&& 0xFF00) >>> 8 = x / 256 % 256 := by
  rw [and_shiftRight_distrib]
  have h : (0xFF00 : Nat) >>> 8 = 2 ^ 8 - 1 := by decide
  rw [h, Nat.and_pow_two_sub_one_eq_mod, Nat.shiftRight_eq_div_pow]

theorem u8OfInt_neg (c : Nat) : u8OfInt ((c : Int) * (-1)) = (256 - c % 256) % 256 := by
  unfold u8OfInt
  omega

/-! ## The checksum loop is a sum modulo 256 -/

theorem foldl_u8_add (f : Nat → Nat) (n c : Nat) :
    (List.range n).foldl (fun c i => u8 (c + f i)) (c % 256)
      = (c + ((List.range n).map f).sum) % 256 := by
  induction n with
  | zero => simp
  | succ n ih =>
    rw [List.range_succ, List.foldl_append, ih]
    simp [u8, List.sum_append, Nat.add_assoc]

theorem map_getD_range (l : List Nat) (n : Nat) (h : n ≤ l.length) :
    (List.range n).map (fun i => l.getD i 0) = l.take n := by
  apply List.ext_getElem
  · simp [h]
  · intro i h1 h2
    simp at h1 h2
    simp [List.getD_eq_getElem?_getD, List.getElem?_eq_getElem h2.2]

theorem checksum_eq (r : IntelHexRecord_t) (hlen : r.dataLength ≤ r.data.length) :
    (IntelHex_CalcRecordChecksum r).checksum = (256 - recordByteSum r % 256) % 256 := by
  unfold IntelHex_CalcRecordChecksum recordByteSum
  simp only [u8OfInt_neg, and_0xFF, and_0xFF00_shift]
  have h := foldl_u8_add r.dataAt r.dataLength
    (r.dataLength + u8 (r.addressOffset % 256) + u8 (r.addressOffset / 256 % 256) + r.type)
  simp only [u8] at h ⊢
  rw [h]
  have hm : (List.range r.dataLength).map r.dataAt = r.data.take r.dataLength :=
    map_getD_range r.data r.dataLength hlen
  rw [hm]
  simp

/-! ## Hexadecimal fields -/

theorem hexField_length (w n : Nat) : (hexField w n).length = w := by
  induction w generalizing n with
  | zero => rfl
  | succ w ih => simp [hexField, ih]

theorem hexField_zero (w : Nat) : hexField w 0 = List.replicate w '0' := by
  induction w with
  | zero => rfl
  | succ w ih =>
    simp only [hexField, ih, Nat.zero_div, Nat.zero_mod]
    rw [List.replicate_succ']
    rfl

theorem hexField_pad (k j n : Nat) (hjk : j ≤ k) (hn : n < 16 ^ j) :
    List.replicate (k - j) '0' ++ hexField j n = hexField k n := by
  induction k generalizing j n with
  | zero =>
    have : j = 0 := by omega
    subst this; rfl
  | succ k ih =>
    cases j with
    | zero =>
      have h0 : n = 0 := by simpa using hn
      subst h0
      simp [hexField_zero]
    | succ j =>
      have hn1 : n / 16 < 16 ^ j := by
        rw [Nat.div_lt_iff_lt_mul (by decide)]
        rw [pow_succ] at hn
        exact hn
      have h := ih j (n / 16) (by omega) hn1
      simp only [hexField]
      rw [← h]
      simp [Nat.succ_sub_succ]

theorem digitsAux_hex (fuel : Nat) : ∀ (n : Nat) (acc : List Char) (k : Nat),
    n < fuel → 1 ≤ k → n < 16 ^ k →
    ∃ j, 1 ≤ j ∧ j ≤ k ∧ n < 16 ^ j ∧ digitsAux 16 true fuel n acc = hexField j n ++ acc := by
  induction fuel with
  | zero => intro n acc k h; omega
  | succ fuel ih =>
    intro n acc k hf hk hn
    by_cases h0 : n / 16 = 0
    · refine ⟨1, le_refl 1, hk, ?_, ?_⟩
      · have := (Nat.div_eq_zero_iff (by decide : 0 < 16)).mp h0
        simpa using this
      · simp [digitsAux, h0, hexField]
    · have hn16 : 16 ≤ n := by
        by_contra hlt
        exact h0 ((Nat.div_eq_zero_iff (by decide : 0 < 16)).mpr (by omega))
      have hk2 : 2 ≤ k := by
        by_contra hlt
        have : k = 1 := by omega
        subst this
        simp at hn
        omega
      obtain ⟨k1, rfl⟩ : ∃ k1, k = k1 + 1 := ⟨k - 1, by omega⟩
      have hn1 : n / 16 < 16 ^ k1 := by
        rw [Nat.div_lt_iff_lt_mul (by decide)]
        rw [pow_succ] at hn
        exact hn
      obtain ⟨j, hj1, hjk, hnj, hd⟩ :=
        ih (n / 16) (digitChar true (n % 16) :: acc) k1 (by omega) (by omega) hn1
      refine ⟨j + 1, by omega, by omega, ?_, ?_⟩
      · rw [pow_succ]
        have := (Nat.div_lt_iff_lt_mul (by decide : 0 < 16)).mp hnj
        exact this
      · simp [digitsAux, h0, hexField, hd]

theorem digitChar_upper (d : Nat) (h : d < 16) : isUpperHexDigit (digitChar true d) = true := by
  interval_cases d <;> decide

theorem hexField_upper (w n : Nat) : ∀ c ∈ hexField w n, isUpperHexDigit c = true := by
  induction w generalizing n with
  | zero => intro c hc; simp [hexField] at hc
  | succ w ih =>
    intro c hc
    simp only [hexField, List.mem_append, List.mem_singleton] at hc
    rcases hc with hc | hc
    · exact ih _ c hc
    · subst hc
      exact digitChar_upper _ (Nat.mod_lt _ (by decide))

/-- In hexadecimal uppercase mode with fill `0`, a pending width `k` and a
value below `16 ^ k`, `os << (int)n` appends exactly the `k`-digit field. -/
theorem putInt_hexField (s : OStream) (k n : Nat) (hg : s.good = true) (hh : s.hex = true)
    (hu : s.uppercase = true) (hf : s.fillCh = '0') (hw : s.width = k) (hk : 1 ≤ k)
    (hn : n < 16 ^ k) :
    s.putInt n = { s with buf := s.buf ++ hexField k n, width := 0 } := by
  obtain ⟨j, _, hjk, hnj, hd⟩ := digitsAux_hex (n + 1) n [] k (by omega) hk hn
  have hpad : s.pad (digitsAux 16 true (n + 1) n []) = hexField k n := by
    rw [hd]
    simp only [OStream.pad, List.append_nil, hexField_length, hf, hw]
    exact hexField_pad k j n hjk hnj
  simp only [OStream.putInt, hh, hu, if_true, hpad, OStream.write, hg]

theorem putInt_mk (b : List Char) (k n : Nat) (hk : 1 ≤ k) (hn : n < 16 ^ k) :
    OStream.putInt ⟨true, b, '0', k, true, true⟩ n = ⟨true, b ++ hexField k n, '0', 0, true, true⟩ :=
  putInt_hexField _ k n rfl rfl rfl rfl rfl hk hn

theorem putData_loop (f : Nat → Nat) (n : Nat) (hf : ∀ i < n, f i < 256) (b : List Char) :
    (List.range n).foldl (fun (h : OStream) i => (h.setWidth 2).putInt (f i))
        (OStream.mk true b '0' 0 true true)
      = OStream.mk true (b ++ ((List.range n).map f).flatMap (hexField 2)) '0' 0 true true := by
  induction n with
  | zero => simp
  | succ n ih =>
    rw [List.range_succ, List.foldl_append, ih (fun i hi => hf i (by omega))]
    simp only [List.foldl_cons, List.foldl_nil, OStream.setWidth]
    rw [putInt_mk _ 2 (f n) (by decide) (hf n (by omega))]
    simp [List.flatMap_append, List.map_append]

theorem writeRecord_eq (r : IntelHexRecord_t) (s : OStream) (hwf : r.WF)
    (hlen : r.dataLength ≤ 16) (hs : s.Ready) :
    IntelHex_WriteRecordToFile r s
      = { s with buf := s.buf ++ recordLine r, width := 1, hex := false, uppercase := false } := by
  obtain ⟨hdl, hao, hty, hdlen, hdata, hck⟩ := hwf
  obtain ⟨hg, hw⟩ := hs
  obtain ⟨g, b, fc, w, hx, up⟩ := s
  simp only at hg hw
  subst hg
  have hw0 : w - 1 = 0 := by omega
  have hbytes : ∀ i < r.dataLength, r.dataAt i < 256 := by
    intro i hi
    have hi2 : i < r.data.length := by omega
    unfold IntelHexRecord_t.dataAt
    rw [List.getD_eq_getElem _ _ hi2]
    exact hdata _ (List.getElem_mem hi2)
  have hmap : (List.range r.dataLength).map r.dataAt = r.data.take r.dataLength :=
    map_getD_range r.data r.dataLength (by omega)
  have e1 := fun b => putInt_mk b 2 r.dataLength (by decide) (by simpa using hdl)
  have e2 := fun b => putInt_mk b 4 r.addressOffset (by decide) (by simpa using hao)
  have e3 := fun b => putInt_mk b 2 r.type (by decide) (by simpa using hty)
  have e4 := fun b => putData_loop r.dataAt r.dataLength hbytes b
  simp only [OStream.setWidth] at e4
  have e5 := fun b => putInt_mk b 2 r.checksum (by decide) (by simpa using hck)
  simp only [IntelHex_WriteRecordToFile, OStream.putChar, OStream.pad, OStream.write,
    OStream.fill, OStream.setHex, OStream.setUppercase, OStream.setWidth, OStream.endl,
    if_true, hw0, List.length_singleton, List.replicate_zero, List.nil_append,
    e1, e2, e3, e4, e5, hmap, recordLine, recordText]
  simp

/-! ## Reading payload bytes -/

theorem u8OfInt_byte (b : Nat) (h : b < 256) : u8OfInt (b : Int) = b := by
  unfold u8OfInt
  omega

theorem readData_succ (n : Nat) (record : IntelHexRecord_t) (elfFileHandle : IStream) :
    readData (n + 1) record elfFileHandle
      = ((readData n record elfFileHandle).1.setData n
            (u8OfInt (readData n record elfFileHandle).2.get.1),
         (readData n record elfFileHandle).2.get.2) := by
  simp [readData, List.range_succ, List.foldl_append]

/-- Reading payload bytes touches only the `data` array, and keeps its size. -/
theorem readData_fields (n : Nat) (record : IntelHexRecord_t) (elfFileHandle : IStream) :
    (readData n record elfFileHandle).1.dataLength = record.dataLength ∧
    (readData n record elfFileHandle).1.addressOffset = record.addressOffset ∧
    (readData n record elfFileHandle).1.type = record.type ∧
    (readData n record elfFileHandle).1.data.length = record.data.length := by
  induction n with
  | zero => simp [readData]
  | succ n ih =>
    rw [readData_succ]
    simpa [IntelHexRecord_t.setData] using ih

theorem set_take_append_drop (X D : List Nat) (n v : Nat) (hX : n ≤ X.length)
    (hD : n < D.length) :
    (X.take n ++ D.drop n).set n v = X.take n ++ v :: D.drop (n + 1) := by
  have hl : (X.take n).length = n := by simp [hX]
  rw [List.set_append]
  simp only [hl, Nat.lt_irrefl, if_false, Nat.sub_self]
  rw [List.drop_eq_getElem_cons hD]
  rfl

/-- With the stream good and `n` bytes left, the loop stores exactly the next
`n` bytes of the file in `data[0..n)` and advances the position by `n`. -/
theorem readData_ok (n : Nat) (record : IntelHexRecord_t) (bytes : List Nat) (pos : Nat)
    (h : pos + n ≤ bytes.length) (hb : ∀ b ∈ bytes, b < 256) (hn : n ≤ record.data.length) :
    readData n record ⟨bytes, pos, false⟩
      = ({ record with data := (bytes.drop pos).take n ++ record.data.drop n },
         ⟨bytes, pos + n, false⟩) := by
  induction n with
  | zero => simp [readData]
  | succ n ih =>
    rw [readData_succ, ih (by omega) (by omega)]
    have hp : pos + n < bytes.length := by omega
    have hget : (IStream.mk bytes (pos + n) false).get
        = ((bytes[pos + n] : Int), ⟨bytes, pos + n + 1, false⟩) := by
      simp [IStream.get, List.getElem?_eq_getElem hp]
    rw [hget]
    simp only [IntelHexRecord_t.setData, u8OfInt_byte _ (hb _ (List.getElem_mem hp))]
    rw [set_take_append_drop _ _ _ _ (by simp; omega) (by omega)]
    have ht : (bytes.drop pos).take (n + 1) = (bytes.drop pos).take n ++ [bytes[pos + n]] := by
      rw [List.take_succ]
      congr 1
      simp [List.getElem?_drop, List.getElem?_eq_getElem hp]
    rw [ht]
    simp [Nat.add_assoc]

/-! ## Any sink sees the logged records -/

theorem writeRecords_append {σ : Type} (writeRecord : IntelHexRecord_t → σ → σ) (out : σ)
    (rs ts : List IntelHexRecord_t) :
    writeRecords writeRecord out (rs ++ ts)
      = writeRecords writeRecord (writeRecords writeRecord out rs) ts := by
  simp [writeRecords, List.foldl_append]

theorem fullRecordStep_replay {σ : Type} (writeRecord : IntelHexRecord_t → σ → σ) (out : σ)
    (lt : SegState (List IntelHexRecord_t)) :
    fullRecordStep writeRecord (lt.replay writeRecord out)
      = (fullRecordStep logRecord lt).replay writeRecord out := by
  simp only [fullRecordStep, SegState.replay, writeRecords, logRecord, List.foldl_append,
    List.foldl_cons, List.foldl_nil]

theorem tailRecordStep_replay {σ : Type} (writeRecord : IntelHexRecord_t → σ → σ) (out : σ)
    (elfProgramHeader : Elf32_Phdr) (lt : SegState (List IntelHexRecord_t)) :
    tailRecordStep writeRecord elfProgramHeader (lt.replay writeRecord out)
      = (tailRecordStep logRecord elfProgramHeader lt).replay writeRecord out := by
  simp only [tailRecordStep, SegState.replay, writeRecords, logRecord, List.foldl_append,
    List.foldl_cons, List.foldl_nil]

theorem segment_loopInit_replay {σ : Type} (writeRecord : IntelHexRecord_t → σ → σ) (out : σ)
    (elfProgramHeader : Elf32_Phdr) (elfFileHandle : IStream) (record : IntelHexRecord_t) :
    segment_loopInit writeRecord elfProgramHeader elfFileHandle out record
      = (segment_loopInit logRecord elfProgramHeader elfFileHandle [] record).replay
          writeRecord out := by
  simp only [segment_loopInit, SegState.replay, writeRecords, logRecord, List.nil_append,
    List.foldl_cons, List.foldl_nil]

theorem iterate_replay {σ : Type} (writeRecord : IntelHexRecord_t → σ → σ) (out : σ)
    (n : Nat) (lt : SegState (List IntelHexRecord_t)) :
    (fullRecordStep writeRecord)^[n] (lt.replay writeRecord out)
      = ((fullRecordStep logRecord)^[n] lt).replay writeRecord out := by
  induction n generalizing lt with
  | zero => rfl
  | succ n ih =>
    rw [Function.iterate_succ_apply, Function.iterate_succ_apply, fullRecordStep_replay, ih]

/-- The segment encoder, run against any sink, leaves the input stream as the
logging run does and the sink as after writing the logged records in order. -/
theorem segment_eq_writeRecords {σ : Type} (writeRecord : IntelHexRecord_t → σ → σ)
    (elfProgramHeader : Elf32_Phdr) (elfFileHandle : IStream) (out : σ)
    (record : IntelHexRecord_t) :
    IntelHex_WriteElfProgramHeaderEntryToFile writeRecord elfProgramHeader elfFileHandle out
        record
      = ((IntelHex_WriteElfProgramHeaderEntryToFile logRecord elfProgramHeader elfFileHandle
            [] record).1,
         writeRecords writeRecord out (segmentRecords elfProgramHeader elfFileHandle record)) := by
  unfold segmentRecords IntelHex_WriteElfProgramHeaderEntryToFile
  by_cases hz : elfProgramHeader.p_filesz = 0
  · simp [hz, writeRecords]
  · simp only [ne_eq, hz, not_false_eq_true, if_true]
    rw [segment_loopInit_replay, iterate_replay]
    by_cases ht : elfProgramHeader.p_filesz % HEX_MAX_RECORD_LENGTH = 0
    · simp only [ht, not_true_eq_false, if_false]
      rfl
    · simp only [ht, not_false_eq_true, if_true]
      rw [tailRecordStep_replay]
      rfl

/-! ## The loop over full records -/

@[simp] theorem checksum_dataLength (r : IntelHexRecord_t) :
    (IntelHex_CalcRecordChecksum r).dataLength = r.dataLength := rfl

@[simp] theorem checksum_addressOffset (r : IntelHexRecord_t) :
    (IntelHex_CalcRecordChecksum r).addressOffset = r.addressOffset := rfl

@[simp] theorem checksum_type (r : IntelHexRecord_t) :
    (IntelHex_CalcRecordChecksum r).type = r.type := rfl

@[simp] theorem checksum_data (r : IntelHexRecord_t) :
    (IntelHex_CalcRecordChecksum r).data = r.data := rfl

theorem payload_append (rs ts : List IntelHexRecord_t) :
    payload (rs ++ ts) = payload rs ++ payload ts := by
  simp [payload, List.flatMap_append]

theorem payload_singleton (r : IntelHexRecord_t) :
    payload [r] = r.data.take r.dataLength := by
  simp [payload]

theorem take_drop_add (l : List Nat) (p a b : Nat) :
    (l.drop p).take a ++ (l.drop (p + a)).take b = (l.drop p).take (a + b) := by
  rw [List.take_add, List.drop_drop]

theorem fullLoopInv_zero (st0 : SegState (List IntelHexRecord_t))
    (hdl : st0.record.dataLength = 16) (hty : st0.record.type = 0)
    (ha : st0.segmentMemAddr < 65536) : FullLoopInv st0 st0 0 := by
  refine ⟨hdl, hty, rfl, by omega, [], by simp, rfl, ?_, ?_⟩
  · intro i hi; simp at hi
  · intro bytes pos h _ _ _
    simp [h, payload]

theorem fullLoopInv_step (st0 st : SegState (List IntelHexRecord_t)) (k : Nat)
    (h : FullLoopInv st0 st k) : FullLoopInv st0 (fullRecordStep logRecord st) (k + 1) := by
  obtain ⟨hdl, hty, hlen, haddr, L, hlog, hL, hrec, hdata⟩ := h
  have hf := readData_fields HEX_MAX_RECORD_LENGTH
    { st.record with addressOffset := st.segmentMemAddr } st.elfFileHandle
  simp only at hf
  obtain ⟨f1, f2, f3, f4⟩ := hf
  refine ⟨?_, ?_, ?_, ?_, L ++ [(fullRecordStep logRecord st).record], ?_, ?_, ?_, ?_⟩
  · simpa [fullRecordStep, hdl] using f1
  · simpa [fullRecordStep, hty] using f3
  · simpa [fullRecordStep, hlen] using f4
  · simp only [fullRecordStep, haddr, u16, HEX_MAX_RECORD_LENGTH]
    omega
  · simp [fullRecordStep, logRecord, hlog]
  · simp [hL]
  · intro i hi
    by_cases hik : i < L.length
    · rw [List.getElem_append_left hik]
      exact hrec i hik
    · have hieq : i = k := by
        simp at hi
        omega
      subst hieq
      rw [List.getElem_append_right (by omega)]
      simp only [hL, Nat.sub_self, List.getElem_cons_zero]
      refine ⟨?_, ?_, ?_⟩
      · simpa [fullRecordStep, hty] using f3
      · simpa [fullRecordStep, hdl] using f1
      · simpa [fullRecordStep, haddr] using f2
  · intro bytes pos hin hb h16 hk
    obtain ⟨hs, hp⟩ := hdata bytes pos hin hb h16 (by omega)
    have hr : readData HEX_MAX_RECORD_LENGTH
        { st.record with addressOffset := st.segmentMemAddr } st.elfFileHandle
        = ({ st.record with
              addressOffset := st.segmentMemAddr,
              data := (bytes.drop (pos + 16 * k)).take 16 ++ st.record.data.drop 16 },
           ⟨bytes, pos + 16 * k + 16, false⟩) := by
      rw [hs]
      exact readData_ok 16 _ bytes (pos + 16 * k) (by omega) hb (by simp; omega)
    simp only [fullRecordStep, hr]
    simp only [payload_append, payload_singleton, hp, checksum_dataLength, checksum_data, hdl]
    refine ⟨by simp [Nat.mul_add, Nat.add_assoc], ?_⟩
    have hl16 : ((bytes.drop (pos + 16 * k)).take 16).length = 16 := by
      simp; omega
    rw [List.take_left' hl16, take_drop_add]
    simp [Nat.mul_add]

theorem fullLoopInv_iterate (st0 : SegState (List IntelHexRecord_t))
    (hdl : st0.record.dataLength = 16) (hty : st0.record.type = 0)
    (ha : st0.segmentMemAddr < 65536) (k : Nat) :
    FullLoopInv st0 ((fullRecordStep logRecord)^[k] st0) k := by
  induction k with
  | zero => exact fullLoopInv_zero st0 hdl hty ha
  | succ k ih =>
    rw [Function.iterate_succ_apply']
    exact fullLoopInv_step st0 _ k ih

/-! ## The records of one segment -/

theorem and_0xFFFF (x : Nat) : x &&& 0x0000FFFF = x % 65536 :=
  Nat.and_pow_two_sub_one_eq_mod x 16

theorem segment_loopInit_log (ph : Elf32_Phdr) (inp : IStream) (rec : IntelHexRecord_t) :
    (segment_loopInit logRecord ph inp [] rec).record.dataLength = 16 ∧
    (segment_loopInit logRecord ph inp [] rec).record.type = 0 ∧
    (segment_loopInit logRecord ph inp [] rec).record.data.length = rec.data.length ∧
    (segment_loopInit logRecord ph inp [] rec).segmentMemAddr = ph.p_paddr % 65536 ∧
    (segment_loopInit logRecord ph inp [] rec).elfFileHandle = inp.seekg ph.p_offset ∧
    (segment_loopInit logRecord ph inp [] rec).hexFileHandle = [segment_addressRecord ph rec] := by
  refine ⟨rfl, rfl, ?_, ?_, rfl, rfl⟩
  · simp [segment_loopInit, segment_addressRecord, IntelHexRecord_t.setData]
  · simp [segment_loopInit, and_0xFFFF, u16]

/-- The records of a segment with `p_filesz ≠ 0`: the extended address
record, then the full Data records `L`, then the short Data record `tl` if
there is one; with the stream good and the segment's bytes present, the Data
records carry exactly those bytes. -/
theorem segmentRecords_shape (ph : Elf32_Phdr) (inp : IStream) (rec : IntelHexRecord_t)
    (hn : ph.p_filesz ≠ 0) :
    ∃ L tl : List IntelHexRecord_t,
      segmentRecords ph inp rec = segment_addressRecord ph rec :: (L ++ tl) ∧
      L.length = ph.p_filesz / 16 ∧
      (∀ i (hi : i < L.length), L[i].type = 0 ∧ L[i].dataLength = 16 ∧
        L[i].addressOffset = (ph.p_paddr % 65536 + 16 * i) % 65536) ∧
      (ph.p_filesz % 16 = 0 → tl = []) ∧
      (ph.p_filesz % 16 ≠ 0 → ∃ t, tl = [t] ∧ t.type = 0 ∧ t.dataLength = ph.p_filesz % 16 ∧
        t.addressOffset = (ph.p_paddr % 65536 + 16 * (ph.p_filesz / 16)) % 65536) ∧
      (∀ bytes pos, inp = ⟨bytes, pos, false⟩ → (∀ b ∈ bytes, b < 256) →
        rec.data.length = 16 → ph.p_offset + ph.p_filesz ≤ bytes.length →
        payload (L ++ tl) = (bytes.drop ph.p_offset).take ph.p_filesz) := by
  obtain ⟨i1, i2, i3, i4, i5, i6⟩ := segment_loopInit_log ph inp rec
  have hinv := fullLoopInv_iterate (segment_loopInit logRecord ph inp [] rec) i1 i2
    (by rw [i4]; exact Nat.mod_lt _ (by decide)) (ph.p_filesz / 16)
  obtain ⟨hdl, hty, hlen, haddr, L, hlog, hL, hrec, hdata⟩ := hinv
  rw [i4] at haddr hrec
  rw [i6] at hlog
  rw [i3] at hlen hdata
  rw [i5] at hdata
  have hsplit : 16 * (ph.p_filesz / 16) + ph.p_filesz % 16 = ph.p_filesz := Nat.div_add_mod _ 16
  by_cases ht : ph.p_filesz % 16 = 0
  · refine ⟨L, [], ?_, hL, hrec, fun _ => rfl, fun h => absurd ht h, ?_⟩
    · simp [segmentRecords, IntelHex_WriteElfProgramHeaderEntryToFile, hn,
        HEX_MAX_RECORD_LENGTH, ht, hlog]
    · intro bytes pos hin hb h16 hle
      subst hin
      have := (hdata bytes ph.p_offset (by simp [IStream.seekg]) hb h16 (by omega)).2
      simp only [List.append_nil, this]
      congr 1
      omega
  · let st := (fullRecordStep logRecord)^[ph.p_filesz / 16]
      (segment_loopInit logRecord ph inp [] rec)
    have hu8 : u8 (ph.p_filesz % 16) = ph.p_filesz % 16 := by
      unfold u8; omega
    have hf := readData_fields (ph.p_filesz % 16)
      { st.record with dataLength := ph.p_filesz % 16, addressOffset := st.segmentMemAddr }
      st.elfFileHandle
    simp only at hf
    obtain ⟨f1, f2, f3, f4⟩ := hf
    refine ⟨L, [(tailRecordStep logRecord ph st).record], ?_, hL, hrec,
      fun h => absurd h ht, fun _ => ⟨_, rfl, ?_, ?_, ?_⟩, ?_⟩
    · simp [segmentRecords, IntelHex_WriteElfProgramHeaderEntryToFile, hn,
        HEX_MAX_RECORD_LENGTH, ht, st, tailRecordStep, logRecord, hlog]
    · simpa [tailRecordStep, HEX_MAX_RECORD_LENGTH, hu8, hty, st] using f3
    · simpa [tailRecordStep, HEX_MAX_RECORD_LENGTH, hu8, st] using f1
    · simpa [tailRecordStep, HEX_MAX_RECORD_LENGTH, hu8, haddr, st] using f2
    · intro bytes pos hin hb h16 hle
      subst hin
      obtain ⟨hs, hp⟩ := hdata bytes ph.p_offset (by simp [IStream.seekg]) hb h16 (by omega)
      have hr : readData (ph.p_filesz % 16)
          { st.record with dataLength := ph.p_filesz % 16, addressOffset := st.segmentMemAddr }
          st.elfFileHandle
          = ({ st.record with
                dataLength := ph.p_filesz % 16,
                addressOffset := st.segmentMemAddr,
                data := (bytes.drop (ph.p_offset + 16 * (ph.p_filesz / 16))).take
                          (ph.p_filesz % 16) ++ st.record.data.drop (ph.p_filesz % 16) },
             ⟨bytes, ph.p_offset + 16 * (ph.p_filesz / 16) + ph.p_filesz % 16, false⟩) := by
        rw [hs]
        exact readData_ok _ _ bytes _ (by omega) hb (by simp only [st, hlen, h16]; omega)
      have hlt : ((bytes.drop (ph.p_offset + 16 * (ph.p_filesz / 16))).take
          (ph.p_filesz % 16)).length = ph.p_filesz % 16 := by
        simp; omega
      simp only [tailRecordStep, HEX_MAX_RECORD_LENGTH, hu8, hr]
      simp only [payload_append, payload_singleton, hp, checksum_dataLength, checksum_data]
      rw [List.take_left' hlt, take_drop_add, hsplit]

/-! # Properties of the record codec -/

/-- C1: for every record with `dataLength ≤ 16`, after
`IntelHex_CalcRecordChecksum` the stored checksum `c` makes the sum (over the
natural numbers) of `dataLength`, the low and the high byte of `addressOffset`,
`type`, `data[0..dataLength)` and `c` a multiple of 256; equivalently
`c = (256 - sum mod 256) mod 256`, which is 0 when the sum is a multiple of 256. -/
theorem calcRecordChecksum_complement (record : IntelHexRecord_t)
    (hdata : record.data.length = 16) (hlen : record.dataLength ≤ 16) :
    (recordByteSum record + (IntelHex_CalcRecordChecksum record).checksum) % 256 = 0 ∧
    (IntelHex_CalcRecordChecksum record).checksum = (256 - recordByteSum record % 256) % 256 ∧
    (recordByteSum record % 256 = 0 → (IntelHex_CalcRecordChecksum record).checksum = 0) := by
  have h := checksum_eq record (by omega)
  rw [h]
  omega

theorem calcRecordChecksum_complement_witness :
    sampleRecord.data.length = 16 ∧ sampleRecord.dataLength ≤ 16 ∧
    ((recordByteSum sampleRecord + (IntelHex_CalcRecordChecksum sampleRecord).checksum) % 256 = 0 ∧
     (IntelHex_CalcRecordChecksum sampleRecord).checksum
        = (256 - recordByteSum sampleRecord % 256) % 256 ∧
     (recordByteSum sampleRecord % 256 = 0 →
        (IntelHex_CalcRecordChecksum sampleRecord).checksum = 0)) :=
  ⟨by decide, by decide, calcRecordChecksum_complement sampleRecord (by decide) (by decide)⟩

theorem recordText_length (r : IntelHexRecord_t) (hlen : r.dataLength ≤ r.data.length) :
    (recordText r).length = 11 + 2 * r.dataLength := by
  have hsum : ∀ l : List Nat, (l.flatMap (hexField 2)).length = 2 * l.length := by
    intro l
    induction l with
    | nil => rfl
    | cons a l ih => simp [List.flatMap_cons, hexField_length, ih]; omega
  simp only [recordText, List.length_cons, List.length_append, hexField_length, hsum,
    List.length_take]
  omega

theorem recordText_upper (r : IntelHexRecord_t) :
    ∀ c ∈ (recordText r).tail, isUpperHexDigit c = true := by
  intro c hc
  simp only [recordText, List.tail_cons, List.mem_append, List.mem_flatMap] at hc
  rcases hc with (((hc | hc) | hc) | ⟨_, _, hc⟩) | hc <;> exact hexField_upper _ _ c hc

/-- C2: for every record with `dataLength ≤ 16`, `IntelHex_WriteRecordToFile`
appends exactly `:`, `dataLength` as 2 hex digits, `addressOffset` as 4,
`type` as 2, each of `data[0..dataLength)` as 2 in index order, `checksum` as
2, then one line break; the digits are in `0-9A-F`, every field has its fixed
width, and the line has `11 + 2 * dataLength` characters before the line break. -/
theorem writeRecordToFile_line (record : IntelHexRecord_t) (hexFileHandle : OStream)
    (hwf : record.WF) (hlen : record.dataLength ≤ 16) (hs : hexFileHandle.Ready) :
    (IntelHex_WriteRecordToFile record hexFileHandle).buf
      = hexFileHandle.buf
        ++ ':' :: (hexField 2 record.dataLength ++ hexField 4 record.addressOffset
            ++ hexField 2 record.type
            ++ (record.data.take record.dataLength).flatMap (hexField 2)
            ++ hexField 2 record.checksum)
        ++ ['\n'] ∧
    (recordText record).length = 11 + 2 * record.dataLength ∧
    (∀ c ∈ (recordText record).tail, isUpperHexDigit c = true) ∧
    (∀ w n, (hexField w n).length = w) ∧
    (IntelHex_WriteRecordToFile record hexFileHandle).Ready := by
  have hd : record.data.length = 16 := hwf.2.2.2.1
  rw [writeRecord_eq record hexFileHandle hwf hlen hs]
  refine ⟨?_, recordText_length record (by omega), recordText_upper record,
    hexField_length, ?_⟩
  · simp [recordLine, recordText]
  · exact ⟨hs.1, le_refl 1⟩

theorem writeRecordToFile_line_witness :
    (IntelHex_CalcRecordChecksum sampleRecord).WF ∧
    (IntelHex_CalcRecordChecksum sampleRecord).dataLength ≤ 16 ∧
    OStream.opened.Ready ∧
    (IntelHex_WriteRecordToFile (IntelHex_CalcRecordChecksum sampleRecord) OStream.opened).buf
      = ":10001000000102030405060708090A0B0C0D0EFF78\n".toList :=
  ⟨by decide, by decide, by decide,
    (writeRecordToFile_line (IntelHex_CalcRecordChecksum sampleRecord) OStream.opened
      (by decide) (by decide) (by decide)).1.trans (by decide)⟩

/-! # Properties of the segment encoder -/

theorem segment_addressRecord_fields (ph : Elf32_Phdr) (rec : IntelHexRecord_t) :
    (segment_addressRecord ph rec).type = 4 ∧ (segment_addressRecord ph rec).dataLength = 2 ∧
    (segment_addressRecord ph rec).addressOffset = 0 :=
  ⟨rfl, rfl, rfl⟩

/-- C3: for every program header entry with `p_filesz = n > 0`, the segment
encoder emits, in this order, one Extended Linear Address record (type 4,
length 2, offset 0), then `n / 16` Data records of length 16, then, iff
`n % 16 ≠ 0`, one Data record of length `n % 16`: `1 + ⌈n / 16⌉` records, every
Data record has a length between 1 and 16, and no other type appears. The
text written is that of these records, in this order. -/
theorem segment_record_sequence (elfProgramHeader : Elf32_Phdr) (elfFileHandle : IStream)
    (record : IntelHexRecord_t) (hn : 0 < elfProgramHeader.p_filesz) :
    ∃ (ela : IntelHexRecord_t) (L tl : List IntelHexRecord_t),
      segmentRecords elfProgramHeader elfFileHandle record = ela :: (L ++ tl) ∧
      (∀ hexFileHandle : OStream,
        (IntelHex_WriteElfProgramHeaderEntryToFile IntelHex_WriteRecordToFile elfProgramHeader
            elfFileHandle hexFileHandle record).2
          = writeRecords IntelHex_WriteRecordToFile hexFileHandle (ela :: (L ++ tl))) ∧
      (ela.type = HEX_RECORD_TYPE_EXTENDED_LINEAR_ADDR ∧ ela.dataLength = 2 ∧
        ela.addressOffset = 0) ∧
      L.length = elfProgramHeader.p_filesz / 16 ∧
      (∀ r ∈ L, r.type = HEX_RECORD_TYPE_DATA ∧ r.dataLength = 16) ∧
      (elfProgramHeader.p_filesz % 16 = 0 ↔ tl = []) ∧
      (elfProgramHeader.p_filesz % 16 ≠ 0 →
        ∃ t, tl = [t] ∧ t.type = HEX_RECORD_TYPE_DATA ∧
          t.dataLength = elfProgramHeader.p_filesz % 16) ∧
      (segmentRecords elfProgramHeader elfFileHandle record).length
        = 1 + (elfProgramHeader.p_filesz + 15) / 16 ∧
      (∀ r ∈ L ++ tl, r.type = HEX_RECORD_TYPE_DATA ∧ 1 ≤ r.dataLength ∧ r.dataLength ≤ 16) := by
  obtain ⟨L, tl, heq, hL, hrec, htl0, htl1, _⟩ :=
    segmentRecords_shape elfProgramHeader elfFileHandle record (by omega)
  have hLall : ∀ r ∈ L, r.type = HEX_RECORD_TYPE_DATA ∧ r.dataLength = 16 := by
    intro r hr
    obtain ⟨i, hi, rfl⟩ := List.getElem_of_mem hr
    exact ⟨(hrec i hi).1, (hrec i hi).2.1⟩
  refine ⟨segment_addressRecord elfProgramHeader record, L, tl, heq, ?_,
    segment_addressRecord_fields _ _, hL, hLall, ?_, ?_, ?_, ?_⟩
  · intro hexFileHandle
    rw [segment_eq_writeRecords, heq]
  · constructor
    · exact htl0
    · intro h
      by_contra hne
      obtain ⟨t, ht, _⟩ := htl1 hne
      rw [h] at ht
      exact List.noConfusion ht
  · intro hne
    obtain ⟨t, ht, h1, h2, _⟩ := htl1 hne
    exact ⟨t, ht, h1, h2⟩
  · rw [heq]
    by_cases hz : elfProgramHeader.p_filesz % 16 = 0
    · simp only [htl0 hz, List.append_nil, List.length_cons, hL]
      omega
    · obtain ⟨t, ht, _⟩ := htl1 hz
      simp only [ht, List.length_cons, List.length_append, hL, List.length_nil]
      omega
  · intro r hr
    rcases List.mem_append.mp hr with hr | hr
    · obtain ⟨h1, h2⟩ := hLall r hr
      exact ⟨h1, by omega, by omega⟩
    · by_cases hz : elfProgramHeader.p_filesz % 16 = 0
      · rw [htl0 hz] at hr
        simp at hr
      · obtain ⟨t, ht, h1, h2, _⟩ := htl1 hz
        rw [ht] at hr
        simp only [List.mem_singleton] at hr
        subst hr
        exact ⟨h1, by omega, by omega⟩

theorem segment_record_sequence_witness :
    0 < samplePhdr.p_filesz ∧
    (segmentRecords samplePhdr sampleStream staleRecord).length
      = 1 + (samplePhdr.p_filesz + 15) / 16 := by
  obtain ⟨_, _, _, _, _, _, _, _, _, _, h, _⟩ :=
    segment_record_sequence samplePhdr sampleStream staleRecord (by decide)
  exact ⟨by decide, h⟩

theorem dataRecords_shape (ela : IntelHexRecord_t) (R : List IntelHexRecord_t)
    (hela : ela.type = 4) (hR : ∀ r ∈ R, r.type = 0) : dataRecords (ela :: R) = R := by
  unfold dataRecords
  rw [List.filter_cons_of_neg (by simp [hela, HEX_RECORD_TYPE_DATA])]
  exact List.filter_eq_self.mpr (fun r hr => by simp [hR r hr, HEX_RECORD_TYPE_DATA])

/-- The Data records of a segment are the records after the first one. -/
theorem dataRecords_segment (ph : Elf32_Phdr) (inp : IStream) (rec : IntelHexRecord_t)
    (L tl : List IntelHexRecord_t)
    (heq : segmentRecords ph inp rec = segment_addressRecord ph rec :: (L ++ tl))
    (hrec : ∀ i (hi : i < L.length), L[i].type = 0 ∧ L[i].dataLength = 16 ∧
        L[i].addressOffset = (ph.p_paddr % 65536 + 16 * i) % 65536)
    (htl0 : ph.p_filesz % 16 = 0 → tl = [])
    (htl1 : ph.p_filesz % 16 ≠ 0 → ∃ t, tl = [t] ∧ t.type = 0 ∧ t.dataLength = ph.p_filesz % 16 ∧
        t.addressOffset = (ph.p_paddr % 65536 + 16 * (ph.p_filesz / 16)) % 65536) :
    dataRecords (segmentRecords ph inp rec) = L ++ tl := by
  rw [heq]
  apply dataRecords_shape _ _ rfl
  intro r hr
  rcases List.mem_append.mp hr with hr | hr
  · obtain ⟨i, hi, rfl⟩ := List.getElem_of_mem hr
    exact (hrec i hi).1
  · by_cases hz : ph.p_filesz % 16 = 0
    · rw [htl0 hz] at hr
      simp at hr
    · obtain ⟨t, ht, h1, _⟩ := htl1 hz
      rw [ht] at hr
      simp only [List.mem_singleton] at hr
      subst hr
      exact h1

/-- C4: for every program header entry with `p_filesz = n > 0` and every good
source holding at least `p_offset + n` bytes, the data bytes of the Data
records emitted, concatenated in emission order, are exactly the `n` source
bytes at positions `p_offset .. p_offset + n - 1`. -/
theorem segment_payload_eq_source (elfProgramHeader : Elf32_Phdr) (record : IntelHexRecord_t)
    (bytes : List Nat) (pos : Nat) (hn : 0 < elfProgramHeader.p_filesz)
    (hb : ∀ b ∈ bytes, b < 256) (hrec : record.data.length = 16)
    (hle : elfProgramHeader.p_offset + elfProgramHeader.p_filesz ≤ bytes.length) :
    payload (dataRecords (segmentRecords elfProgramHeader ⟨bytes, pos, false⟩ record))
      = (bytes.drop elfProgramHeader.p_offset).take elfProgramHeader.p_filesz ∧
    (payload (dataRecords (segmentRecords elfProgramHeader ⟨bytes, pos, false⟩ record))).length
      = elfProgramHeader.p_filesz := by
  obtain ⟨L, tl, heq, _, hrec1, htl0, htl1, hpay⟩ :=
    segmentRecords_shape elfProgramHeader ⟨bytes, pos, false⟩ record (by omega)
  rw [dataRecords_segment elfProgramHeader _ record L tl heq hrec1 htl0 htl1]
  rw [hpay bytes pos rfl hb hrec hle]
  refine ⟨rfl, ?_⟩
  simp
  omega

theorem segment_payload_eq_source_witness :
    0 < samplePhdr.p_filesz ∧ (∀ b ∈ sampleBytes, b < 256) ∧ staleRecord.data.length = 16 ∧
    samplePhdr.p_offset + samplePhdr.p_filesz ≤ sampleBytes.length ∧
    payload (dataRecords (segmentRecords samplePhdr ⟨sampleBytes, 0, false⟩ staleRecord))
      = [104, 105, 106, 107, 108, 109, 110, 111, 112, 113, 114, 115, 116, 117, 118, 119,
         120, 121, 122, 123] :=
  ⟨by decide, by decide, by decide, by decide,
    (segment_payload_eq_source samplePhdr staleRecord sampleBytes 0 (by decide) (by decide)
      (by decide) (by decide)).1.trans (by decide)⟩

theorem and_0xFFFF0000_shift24 (x : Nat) : (x &&& 0xFFFF0000) >>> 24 = x / 2 ^ 24 % 256 := by
  rw [and_shiftRight_distrib]
  have h : (0xFFFF0000 : Nat) >>> 24 = 2 ^ 8 - 1 := by decide
  rw [h, Nat.and_pow_two_sub_one_eq_mod, Nat.shiftRight_eq_div_pow]

theorem and_0xFFFF0000_shift16 (x : Nat) : (x &&& 0xFFFF0000) >>> 16 = x / 2 ^ 16 % 65536 := by
  rw [and_shiftRight_distrib]
  have h : (0xFFFF0000 : Nat) >>> 16 = 2 ^ 16 - 1 := by decide
  rw [h, Nat.and_pow_two_sub_one_eq_mod, Nat.shiftRight_eq_div_pow]

theorem segment_addressRecord_data (ph : Elf32_Phdr) (rec : IntelHexRecord_t)
    (hrec : 2 ≤ rec.data.length) :
    (segment_addressRecord ph rec).dataAt 0 = ph.p_paddr / 2 ^ 24 % 256 ∧
    (segment_addressRecord ph rec).dataAt 1 = ph.p_paddr / 2 ^ 16 % 256 := by
  simp only [segment_addressRecord, IntelHexRecord_t.dataAt, IntelHexRecord_t.setData,
    checksum_data, and_0xFFFF0000_shift24, and_0xFFFF0000_shift16, u8]
  match hd : rec.data, hrec with
  | d0 :: d1 :: rest, _ =>
    simp only [List.set_cons_zero, List.set_cons_succ, List.getD_cons_zero, List.getD_cons_succ]
    omega

/-- C5: for every 32-bit `p_paddr`, the two data bytes of the Extended Linear
Address record the segment encoder emits are the upper 16 bits of `p_paddr`,
most significant byte first: `data[0]` is bits 24..31, `data[1]` is bits
16..23, and `256 * data[0] + data[1] = p_paddr / 65536`. -/
theorem segment_address_bytes (elfProgramHeader : Elf32_Phdr) (elfFileHandle : IStream)
    (record : IntelHexRecord_t) (hp : elfProgramHeader.p_paddr < 4294967296)
    (hn : 0 < elfProgramHeader.p_filesz) (hrec : record.data.length = 16) :
    ∃ (ela : IntelHexRecord_t) (rest : List IntelHexRecord_t),
      segmentRecords elfProgramHeader elfFileHandle record = ela :: rest ∧
      ela.type = HEX_RECORD_TYPE_EXTENDED_LINEAR_ADDR ∧ ela.dataLength = 2 ∧
      ela.dataAt 0 = elfProgramHeader.p_paddr / 2 ^ 24 % 256 ∧
      ela.dataAt 1 = elfProgramHeader.p_paddr / 2 ^ 16 % 256 ∧
      256 * ela.dataAt 0 + ela.dataAt 1 = elfProgramHeader.p_paddr / 65536 := by
  obtain ⟨L, tl, heq, _⟩ :=
    segmentRecords_shape elfProgramHeader elfFileHandle record (by omega)
  obtain ⟨h0, h1⟩ := segment_addressRecord_data elfProgramHeader record (by omega)
  refine ⟨segment_addressRecord elfProgramHeader record, L ++ tl, heq, rfl, rfl, h0, h1, ?_⟩
  rw [h0, h1]
  omega

theorem segment_address_bytes_witness :
    samplePhdr.p_paddr < 4294967296 ∧ 0 < samplePhdr.p_filesz ∧
    staleRecord.data.length = 16 ∧
    ∃ (ela : IntelHexRecord_t) (rest : List IntelHexRecord_t),
      segmentRecords samplePhdr sampleStream staleRecord = ela :: rest ∧
      ela.type = HEX_RECORD_TYPE_EXTENDED_LINEAR_ADDR ∧ ela.dataLength = 2 ∧
      ela.dataAt 0 = samplePhdr.p_paddr / 2 ^ 24 % 256 ∧
      ela.dataAt 1 = samplePhdr.p_paddr / 2 ^ 16 % 256 ∧
      256 * ela.dataAt 0 + ela.dataAt 1 = samplePhdr.p_paddr / 65536 :=
  ⟨by decide, by decide, by decide,
    segment_address_bytes samplePhdr sampleStream staleRecord (by decide) (by decide)
      (by decide)⟩

/-- C6: for every program header entry with `p_filesz > 0`, the `i`-th Data
record the segment encoder emits (from 0, the final short record included) has
`addressOffset = ((p_paddr mod 65536) + 16 * i) mod 65536`. -/
theorem segment_data_addresses (elfProgramHeader : Elf32_Phdr) (elfFileHandle : IStream)
    (record : IntelHexRecord_t) (hn : 0 < elfProgramHeader.p_filesz) (i : Nat)
    (hi : i < (dataRecords (segmentRecords elfProgramHeader elfFileHandle record)).length) :
    ((dataRecords (segmentRecords elfProgramHeader elfFileHandle record)).get ⟨i, hi⟩).addressOffset
      = (elfProgramHeader.p_paddr % 65536 + 16 * i) % 65536 := by
  obtain ⟨L, tl, heq, hL, hrec, htl0, htl1, _⟩ :=
    segmentRecords_shape elfProgramHeader elfFileHandle record (by omega)
  have hd := dataRecords_segment elfProgramHeader elfFileHandle record L tl heq
    hrec htl0 htl1
  have key : ∀ (R : List IntelHexRecord_t) (hR : R = L ++ tl) (hi : i < R.length),
      (R.get ⟨i, hi⟩).addressOffset = (elfProgramHeader.p_paddr % 65536 + 16 * i) % 65536 := by
    intro R hR hi
    subst hR
    rw [List.get_eq_getElem]
    by_cases hik : i < L.length
    · rw [List.getElem_append_left hik]
      exact (hrec i hik).2.2
    · by_cases hz : elfProgramHeader.p_filesz % 16 = 0
      · rw [htl0 hz] at hi
        simp at hi
        omega
      · obtain ⟨t, ht, _, _, h3⟩ := htl1 hz
        subst ht
        have hieq : i = L.length := by
          simp at hi
          omega
        subst hieq
        rw [List.getElem_append_right (le_refl _)]
        simp only [Nat.sub_self, List.getElem_cons_zero, h3, hL]
  exact key _ hd hi

theorem segment_data_addresses_witness :
    0 < samplePhdr.p_filesz ∧
    ∃ hi : 1 < (dataRecords (segmentRecords samplePhdr sampleStream staleRecord)).length,
      ((dataRecords (segmentRecords samplePhdr sampleStream staleRecord)).get ⟨1, hi⟩).addressOffset
        = (samplePhdr.p_paddr % 65536 + 16 * 1) % 65536 :=
  ⟨by decide, by decide,
    segment_data_addresses samplePhdr sampleStream staleRecord (by decide) 1 (by decide)⟩

/-- C8: for every program header entry with `p_filesz = 0`, whatever its other
fields and whatever the source contains, the segment encoder emits no record
at all and leaves the output (and the input stream) unchanged. -/
theorem segment_empty_emits_nothing (elfProgramHeader : Elf32_Phdr) (elfFileHandle : IStream)
    (hexFileHandle : OStream) (record : IntelHexRecord_t)
    (hz : elfProgramHeader.p_filesz = 0) :
    segmentRecords elfProgramHeader elfFileHandle record = [] ∧
    IntelHex_WriteElfProgramHeaderEntryToFile IntelHex_WriteRecordToFile elfProgramHeader
        elfFileHandle hexFileHandle record
      = (elfFileHandle, hexFileHandle) := by
  simp [segmentRecords, IntelHex_WriteElfProgramHeaderEntryToFile, hz]

theorem segment_empty_emits_nothing_witness :
    emptyPhdr.p_filesz = 0 ∧
    segmentRecords emptyPhdr sampleStream staleRecord = [] ∧
    IntelHex_WriteElfProgramHeaderEntryToFile IntelHex_WriteRecordToFile emptyPhdr
        sampleStream OStream.opened staleRecord
      = (sampleStream, OStream.opened) :=
  ⟨rfl, segment_empty_emits_nothing emptyPhdr sampleStream OStream.opened staleRecord rfl⟩

/-! # Properties of the validity predicate -/

theorem strncmp_ELF (s : List Nat) :
    strncmp s strELF 3 = 0 ↔ s.getD 0 0 = 69 ∧ s.getD 1 0 = 76 ∧ s.getD 2 0 = 70 := by
  match s with
  | [] => simp [strncmp, strELF]
  | [a] => simp [strncmp, strELF]; omega
  | [a, b] => simp [strncmp, strELF]; omega
  | a :: b :: c :: rest => simp [strncmp, strELF]; omega

theorem getD_drop_one (l : List Nat) (i : Nat) : (l.drop 1).getD i 0 = l.getD (i + 1) 0 := by
  cases l with
  | nil => simp
  | cons a l => simp

theorem checkHeaderValidity_eq (h : Elf32_Ehdr) :
    ArmElf32_CheckHeaderValidity h = if ValidArm32Header h then 1 else 0 := by
  unfold ArmElf32_CheckHeaderValidity ValidArm32Header
  simp only [strncmp_ELF, getD_drop_one, EI_MAG0, EI_MAG1, EI_CLASS, EI_DATA, EI_VERSION,
    ELFMAG0, ELFCLASS32, ELFDATA2LSB, EV_CURRENT, ET_EXEC, EM_ARM]

theorem getD_set (l : List Nat) (i j v : Nat) (hi : i < l.length) :
    (l.set i v).getD j 0 = if j = i then v else l.getD j 0 := by
  simp only [List.getD_eq_getElem?_getD, List.getElem?_set]
  by_cases hji : j = i
  · subst hji
    simp [hi]
  · have : ¬ i = j := fun h => hji h.symm
    simp [hji, this]

/-- C7: `ArmElf32_CheckHeaderValidity` returns 1 iff all twelve conditions
hold and 0 otherwise; changing any single one of these fields of a valid
header to a value that violates its condition makes the result 0. -/
theorem checkHeaderValidity_iff (h : Elf32_Ehdr) :
    (ArmElf32_CheckHeaderValidity h = 1 ↔ ValidArm32Header h) ∧
    (¬ ValidArm32Header h → ArmElf32_CheckHeaderValidity h = 0) ∧
    (ValidArm32Header h →
      (∀ i v, i < 7 → v ≠ requiredIdent.getD i 0 →
        ArmElf32_CheckHeaderValidity { h with e_ident := h.e_ident.set i v } = 0) ∧
      (∀ v, v ≠ 2 → ArmElf32_CheckHeaderValidity { h with e_type := v } = 0) ∧
      (∀ v, v ≠ 0x28 → ArmElf32_CheckHeaderValidity { h with e_machine := v } = 0) ∧
      (∀ v, v ≠ 1 → ArmElf32_CheckHeaderValidity { h with e_version := v } = 0) ∧
      ArmElf32_CheckHeaderValidity { h with e_phoff := 0 } = 0 ∧
      ArmElf32_CheckHeaderValidity { h with e_ehsize := 0 } = 0 ∧
      ArmElf32_CheckHeaderValidity { h with e_phentsize := 0 } = 0 ∧
      ArmElf32_CheckHeaderValidity { h with e_phnum := 0 } = 0) := by
  refine ⟨?_, ?_, ?_⟩
  · rw [checkHeaderValidity_eq]
    by_cases hv : ValidArm32Header h <;> simp [hv]
  · intro hv
    rw [checkHeaderValidity_eq]
    simp [hv]
  · intro hv
    have hlen : 6 < h.e_ident.length := by
      by_contra hlt
      have h6 := hv.2.2.2.2.1
      rw [List.getD_eq_default _ _ (by omega)] at h6
      exact absurd h6 (by decide)
    refine ⟨?_, ?_, ?_, ?_, ?_, ?_, ?_, ?_⟩
    · intro i v hi hne
      rw [checkHeaderValidity_eq]
      have hnot : ¬ ValidArm32Header { h with e_ident := h.e_ident.set i v } := by
        intro hv2
        unfold ValidArm32Header at hv2
        simp only [getD_set _ i _ v (by omega : i < h.e_ident.length)] at hv2
        obtain ⟨a0, ⟨a1, a2, a3⟩, a4, a5, a6, _⟩ := hv2
        interval_cases i <;> simp [requiredIdent] at hne <;> simp_all
      simp [hnot]
    all_goals
      first
      | (intro v hne
         rw [checkHeaderValidity_eq]
         simp [ValidArm32Header, hne])
      | (rw [checkHeaderValidity_eq]
         simp [ValidArm32Header])

theorem checkHeaderValidity_iff_witness :
    ValidArm32Header sampleHeader ∧ ArmElf32_CheckHeaderValidity sampleHeader = 1 ∧
    ArmElf32_CheckHeaderValidity { sampleHeader with e_ident := sampleHeader.e_ident.set 0 0x7E } = 0 :=
  ⟨by decide, (checkHeaderValidity_iff sampleHeader).1.mpr (by decide),
    ((checkHeaderValidity_iff sampleHeader).2.2 (by decide)).1 0 0x7E (by decide) (by decide)⟩

/-! # Properties of the orchestrator -/

theorem hexField_add (a b n : Nat) :
    hexField (a + b) n = hexField a (n / 16 ^ b) ++ hexField b n := by
  induction b generalizing n with
  | zero => simp [hexField]
  | succ b ih =>
    rw [← Nat.add_assoc]
    simp only [hexField]
    rw [ih (n / 16), Nat.div_div_eq_div_mul, pow_succ, List.append_assoc, Nat.mul_comm]

theorem hexField_mod (w n : Nat) : hexField w (n % 16 ^ w) = hexField w n := by
  induction w generalizing n with
  | zero => rfl
  | succ w ih =>
    simp only [hexField]
    have h1 : n % 16 ^ (w + 1) % 16 = n % 16 := by
      rw [pow_succ, Nat.mul_comm]
      exact Nat.mod_mul_right_mod n 16 (16 ^ w)
    have h2 : n % 16 ^ (w + 1) / 16 = n / 16 % 16 ^ w := by
      rw [pow_succ, Nat.mul_comm, Nat.mod_mul_right_div_self]
    rw [h1, h2, ih]

theorem hexField_8_bytes (e : Nat) :
    hexField 2 (e / 2 ^ 24 % 256) ++ hexField 2 (e / 2 ^ 16 % 256)
      ++ hexField 2 (e / 2 ^ 8 % 256) ++ hexField 2 (e % 256) = hexField 8 e := by
  have m := fun n => hexField_mod 2 n
  simp only [show (16 : Nat) ^ 2 = 256 from rfl] at m
  rw [m, m, m, m]
  rw [hexField_add 6 2 e, hexField_add 4 2 (e / 16 ^ 2), hexField_add 2 2 (e / 16 ^ 2 / 16 ^ 2)]
  simp only [Nat.div_div_eq_div_mul]
  rfl

theorem and_0xFF000000_shift (x : Nat) : (x &&& 0xFF000000) >>> 24 = x / 2 ^ 24 % 256 := by
  rw [and_shiftRight_distrib]
  have h : (0xFF000000 : Nat) >>> 24 = 2 ^ 8 - 1 := by decide
  rw [h, Nat.and_pow_two_sub_one_eq_mod, Nat.shiftRight_eq_div_pow]

theorem and_0x00FF0000_shift (x : Nat) : (x &&& 0x00FF0000) >>> 16 = x / 2 ^ 16 % 256 := by
  rw [and_shiftRight_distrib]
  have h : (0x00FF0000 : Nat) >>> 16 = 2 ^ 8 - 1 := by decide
  rw [h, Nat.and_pow_two_sub_one_eq_mod, Nat.shiftRight_eq_div_pow]

theorem u8OfInt_lt (x : Int) : u8OfInt x < 256 := by
  unfold u8OfInt
  omega

theorem checksum_lt (r : IntelHexRecord_t) : (IntelHex_CalcRecordChecksum r).checksum < 256 :=
  u8OfInt_lt _

/-- The data array of the start address record: the four bytes of `e_entry`,
most significant first, then the previous content. -/
theorem main_startRecord_data (hdr : Elf32_Ehdr) (record : IntelHexRecord_t)
    (hrec : record.data.length = 16) :
    (main_startRecord hdr record).data
      = [hdr.e_entry / 2 ^ 24 % 256, hdr.e_entry / 2 ^ 16 % 256, hdr.e_entry / 2 ^ 8 % 256,
         hdr.e_entry % 256] ++ record.data.drop 4 := by
  simp only [main_startRecord, IntelHexRecord_t.setData, checksum_data, and_0xFF000000_shift,
    and_0x00FF0000_shift, and_0xFF00_shift, and_0xFF, u8]
  match hd : record.data, hrec with
  | d0 :: d1 :: d2 :: d3 :: rest, _ =>
    simp only [List.set_cons_zero, List.set_cons_succ, List.drop_succ_cons, List.drop_zero,
      Nat.mod_mod]
    simp

theorem main_startRecord_wf (hdr : Elf32_Ehdr) (record : IntelHexRecord_t)
    (hrec : record.data.length = 16) (hb : ∀ b ∈ record.data, b < 256) :
    (main_startRecord hdr record).WF := by
  have h4 : (main_startRecord hdr record).dataLength = 4 := rfl
  have h0 : (main_startRecord hdr record).addressOffset = 0 := rfl
  have h5 : (main_startRecord hdr record).type = 5 := rfl
  refine ⟨by omega, by omega, by omega, ?_, ?_, checksum_lt _⟩
  · rw [main_startRecord_data hdr record hrec]
    simp [hrec]
  · rw [main_startRecord_data hdr record hrec]
    intro b hbm
    simp only [List.mem_append, List.mem_cons, List.mem_singleton, List.not_mem_nil,
      or_false] at hbm
    rcases hbm with (h | h | h | h) | h
    · omega
    · omega
    · omega
    · omega
    · exact hb b (List.mem_of_mem_drop h)

/-- C9: for every 32-bit `e_entry`, the start address record `main` builds has
type 5, `dataLength` 4, `addressOffset` 0 and the data bytes of `e_entry` in
big-endian order; its line is `:04000005`, the 8 uppercase hex digits of
`e_entry`, the 2-digit checksum and a line break. -/
theorem main_startRecord_spec (elfFileHeader : Elf32_Ehdr) (record : IntelHexRecord_t)
    (hexFileHandle : OStream) (he : elfFileHeader.e_entry < 4294967296)
    (hrec : record.data.length = 16) (hb : ∀ b ∈ record.data, b < 256)
    (hs : hexFileHandle.Ready) :
    (main_startRecord elfFileHeader record).type = HEX_RECORD_TYPE_START_LINEAR_ADDR ∧
    (main_startRecord elfFileHeader record).dataLength = 4 ∧
    (main_startRecord elfFileHeader record).addressOffset = 0 ∧
    (main_startRecord elfFileHeader record).dataAt 0 * 2 ^ 24
      + (main_startRecord elfFileHeader record).dataAt 1 * 2 ^ 16
      + (main_startRecord elfFileHeader record).dataAt 2 * 2 ^ 8
      + (main_startRecord elfFileHeader record).dataAt 3 = elfFileHeader.e_entry ∧
    (IntelHex_WriteRecordToFile (main_startRecord elfFileHeader record) hexFileHandle).buf
      = hexFileHandle.buf ++ ":04000005".toList ++ hexField 8 elfFileHeader.e_entry
        ++ hexField 2 (main_startRecord elfFileHeader record).checksum ++ ['\n'] := by
  have hd := main_startRecord_data elfFileHeader record hrec
  refine ⟨rfl, rfl, rfl, ?_, ?_⟩
  · simp only [IntelHexRecord_t.dataAt, hd]
    simp only [List.cons_append, List.nil_append, List.getD_cons_zero, List.getD_cons_succ]
    omega
  · have h4 : (main_startRecord elfFileHeader record).dataLength = 4 := rfl
    rw [writeRecord_eq _ hexFileHandle (main_startRecord_wf elfFileHeader record hrec hb)
      (by omega) hs]
    have h0 : (main_startRecord elfFileHeader record).addressOffset = 0 := rfl
    have h5 : (main_startRecord elfFileHeader record).type = 5 := rfl
    simp only [recordLine, recordText, h4, h0, h5, hd]
    simp only [List.cons_append, List.nil_append, List.take_succ_cons, List.take_zero,
      List.flatMap_cons, List.flatMap_nil, List.append_nil]
    rw [← hexField_8_bytes elfFileHeader.e_entry]
    simp [hexField, digitChar]

theorem main_startRecord_spec_witness :
    sampleHeader.e_entry < 4294967296 ∧ staleRecord.data.length = 16 ∧
    (∀ b ∈ staleRecord.data, b < 256) ∧ OStream.opened.Ready ∧
    (IntelHex_WriteRecordToFile (main_startRecord sampleHeader staleRecord) OStream.opened).buf
      = ":0400000508000201EC\n".toList :=
  ⟨by decide, by decide, by decide, by decide,
    (main_startRecord_spec sampleHeader staleRecord OStream.opened (by decide) (by decide)
      (by decide) (by decide)).2.2.2.2.trans (by decide)⟩

/-! ## The record writer keeps the stream ready -/

theorem write_good (s : OStream) (cs : List Char) : (s.write cs).good = s.good := by
  unfold OStream.write
  split <;> simp_all

theorem putInt_good (s : OStream) (n : Nat) : (s.putInt n).good = s.good := by
  simp [OStream.putInt, write_good]

theorem putData_good (f : Nat → Nat) (n : Nat) (s : OStream) :
    ((List.range n).foldl (fun (h : OStream) i => (h.setWidth 2).putInt (f i)) s).good
      = s.good := by
  induction n with
  | zero => rfl
  | succ n ih =>
    rw [List.range_succ, List.foldl_append]
    simp only [List.foldl_cons, List.foldl_nil, putInt_good, OStream.setWidth]
    exact ih

theorem write_width (s : OStream) (cs : List Char) : (s.write cs).width = s.width := by
  unfold OStream.write
  split <;> simp_all

/-- Whatever the record, the writer leaves a good stream good with width 1. -/
theorem writeRecord_ready (r : IntelHexRecord_t) (s : OStream) (hs : s.good = true) :
    (IntelHex_WriteRecordToFile r s).Ready := by
  constructor
  · simp only [IntelHex_WriteRecordToFile, OStream.endl, write_good, OStream.fill,
      OStream.setHex, OStream.setUppercase, OStream.setWidth, putInt_good]
    have h := putData_good r.dataAt r.dataLength
    simp only [OStream.setWidth] at h
    rw [h]
    simp [putInt_good, OStream.putChar, write_good, hs]
  · simp [IntelHex_WriteRecordToFile, OStream.endl, write_width, OStream.fill,
      OStream.setHex, OStream.setUppercase, OStream.setWidth]

theorem writeRecords_good (rs : List IntelHexRecord_t) (s : OStream) (hs : s.good = true) :
    (writeRecords IntelHex_WriteRecordToFile s rs).good = true := by
  induction rs generalizing s with
  | nil => exact hs
  | cons r rs ih =>
    simp only [writeRecords, List.foldl_cons]
    exact ih _ (writeRecord_ready r s hs).1

theorem writeRecords_ready (rs : List IntelHexRecord_t) (s : OStream) (hs : s.Ready) :
    (writeRecords IntelHex_WriteRecordToFile s rs).Ready := by
  induction rs generalizing s with
  | nil => exact hs
  | cons r rs ih =>
    simp only [writeRecords, List.foldl_cons]
    exact ih _ (writeRecord_ready r s hs.1)

/-! ## The loop over the program header table -/

theorem writeRecords_log (log rs : List IntelHexRecord_t) :
    writeRecords logRecord log rs = log ++ rs := by
  induction rs generalizing log with
  | nil => simp [writeRecords]
  | cons r rs ih =>
    have := ih (log ++ [r])
    simp only [writeRecords, List.foldl_cons, logRecord] at this ⊢
    rw [this]
    simp

/-- With at most 255 entries the `uint8_t` counter never wraps: the loop ends
within `e_phnum + 1` tests of its condition and has handled the entries
`i .. e_phnum - 1` in ascending order. -/
theorem main_loop_eq {σ : Type} (writeRecord : IntelHexRecord_t → σ → σ) (hdr : Elf32_Ehdr)
    (uninit : Nat → IntelHexRecord_t) (hph : hdr.e_phnum ≤ 255) (fuel : Nat) :
    ∀ (i : Nat) (ph : Elf32_Phdr) (inp : IStream) (out : σ),
      i ≤ hdr.e_phnum → hdr.e_phnum - i < fuel →
      main_loop writeRecord hdr uninit fuel i i ph inp out
        = some ((List.range' i (hdr.e_phnum - i)).foldl (entryStep writeRecord hdr uninit)
            (ph, inp, out)) := by
  induction fuel with
  | zero => intro i ph inp out _ h; omega
  | succ fuel ih =>
    intro i ph inp out hi hf
    by_cases hlt : i < hdr.e_phnum
    · have hu : u8 (i + 1) = i + 1 := by unfold u8; omega
      obtain ⟨m, hm⟩ : ∃ m, hdr.e_phnum - i = m + 1 := ⟨hdr.e_phnum - i - 1, by omega⟩
      have hm2 : hdr.e_phnum - (i + 1) = m := by omega
      simp only [main_loop, hlt, if_true, hu]
      rw [ih (i + 1) _ _ _ (by omega) (by omega), hm, hm2]
      simp [List.range'_succ, entryStep]
    · have : hdr.e_phnum - i = 0 := by omega
      simp [main_loop, hlt, this]

theorem entryStep_replay {σ : Type} (writeRecord : IntelHexRecord_t → σ → σ) (out : σ)
    (hdr : Elf32_Ehdr) (uninit : Nat → IntelHexRecord_t) (ph : Elf32_Phdr) (inp : IStream)
    (log : List IntelHexRecord_t) (i : Nat) :
    entryStep writeRecord hdr uninit (ph, inp, writeRecords writeRecord out log) i
      = ((entryStep logRecord hdr uninit (ph, inp, log) i).1,
         (entryStep logRecord hdr uninit (ph, inp, log) i).2.1,
         writeRecords writeRecord out (entryStep logRecord hdr uninit (ph, inp, log) i).2.2) := by
  simp only [entryStep]
  rw [segment_eq_writeRecords writeRecord _ _ (writeRecords writeRecord out log),
    segment_eq_writeRecords logRecord _ _ log]
  simp only [writeRecords_log, writeRecords_append]

theorem foldl_entryStep_replay {σ : Type} (writeRecord : IntelHexRecord_t → σ → σ) (out : σ)
    (hdr : Elf32_Ehdr) (uninit : Nat → IntelHexRecord_t) (l : List Nat) :
    ∀ (ph : Elf32_Phdr) (inp : IStream) (log : List IntelHexRecord_t),
      l.foldl (entryStep writeRecord hdr uninit) (ph, inp, writeRecords writeRecord out log)
        = ((l.foldl (entryStep logRecord hdr uninit) (ph, inp, log)).1,
           (l.foldl (entryStep logRecord hdr uninit) (ph, inp, log)).2.1,
           writeRecords writeRecord out
             (l.foldl (entryStep logRecord hdr uninit) (ph, inp, log)).2.2) := by
  induction l with
  | nil => intro ph inp log; rfl
  | cons a l ih =>
    intro ph inp log
    simp only [List.foldl_cons]
    rw [entryStep_replay, ih]

theorem entryStep_log (hdr : Elf32_Ehdr) (uninit : Nat → IntelHexRecord_t)
    (st : Elf32_Phdr × IStream × List IntelHexRecord_t) (i : Nat) :
    (entryStep logRecord hdr uninit st i).2.2
      = st.2.2 ++ segmentRecords
          (ArmElf32_ExtractProgramHeaderEntryFromFile st.1 i hdr st.2.1).1
          (ArmElf32_ExtractProgramHeaderEntryFromFile st.1 i hdr st.2.1).2 (uninit i) := by
  simp only [entryStep]
  rw [segment_eq_writeRecords logRecord _ _ st.2.2, writeRecords_log]

/-- The log of the entries `0 .. n - 1` is the records of entry 0, then those
of entry 1, and so on. -/
theorem runEntries_log (hdr : Elf32_Ehdr) (uninit : Nat → IntelHexRecord_t)
    (ph : Elf32_Phdr) (inp : IStream) (n : Nat) :
    (runEntries logRecord hdr uninit n (ph, inp, [])).2.2
      = (List.range n).flatMap (entryRecords hdr uninit ph inp) := by
  induction n with
  | zero => rfl
  | succ n ih =>
    have hstep : runEntries logRecord hdr uninit (n + 1) (ph, inp, [])
        = entryStep logRecord hdr uninit (runEntries logRecord hdr uninit n (ph, inp, [])) n := by
      simp [runEntries, List.range_succ, List.foldl_append]
    rw [hstep, entryStep_log, ih, List.range_succ, List.flatMap_append]
    simp [entryRecords]

theorem segmentRecords_types (ph : Elf32_Phdr) (inp : IStream) (rec : IntelHexRecord_t) :
    ∀ r ∈ segmentRecords ph inp rec,
      r.type = HEX_RECORD_TYPE_EXTENDED_LINEAR_ADDR ∨ r.type = HEX_RECORD_TYPE_DATA := by
  intro r hr
  by_cases hz : ph.p_filesz = 0
  · simp [segmentRecords, IntelHex_WriteElfProgramHeaderEntryToFile, hz] at hr
  · obtain ⟨L, tl, heq, _, hrec, htl0, htl1, _⟩ := segmentRecords_shape ph inp rec hz
    rw [heq] at hr
    rcases List.mem_cons.mp hr with h | h
    · left; rw [h]; rfl
    · right
      rcases List.mem_append.mp h with h | h
      · obtain ⟨i, hi, rfl⟩ := List.getElem_of_mem h
        exact (hrec i hi).1
      · by_cases hm : ph.p_filesz % 16 = 0
        · rw [htl0 hm] at h
          simp at h
        · obtain ⟨t, ht, h1, _⟩ := htl1 hm
          rw [ht] at h
          simp only [List.mem_singleton] at h
          subst h
          exact h1

/-- A run with three arguments, both files open, a valid header and at most
255 entries ends with status 0 after `e_phnum + 1` tests of the loop
condition; the sink has received the records of the entries in ascending
order, then the start address record, then the End Of File record. -/
theorem main_eq {σ : Type} (writeRecord : IntelHexRecord_t → σ → σ) (fuel : Nat)
    (bytes : List Nat) (out : σ) (elfFileHeader : Elf32_Ehdr) (elfProgramHeader : Elf32_Phdr)
    (record : IntelHexRecord_t) (uninit : Nat → IntelHexRecord_t) (hdr : Elf32_Ehdr)
    (inp : IStream)
    (hex : ArmElf32_ExtractHeaderFromFile elfFileHeader ⟨bytes, 0, false⟩ = (hdr, inp))
    (hvalid : ArmElf32_CheckHeaderValidity hdr = 1) (hph : hdr.e_phnum ≤ 255)
    (hfuel : hdr.e_phnum < fuel) :
    main writeRecord fuel 3 (some bytes) (some out) elfFileHeader elfProgramHeader record uninit
      = some { status := 0
               hexFile := some (writeRecords writeRecord out
                 ((List.range hdr.e_phnum).flatMap (entryRecords hdr uninit elfProgramHeader inp)
                   ++ [main_startRecord hdr record,
                       main_eofRecord (main_startRecord hdr record)])) } := by
  have hloop := main_loop_eq writeRecord hdr uninit hph fuel 0 elfProgramHeader inp out
    (Nat.zero_le _) (by omega)
  have hrep := foldl_entryStep_replay writeRecord out hdr uninit (List.range hdr.e_phnum)
    elfProgramHeader inp []
  have hlog := runEntries_log hdr uninit elfProgramHeader inp hdr.e_phnum
  simp only [runEntries] at hlog
  have hout : writeRecords writeRecord out [] = out := rfl
  rw [hout] at hrep
  rw [Nat.sub_zero, ← List.range_eq_range', hrep, hlog] at hloop
  simp only [main, if_true, hex, hvalid, ne_eq, Nat.one_ne_zero, not_false_eq_true, hloop,
    EXIT_CODE_ALL_SUCCEEDED, writeRecords_append]
  rfl

theorem main_eofRecord_checksum (r : IntelHexRecord_t) : (main_eofRecord r).checksum = 255 := by
  have h := checksum_eq { r with dataLength := 0, addressOffset := 0, type := HEX_RECORD_TYPE_EOF }
    (Nat.zero_le _)
  simp only [main_eofRecord]
  rw [h]
  simp [recordByteSum, HEX_RECORD_TYPE_EOF]

theorem main_eofRecord_line (r : IntelHexRecord_t) (hwf : r.WF) (s : OStream)
    (hs : s.Ready) :
    (IntelHex_WriteRecordToFile (main_eofRecord r) s).buf
      = s.buf ++ ":00000001FF\n".toList := by
  have hc := main_eofRecord_checksum r
  have h0 : (main_eofRecord r).dataLength = 0 := rfl
  have ha : (main_eofRecord r).addressOffset = 0 := rfl
  have ht : (main_eofRecord r).type = 1 := rfl
  have hd : (main_eofRecord r).data = r.data := rfl
  have hwf2 : (main_eofRecord r).WF :=
    ⟨by omega, by omega, by omega, by rw [hd]; exact hwf.2.2.2.1,
      by rw [hd]; exact hwf.2.2.2.2.1, by omega⟩
  rw [writeRecord_eq _ s hwf2 (by omega) hs]
  simp only [recordLine, recordText, h0, ha, ht, hc, List.take_zero, List.flatMap_nil,
    List.append_nil]
  rfl

/-- C10: for every run with a valid header and `e_phnum ≤ 255` in which both
files open, the output is the records of program header entry 0, then of entry
1, and so on up to entry `e_phnum - 1`, each as the segment encoder produces
them, then one Start Linear Address record, then one End Of File record; the
last line written is `:00000001FF`, whatever the record buffer held. -/
theorem main_output (fuel : Nat) (bytes : List Nat) (hexFileHandle : OStream)
    (elfFileHeader : Elf32_Ehdr) (elfProgramHeader : Elf32_Phdr) (record : IntelHexRecord_t)
    (uninit : Nat → IntelHexRecord_t) (hdr : Elf32_Ehdr) (inp : IStream)
    (hex : ArmElf32_ExtractHeaderFromFile elfFileHeader ⟨bytes, 0, false⟩ = (hdr, inp))
    (hvalid : ArmElf32_CheckHeaderValidity hdr = 1) (hph : hdr.e_phnum ≤ 255)
    (hfuel : hdr.e_phnum < fuel) (hs : hexFileHandle.Ready)
    (hrec : record.data.length = 16) (hb : ∀ b ∈ record.data, b < 256) :
    ∃ (log : List IntelHexRecord_t) (final : OStream),
      log = (List.range hdr.e_phnum).flatMap (entryRecords hdr uninit elfProgramHeader inp)
              ++ [main_startRecord hdr record, main_eofRecord (main_startRecord hdr record)] ∧
      main logRecord fuel 3 (some bytes) (some []) elfFileHeader elfProgramHeader record uninit
        = some { status := 0, hexFile := some log } ∧
      main IntelHex_WriteRecordToFile fuel 3 (some bytes) (some hexFileHandle) elfFileHeader
          elfProgramHeader record uninit
        = some { status := 0, hexFile := some final } ∧
      final = writeRecords IntelHex_WriteRecordToFile hexFileHandle log ∧
      (∀ i, ∀ r ∈ entryRecords hdr uninit elfProgramHeader inp i,
        r.type = HEX_RECORD_TYPE_EXTENDED_LINEAR_ADDR ∨ r.type = HEX_RECORD_TYPE_DATA) ∧
      (main_startRecord hdr record).type = HEX_RECORD_TYPE_START_LINEAR_ADDR ∧
      (main_eofRecord (main_startRecord hdr record)).type = HEX_RECORD_TYPE_EOF ∧
      (main_eofRecord (main_startRecord hdr record)).dataLength = 0 ∧
      ∃ pre : List Char, final.buf = pre ++ ":00000001FF\n".toList := by
  refine ⟨_, _, rfl, ?_, ?_, rfl, ?_, rfl, rfl, rfl, ?_⟩
  · rw [main_eq logRecord fuel bytes [] elfFileHeader elfProgramHeader record uninit hdr inp
      hex hvalid hph hfuel, writeRecords_log]
    rfl
  · exact main_eq IntelHex_WriteRecordToFile fuel bytes hexFileHandle elfFileHeader
      elfProgramHeader record uninit hdr inp hex hvalid hph hfuel
  · intro i r hr
    exact segmentRecords_types _ _ _ r hr
  · have happ : ∀ l : List IntelHexRecord_t,
        l ++ [main_startRecord hdr record, main_eofRecord (main_startRecord hdr record)]
          = (l ++ [main_startRecord hdr record])
              ++ [main_eofRecord (main_startRecord hdr record)] := by
      intro l; simp
    rw [happ, writeRecords_append]
    refine ⟨_, main_eofRecord_line _ (main_startRecord_wf hdr record hrec hb) _
      (writeRecords_ready _ _ hs)⟩

set_option maxRecDepth 8192 in
theorem main_output_witness :
    ArmElf32_ExtractHeaderFromFile staleHeader ⟨sampleFile, 0, false⟩
      = (sampleHeader, ⟨sampleFile, 52, false⟩) ∧
    ArmElf32_CheckHeaderValidity sampleHeader = 1 ∧ sampleHeader.e_phnum ≤ 255 ∧
    sampleHeader.e_phnum < 2 ∧ OStream.opened.Ready ∧ staleRecord.data.length = 16 ∧
    (∀ b ∈ staleRecord.data, b < 256) ∧
    ∃ final : OStream,
      main IntelHex_WriteRecordToFile 2 3 (some sampleFile) (some OStream.opened) staleHeader
          stalePhdr staleRecord (fun _ => staleRecord)
        = some { status := 0, hexFile := some final } ∧
      ∃ pre : List Char, final.buf = pre ++ ":00000001FF\n".toList := by
  have hex : ArmElf32_ExtractHeaderFromFile staleHeader ⟨sampleFile, 0, false⟩
      = (sampleHeader, ⟨sampleFile, 52, false⟩) := by decide
  obtain ⟨_, final, _, _, hmain, _, _, _, _, _, hlast⟩ :=
    main_output 2 sampleFile OStream.opened staleHeader stalePhdr staleRecord
      (fun _ => staleRecord) sampleHeader ⟨sampleFile, 52, false⟩ hex (by decide) (by decide)
      (by decide) (by decide) (by decide) (by decide)
  exact ⟨hex, by decide, by decide, by decide, by decide, by decide, by decide,
    final, hmain, hlast⟩

set_option maxRecDepth 100000 in
/-- The sample image converts to five lines: extended address, two Data
records, start address, End Of File. -/
theorem main_sampleFile_output :
    (main IntelHex_WriteRecordToFile 2 3 (some sampleFile) (some OStream.opened) staleHeader
        stalePhdr staleRecord (fun _ => staleRecord)).map
      (fun r => (r.status, r.hexFile.map (fun h => h.buf)))
      = some (0, some (":020000040800F2\n:10000000000102030405060708090A0B0C0D0E0F78\n"
          ++ ":0400100010111213A6\n:0400000508000201EC\n:00000001FF\n").toList) := by
  decide

/-! # Every record written is sealed -/

theorem recordByteSum_checksum (r : IntelHexRecord_t) :
    recordByteSum (IntelHex_CalcRecordChecksum r) = recordByteSum r := rfl

/-- What `IntelHex_CalcRecordChecksum` returns is sealed, for fields in range. -/
theorem sealed_calc (r : IntelHexRecord_t) (hdl : r.dataLength ≤ 16) (ha : r.addressOffset < 65536)
    (ht : r.type < 256) (hlen : r.data.length = 16) (hb : ∀ b ∈ r.data, b < 256) :
    (IntelHex_CalcRecordChecksum r).Sealed := by
  refine ⟨⟨?_, ha, ht, hlen, hb, checksum_lt r⟩, hdl, ?_⟩
  · show r.dataLength < 256
    omega
  · rw [recordByteSum_checksum, checksum_eq r (by omega)]
    omega

theorem readData_bytes (n : Nat) (record : IntelHexRecord_t) (elfFileHandle : IStream)
    (hb : ∀ b ∈ record.data, b < 256) :
    ∀ b ∈ (readData n record elfFileHandle).1.data, b < 256 := by
  induction n with
  | zero => simpa [readData] using hb
  | succ n ih =>
    rw [readData_succ]
    intro b hbm
    simp only [IntelHexRecord_t.setData] at hbm
    rcases List.mem_or_eq_of_mem_set hbm with h | h
    · exact ih b h
    · rw [h]
      exact u8OfInt_lt _

theorem sealInv_init (ph : Elf32_Phdr) (inp : IStream) (rec : IntelHexRecord_t)
    (hlen : rec.data.length = 16) (hb : ∀ b ∈ rec.data, b < 256) :
    (segment_addressRecord ph rec).Sealed ∧ SealInv (segment_loopInit logRecord ph inp [] rec) := by
  have hlen2 : (segment_addressRecord ph rec).data.length = 16 := by
    simp [segment_addressRecord, IntelHexRecord_t.setData, hlen]
  have hb2 : ∀ b ∈ (segment_addressRecord ph rec).data, b < 256 := by
    intro b hbm
    simp only [segment_addressRecord, IntelHexRecord_t.setData, checksum_data] at hbm
    rcases List.mem_or_eq_of_mem_set hbm with h | h
    · rcases List.mem_or_eq_of_mem_set h with h | h
      · exact hb b h
      · rw [h]; exact Nat.mod_lt _ (by decide)
    · rw [h]; exact Nat.mod_lt _ (by decide)
  have hs : (segment_addressRecord ph rec).Sealed := by
    refine ⟨⟨?_, ?_, ?_, hlen2, hb2, checksum_lt _⟩, ?_, ?_⟩
    · show (2 : Nat) < 256; decide
    · show (0 : Nat) < 65536; decide
    · show (4 : Nat) < 256; decide
    · show (2 : Nat) ≤ 16; decide
    · unfold segment_addressRecord
      rw [recordByteSum_checksum, checksum_eq _ (by
        simp [IntelHexRecord_t.setData, hlen])]
      omega
  obtain ⟨i1, i2, i3, i4, _, i6⟩ := segment_loopInit_log ph inp rec
  refine ⟨hs, i1, i2, by rw [i3, hlen], ?_, by rw [i4]; exact Nat.mod_lt _ (by decide), ?_⟩
  · exact hb2
  · rw [i6]
    intro r hr
    simp only [List.mem_singleton] at hr
    rw [hr]
    exact hs

theorem fullRecordStep_record {σ : Type} (writeRecord : IntelHexRecord_t → σ → σ)
    (st : SegState σ) :
    (fullRecordStep writeRecord st).record
      = IntelHex_CalcRecordChecksum (readData HEX_MAX_RECORD_LENGTH
          { st.record with addressOffset := st.segmentMemAddr } st.elfFileHandle).1 := rfl

theorem fullRecordStep_stream {σ : Type} (writeRecord : IntelHexRecord_t → σ → σ)
    (st : SegState σ) :
    (fullRecordStep writeRecord st).elfFileHandle
      = (readData HEX_MAX_RECORD_LENGTH
          { st.record with addressOffset := st.segmentMemAddr } st.elfFileHandle).2 := by
  simp only [fullRecordStep]

theorem fullRecordStep_log (st : SegState (List IntelHexRecord_t)) :
    (fullRecordStep logRecord st).hexFileHandle
      = st.hexFileHandle ++ [(fullRecordStep logRecord st).record] := rfl

theorem fullRecordStep_addr {σ : Type} (writeRecord : IntelHexRecord_t → σ → σ)
    (st : SegState σ) :
    (fullRecordStep writeRecord st).segmentMemAddr
      = (st.segmentMemAddr + 16) % 65536 := rfl

theorem tailRecordStep_record {σ : Type} (writeRecord : IntelHexRecord_t → σ → σ)
    (ph : Elf32_Phdr) (st : SegState σ) :
    (tailRecordStep writeRecord ph st).record
      = IntelHex_CalcRecordChecksum (readData (u8 (ph.p_filesz % HEX_MAX_RECORD_LENGTH))
          { st.record with dataLength := u8 (ph.p_filesz % HEX_MAX_RECORD_LENGTH),
                           addressOffset := st.segmentMemAddr } st.elfFileHandle).1 := rfl

theorem tailRecordStep_log (ph : Elf32_Phdr) (st : SegState (List IntelHexRecord_t)) :
    (tailRecordStep logRecord ph st).hexFileHandle
      = st.hexFileHandle ++ [(tailRecordStep logRecord ph st).record] := rfl

theorem sealInv_step (st : SegState (List IntelHexRecord_t)) (h : SealInv st) :
    SealInv (fullRecordStep logRecord st) := by
  obtain ⟨hdl, hty, hlen, hb, ha, hlog⟩ := h
  obtain ⟨f1, f2, f3, f4⟩ := readData_fields HEX_MAX_RECORD_LENGTH
    { st.record with addressOffset := st.segmentMemAddr } st.elfFileHandle
  have f5 := readData_bytes HEX_MAX_RECORD_LENGTH
    { st.record with addressOffset := st.segmentMemAddr } st.elfFileHandle hb
  simp only at f1 f2 f3 f4
  have hs : (fullRecordStep logRecord st).record.Sealed := by
    rw [fullRecordStep_record]
    exact sealed_calc _ (by rw [f1, hdl]) (by rw [f2]; exact ha) (by rw [f3, hty]; decide)
      (by rw [f4, hlen]) f5
  refine ⟨?_, ?_, ?_, ?_, ?_, ?_⟩
  · rw [fullRecordStep_record, checksum_dataLength, f1, hdl]
  · rw [fullRecordStep_record, checksum_type, f3, hty]
  · rw [fullRecordStep_record, checksum_data, f4, hlen]
  · rw [fullRecordStep_record, checksum_data]
    exact f5
  · rw [fullRecordStep_addr]
    exact Nat.mod_lt _ (by decide)
  · intro r hr
    rw [fullRecordStep_log] at hr
    rcases List.mem_append.mp hr with h | h
    · exact hlog r h
    · simp only [List.mem_singleton] at h
      rw [h]
      exact hs

theorem sealInv_iterate (st : SegState (List IntelHexRecord_t)) (h : SealInv st) (k : Nat) :
    SealInv ((fullRecordStep logRecord)^[k] st) := by
  induction k with
  | zero => exact h
  | succ k ih =>
    rw [Function.iterate_succ_apply']
    exact sealInv_step _ ih

theorem sealInv_tail (ph : Elf32_Phdr) (st : SegState (List IntelHexRecord_t)) (h : SealInv st) :
    ∀ r ∈ (tailRecordStep logRecord ph st).hexFileHandle, r.Sealed := by
  obtain ⟨hdl, hty, hlen, hb, ha, hlog⟩ := h
  have hu8 : u8 (ph.p_filesz % HEX_MAX_RECORD_LENGTH) = ph.p_filesz % 16 := by
    unfold u8 HEX_MAX_RECORD_LENGTH; omega
  obtain ⟨f1, f2, f3, f4⟩ := readData_fields (u8 (ph.p_filesz % HEX_MAX_RECORD_LENGTH))
    { st.record with dataLength := u8 (ph.p_filesz % HEX_MAX_RECORD_LENGTH),
                     addressOffset := st.segmentMemAddr } st.elfFileHandle
  have f5 := readData_bytes (u8 (ph.p_filesz % HEX_MAX_RECORD_LENGTH))
    { st.record with dataLength := u8 (ph.p_filesz % HEX_MAX_RECORD_LENGTH),
                     addressOffset := st.segmentMemAddr } st.elfFileHandle hb
  simp only at f1 f2 f3 f4
  have hs : (tailRecordStep logRecord ph st).record.Sealed := by
    rw [tailRecordStep_record]
    exact sealed_calc _ (by rw [f1, hu8]; omega) (by rw [f2]; exact ha)
      (by rw [f3, hty]; decide) (by rw [f4, hlen]) f5
  intro r hr
  rw [tailRecordStep_log] at hr
  rcases List.mem_append.mp hr with h | h
  · exact hlog r h
  · simp only [List.mem_singleton] at h
    rw [h]
    exact hs

/-- Every record the segment encoder emits is sealed, whatever the source
delivers, when the record buffer holds bytes. -/
theorem segmentRecords_sealed (ph : Elf32_Phdr) (inp : IStream) (rec : IntelHexRecord_t)
    (hlen : rec.data.length = 16) (hb : ∀ b ∈ rec.data, b < 256) :
    ∀ r ∈ segmentRecords ph inp rec, r.Sealed := by
  unfold segmentRecords IntelHex_WriteElfProgramHeaderEntryToFile
  by_cases hz : ph.p_filesz = 0
  · simp [hz]
  · simp only [ne_eq, hz, not_false_eq_true, if_true]
    have hinv := sealInv_iterate _ (sealInv_init ph inp rec hlen hb).2
      (ph.p_filesz / HEX_MAX_RECORD_LENGTH)
    by_cases ht : ph.p_filesz % HEX_MAX_RECORD_LENGTH = 0
    · simp only [ht, not_true_eq_false, if_false]
      exact hinv.2.2.2.2.2
    · simp only [ht, not_false_eq_true, if_true]
      exact sealInv_tail ph _ hinv

/-! # The text written for sealed records -/

theorem writeRecords_sealed_buf (rs : List IntelHexRecord_t) :
    ∀ (s : OStream), s.Ready → (∀ r ∈ rs, r.Sealed) →
      (writeRecords IntelHex_WriteRecordToFile s rs).buf = s.buf ++ rs.flatMap recordLine := by
  induction rs with
  | nil => intro s _ _; simp [writeRecords]
  | cons r rs ih =>
    intro s hs hall
    have hr := hall r (List.mem_cons_self _ _)
    have hstep := writeRecord_eq r s hr.1 hr.2.1 hs
    have hready := writeRecord_ready r s hs.1
    simp only [writeRecords, List.foldl_cons] at ih ⊢
    rw [ih _ hready (fun r' hr' => hall r' (List.mem_cons_of_mem _ hr')), hstep]
    simp [List.flatMap_cons]

theorem upperHex_ne_newline (c : Char) (h : isUpperHexDigit c = true) : c ≠ '\n' := by
  intro hc
  subst hc
  exact absurd h (by decide)

theorem recordText_no_newline (r : IntelHexRecord_t) : '\n' ∉ recordText r := by
  intro h
  have ht : recordText r = ':' :: (recordText r).tail := rfl
  rw [ht] at h
  rcases List.mem_cons.mp h with h | h
  · exact absurd h (by decide)
  · exact upperHex_ne_newline _ (recordText_upper r _ h) rfl

theorem splitLinesAux_line (body : List Char) (hb : '\n' ∉ body) :
    ∀ (cur rest : List Char),
      splitLinesAux cur (body ++ '\n' :: rest) = (cur.reverse ++ body) :: splitLinesAux [] rest := by
  induction body with
  | nil => intro cur rest; simp [splitLinesAux]
  | cons c body ih =>
    intro cur rest
    have hc : c ≠ '\n' := fun h => hb (by simp [h])
    have hb2 : '\n' ∉ body := fun h => hb (List.mem_cons_of_mem _ h)
    have hstep : splitLinesAux cur (c :: (body ++ '\n' :: rest))
        = splitLinesAux (c :: cur) (body ++ '\n' :: rest) := by
      simp [splitLinesAux, hc]
    rw [List.cons_append, hstep, ih hb2]
    simp

/-- The lines of the text of a list of records are the record texts. -/
theorem splitLines_recordLines (rs : List IntelHexRecord_t) :
    splitLines (rs.flatMap recordLine) = rs.map recordText := by
  unfold splitLines
  induction rs with
  | nil => simp [splitLinesAux]
  | cons r rs ih =>
    simp only [List.flatMap_cons, recordLine, List.append_assoc, List.singleton_append,
      List.map_cons]
    rw [splitLinesAux_line _ (recordText_no_newline r), ih]
    simp

theorem hexDigitValue_digitChar (d : Nat) (h : d < 16) :
    hexDigitValue (digitChar true d) = some d := by
  interval_cases d <;> decide

theorem hexField_two (n : Nat) :
    hexField 2 n = [digitChar true (n / 16 % 16), digitChar true (n % 16)] := by
  simp [hexField]

theorem decodeHexBytes_hexField (n : Nat) (hn : n < 256) (rest : List Char) :
    decodeHexBytes (hexField 2 n ++ rest) = (decodeHexBytes rest).map (fun bs => n :: bs) := by
  have hv : 16 * (n / 16 % 16) + n % 16 = n := by omega
  have hstep : decodeHexBytes
      (digitChar true (n / 16 % 16) :: digitChar true (n % 16) :: rest)
      = match decodeHexBytes rest with
        | some bs => some ((16 * (n / 16 % 16) + n % 16) :: bs)
        | none => none := by
    rw [decodeHexBytes]
    simp only [hexDigitValue_digitChar _ (Nat.mod_lt _ (by decide : 0 < 16))]
    cases decodeHexBytes rest <;> rfl
  rw [hexField_two]
  simp only [List.cons_append, List.nil_append]
  rw [hstep, hv]
  cases decodeHexBytes rest <;> rfl

theorem decodeHexBytes_data (l : List Nat) (hl : ∀ b ∈ l, b < 256) (rest : List Char) :
    decodeHexBytes (l.flatMap (hexField 2) ++ rest)
      = (decodeHexBytes rest).map (fun bs => l ++ bs) := by
  induction l with
  | nil =>
    simp only [List.flatMap_nil, List.nil_append]
    cases decodeHexBytes rest <;> rfl
  | cons a l ih =>
    simp only [List.flatMap_cons, List.append_assoc]
    rw [decodeHexBytes_hexField a (hl a (List.mem_cons_self _ _)),
      ih (fun b hb => hl b (List.mem_cons_of_mem _ hb))]
    cases decodeHexBytes rest <;> rfl

/-- The record text of a record with fields in range spells its bytes. -/
theorem decodeHexBytes_recordText (r : IntelHexRecord_t) (hwf : r.WF) :
    decodeHexBytes (recordText r).tail = some (recordBytes r) := by
  obtain ⟨hdl, hao, hty, _, hdata, hck⟩ := hwf
  have h4 : hexField 4 r.addressOffset
      = hexField 2 (r.addressOffset / 256) ++ hexField 2 (r.addressOffset % 256) := by
    have := hexField_add 2 2 r.addressOffset
    have hm := hexField_mod 2 r.addressOffset
    simp only [show (16 : Nat) ^ 2 = 256 from rfl] at this hm
    rw [hm]
    exact this
  have hd : ∀ b ∈ r.data.take r.dataLength, b < 256 :=
    fun b hb => hdata b (List.mem_of_mem_take hb)
  have hnil : decodeHexBytes (hexField 2 r.checksum)
      = some [r.checksum] := by
    have := decodeHexBytes_hexField r.checksum hck []
    simpa [decodeHexBytes] using this
  simp only [recordText, List.tail_cons, h4, List.append_assoc]
  rw [decodeHexBytes_hexField _ hdl, decodeHexBytes_hexField _ (by omega),
    decodeHexBytes_hexField _ (Nat.mod_lt _ (by decide)), decodeHexBytes_hexField _ hty,
    decodeHexBytes_data _ hd, hnil]
  simp [recordBytes]

theorem recordBytes_sum (r : IntelHexRecord_t) (hao : r.addressOffset < 65536) :
    (recordBytes r).sum = recordByteSum r + r.checksum := by
  simp only [recordBytes, recordByteSum, List.sum_append, List.sum_cons, List.sum_nil]
  omega

/-! # Every line of a successful run -/

theorem main_startRecord_sealed (hdr : Elf32_Ehdr) (record : IntelHexRecord_t)
    (hrec : record.data.length = 16) (hb : ∀ b ∈ record.data, b < 256) :
    (main_startRecord hdr record).Sealed := by
  have hwf := main_startRecord_wf hdr record hrec hb
  have h4 : (main_startRecord hdr record).dataLength = 4 := rfl
  refine ⟨hwf, by omega, ?_⟩
  have hl : (main_startRecord hdr record).data.length = 16 := hwf.2.2.2.1
  unfold main_startRecord at hl ⊢
  rw [recordByteSum_checksum, checksum_eq _ (by
    rw [checksum_data] at hl
    rw [hl]
    show (4 : Nat) ≤ 16
    decide)]
  omega

theorem main_eofRecord_sealed (r : IntelHexRecord_t) (hwf : r.WF) :
    (main_eofRecord r).Sealed := by
  unfold main_eofRecord
  exact sealed_calc _ (Nat.zero_le _) (by decide : (0 : Nat) < 65536)
    (by decide : (1 : Nat) < 256) hwf.2.2.2.1 hwf.2.2.2.2.1

theorem main_log_sealed (hdr : Elf32_Ehdr) (uninit : Nat → IntelHexRecord_t) (ph : Elf32_Phdr)
    (inp : IStream) (record : IntelHexRecord_t) (n : Nat)
    (hrec : record.data.length = 16) (hb : ∀ b ∈ record.data, b < 256)
    (hun : ∀ k, (uninit k).data.length = 16 ∧ ∀ b ∈ (uninit k).data, b < 256) :
    ∀ r ∈ (List.range n).flatMap (entryRecords hdr uninit ph inp)
            ++ [main_startRecord hdr record, main_eofRecord (main_startRecord hdr record)],
      r.Sealed := by
  intro r hr
  rcases List.mem_append.mp hr with h | h
  · obtain ⟨i, _, hi⟩ := List.mem_flatMap.mp h
    exact segmentRecords_sealed _ _ _ (hun i).1 (hun i).2 r hi
  · simp only [List.mem_cons, List.mem_singleton, List.not_mem_nil, or_false] at h
    rcases h with h | h
    · rw [h]; exact main_startRecord_sealed hdr record hrec hb
    · rw [h]
      exact main_eofRecord_sealed _ (main_startRecord_sealed hdr record hrec hb).1

/-- What holds of the text of a sealed record: an even number of uppercase
hexadecimal digits after the colon, spelling bytes that sum to 0 modulo 256,
the first of which counts the data bytes. -/
theorem recordText_checked (r : IntelHexRecord_t) (hs : r.Sealed) :
    ∃ (body : List Char) (bs : List Nat),
      recordText r = ':' :: body ∧ body.length % 2 = 0 ∧
      (∀ c ∈ body, isUpperHexDigit c = true) ∧ decodeHexBytes body = some bs ∧
      bs.sum % 256 = 0 ∧ 5 ≤ bs.length ∧ bs.head? = some (bs.length - 5) := by
  obtain ⟨hwf, hdl, hsum⟩ := hs
  have hlen := recordText_length r (by rw [hwf.2.2.2.1]; exact hdl)
  have htk : (r.data.take r.dataLength).length = r.dataLength := by
    rw [List.length_take, hwf.2.2.2.1]
    omega
  refine ⟨(recordText r).tail, recordBytes r, rfl, ?_, recordText_upper r,
    decodeHexBytes_recordText r hwf, ?_, ?_, ?_⟩
  · have : (recordText r).tail.length = (recordText r).length - 1 := List.length_tail _
    omega
  · rw [recordBytes_sum r hwf.2.1]
    exact hsum
  · simp [recordBytes, htk]
  · simp [recordBytes, htk]

/-- C11: for every successful run (valid header, `e_phnum ≤ 255`), every
output line, after removing the leading `:` and the line break, is an
even-length string of uppercase hex digits whose decoded bytes (length, address
high, address low, type, data, checksum) sum to 0 modulo 256, and whose first
decoded byte equals the number of data bytes on the line. -/
theorem main_lines_checked (fuel : Nat) (bytes : List Nat) (elfFileHeader : Elf32_Ehdr)
    (elfProgramHeader : Elf32_Phdr) (record : IntelHexRecord_t)
    (uninit : Nat → IntelHexRecord_t) (hdr : Elf32_Ehdr) (inp : IStream)
    (hex : ArmElf32_ExtractHeaderFromFile elfFileHeader ⟨bytes, 0, false⟩ = (hdr, inp))
    (hvalid : ArmElf32_CheckHeaderValidity hdr = 1) (hph : hdr.e_phnum ≤ 255)
    (hfuel : hdr.e_phnum < fuel)
    (hrec : record.data.length = 16) (hb : ∀ b ∈ record.data, b < 256)
    (hun : ∀ k, (uninit k).data.length = 16 ∧ ∀ b ∈ (uninit k).data, b < 256) :
    ∃ final : OStream,
      main IntelHex_WriteRecordToFile fuel 3 (some bytes) (some OStream.opened) elfFileHeader
          elfProgramHeader record uninit
        = some { status := 0, hexFile := some final } ∧
      final.buf.getLast? = some '\n' ∧
      ∀ line ∈ splitLines final.buf,
        ∃ (body : List Char) (bs : List Nat),
          line = ':' :: body ∧ body.length % 2 = 0 ∧
          (∀ c ∈ body, isUpperHexDigit c = true) ∧ decodeHexBytes body = some bs ∧
          bs.sum % 256 = 0 ∧ 5 ≤ bs.length ∧ bs.head? = some (bs.length - 5) := by
  have hmain := main_eq IntelHex_WriteRecordToFile fuel bytes OStream.opened elfFileHeader
    elfProgramHeader record uninit hdr inp hex hvalid hph hfuel
  have hsealed := main_log_sealed hdr uninit elfProgramHeader inp record hdr.e_phnum hrec hb hun
  have hbuf := writeRecords_sealed_buf _ OStream.opened (by decide) hsealed
  refine ⟨_, hmain, ?_, ?_⟩
  · rw [hbuf]
    simp only [List.flatMap_append, List.flatMap_cons, List.flatMap_nil, recordLine,
      List.append_nil, ← List.append_assoc]
    exact List.getLast?_concat _
  · intro line hline
    rw [hbuf] at hline
    have h0 : OStream.opened.buf = [] := rfl
    rw [h0, List.nil_append, splitLines_recordLines] at hline
    obtain ⟨r, hr, rfl⟩ := List.mem_map.mp hline
    exact recordText_checked r (hsealed r hr)

set_option maxRecDepth 8192 in
theorem main_lines_checked_witness :
    ArmElf32_ExtractHeaderFromFile staleHeader ⟨sampleFile, 0, false⟩
      = (sampleHeader, ⟨sampleFile, 52, false⟩) ∧
    ArmElf32_CheckHeaderValidity sampleHeader = 1 ∧ sampleHeader.e_phnum ≤ 255 ∧
    sampleHeader.e_phnum < 2 ∧ staleRecord.data.length = 16 ∧
    (∀ b ∈ staleRecord.data, b < 256) ∧
    ∃ final : OStream,
      main IntelHex_WriteRecordToFile 2 3 (some sampleFile) (some OStream.opened) staleHeader
          stalePhdr staleRecord (fun _ => staleRecord)
        = some { status := 0, hexFile := some final } ∧
      final.buf.getLast? = some '\n' ∧
      ∀ line ∈ splitLines final.buf,
        ∃ (body : List Char) (bs : List Nat),
          line = ':' :: body ∧ body.length % 2 = 0 ∧
          (∀ c ∈ body, isUpperHexDigit c = true) ∧ decodeHexBytes body = some bs ∧
          bs.sum % 256 = 0 ∧ 5 ≤ bs.length ∧ bs.head? = some (bs.length - 5) := by
  have hex : ArmElf32_ExtractHeaderFromFile staleHeader ⟨sampleFile, 0, false⟩
      = (sampleHeader, ⟨sampleFile, 52, false⟩) := by decide
  exact ⟨hex, by decide, by decide, by decide, by decide, by decide,
    main_lines_checked 2 sampleFile staleHeader stalePhdr staleRecord (fun _ => staleRecord)
      sampleHeader ⟨sampleFile, 52, false⟩ hex (by decide) (by decide) (by decide)
      (by decide) (by decide)
      (fun _ => ⟨(by decide : staleRecord.data.length = 16),
        (by decide : ∀ b ∈ staleRecord.data, b < 256)⟩)⟩

/-! # Exit status -/

/-- The four failure exits of `main`, whatever the bound on the loop. -/
theorem main_failures {σ : Type} (writeRecord : IntelHexRecord_t → σ → σ) (fuel : Nat)
    (argc : Int) (elfFile : Option (List Nat)) (hexFile : Option σ)
    (elfFileHeader : Elf32_Ehdr) (elfProgramHeader : Elf32_Phdr) (record : IntelHexRecord_t)
    (uninit : Nat → IntelHexRecord_t) :
    (argc ≠ 3 →
      main writeRecord fuel argc elfFile hexFile elfFileHeader elfProgramHeader record uninit
        = some { status := -1, hexFile := none }) ∧
    (argc = 3 → elfFile = none →
      main writeRecord fuel argc elfFile hexFile elfFileHeader elfProgramHeader record uninit
        = some { status := -2, hexFile := none }) ∧
    (∀ bytes, argc = 3 → elfFile = some bytes →
      ArmElf32_CheckHeaderValidity
        (ArmElf32_ExtractHeaderFromFile elfFileHeader ⟨bytes, 0, false⟩).1 = 0 →
      main writeRecord fuel argc elfFile hexFile elfFileHeader elfProgramHeader record uninit
        = some { status := -3, hexFile := none }) ∧
    (∀ bytes, argc = 3 → elfFile = some bytes →
      ArmElf32_CheckHeaderValidity
        (ArmElf32_ExtractHeaderFromFile elfFileHeader ⟨bytes, 0, false⟩).1 ≠ 0 →
      hexFile = none →
      main writeRecord fuel argc elfFile hexFile elfFileHeader elfProgramHeader record uninit
        = some { status := -4, hexFile := none }) := by
  refine ⟨?_, ?_, ?_, ?_⟩
  · intro h
    simp [main, h, EXIT_CODE_INVALID_ARGS_COUNT]
  · intro h1 h2
    simp [main, h1, h2, EXIT_CODE_COULDNT_OPEN_ELF_FILE]
  · intro bytes h1 h2 h3
    simp [main, h1, h2, h3, EXIT_CODE_INVALID_ELF_FILE]
  · intro bytes h1 h2 h3 h4
    simp [main, h1, h2, h3, h4, EXIT_CODE_COULDNT_OPEN_HEX_FILE]

/-- With 256 entries or more the `uint8_t` counter stays below `e_phnum`: the
loop over the program header table is still running after any number of
iterations. -/
theorem main_loop_diverges {σ : Type} (writeRecord : IntelHexRecord_t → σ → σ)
    (hdr : Elf32_Ehdr) (uninit : Nat → IntelHexRecord_t) (hph : 256 ≤ hdr.e_phnum)
    (fuel : Nat) :
    ∀ (k i : Nat) (ph : Elf32_Phdr) (inp : IStream) (out : σ), i < 256 →
      main_loop writeRecord hdr uninit fuel k i ph inp out = none := by
  induction fuel with
  | zero => intro k i ph inp out _; rfl
  | succ fuel ih =>
    intro k i ph inp out hi
    have hlt : i < hdr.e_phnum := by omega
    simp only [main_loop, hlt, if_true]
    exact ih _ _ _ _ _ (Nat.mod_lt _ (by decide))

/-- A run of `main` that reaches the loop with 256 entries or more has no
exit status. -/
theorem main_diverges {σ : Type} (writeRecord : IntelHexRecord_t → σ → σ) (fuel : Nat)
    (bytes : List Nat) (out : σ) (elfFileHeader : Elf32_Ehdr) (elfProgramHeader : Elf32_Phdr)
    (record : IntelHexRecord_t) (uninit : Nat → IntelHexRecord_t)
    (hvalid : ArmElf32_CheckHeaderValidity
      (ArmElf32_ExtractHeaderFromFile elfFileHeader ⟨bytes, 0, false⟩).1 ≠ 0)
    (hph : 256 ≤ (ArmElf32_ExtractHeaderFromFile elfFileHeader ⟨bytes, 0, false⟩).1.e_phnum) :
    main writeRecord fuel 3 (some bytes) (some out) elfFileHeader elfProgramHeader record uninit
      = none := by
  have hloop := main_loop_diverges writeRecord _ uninit hph fuel 0 0 elfProgramHeader
    (ArmElf32_ExtractHeaderFromFile elfFileHeader ⟨bytes, 0, false⟩).2 out (by decide)
  simp only [main, if_true, hvalid, ne_eq, not_false_eq_true, hloop]

/-- The status of `main` follows the description whenever the run ends, and
the run ends when the loop is not reached or `e_phnum ≤ 255`. -/
theorem main_status {σ : Type} (writeRecord : IntelHexRecord_t → σ → σ) (fuel : Nat)
    (argc : Int) (elfFile : Option (List Nat)) (hexFile : Option σ)
    (elfFileHeader : Elf32_Ehdr) (elfProgramHeader : Elf32_Phdr) (record : IntelHexRecord_t)
    (uninit : Nat → IntelHexRecord_t) (res : MainResult σ)
    (hres : main writeRecord fuel argc elfFile hexFile elfFileHeader elfProgramHeader record
      uninit = some res) :
    res.status = exitStatusSpec argc elfFile.isSome (headerValidOf elfFileHeader elfFile)
      hexFile.isSome ∧
    (res.status ≠ 0 → res.hexFile = none) := by
  obtain ⟨f1, f2, f3, f4⟩ := main_failures writeRecord fuel argc elfFile hexFile elfFileHeader
    elfProgramHeader record uninit
  by_cases h1 : argc = 3
  · cases hE : elfFile with
    | none =>
      rw [f2 h1 hE] at hres
      cases hres
      simp [exitStatusSpec, h1, headerValidOf]
    | some bytes =>
      by_cases h3 : ArmElf32_CheckHeaderValidity
          (ArmElf32_ExtractHeaderFromFile elfFileHeader ⟨bytes, 0, false⟩).1 = 0
      · rw [f3 bytes h1 hE h3] at hres
        cases hres
        simp [exitStatusSpec, h1, h3, headerValidOf]
      · cases hH : hexFile with
        | none =>
          rw [f4 bytes h1 hE h3 hH] at hres
          cases hres
          simp [exitStatusSpec, h1, h3, headerValidOf]
        | some out =>
          subst h1 hE hH
          simp only [main, if_true, h3, ne_eq, not_false_eq_true] at hres
          split at hres
          · cases hres
            simp [exitStatusSpec, h3, EXIT_CODE_ALL_SUCCEEDED, headerValidOf]
          · exact absurd hres (by simp)
  · rw [f1 h1] at hres
    cases hres
    simp [exitStatusSpec, h1]

/-- C12: the exit status of `main` is -1, -2, -3, -4 or 0 by the argument
count, the input opening, the validity predicate and the output opening, in
this order. Here the code is run on the input where it does not do so: three
arguments, both files open, a valid header with `e_phnum = 256`. The loop over
the program header table is still running after any number of iterations, so
the run has no exit status. -/
theorem main_wide_never_exits (fuel : Nat) :
    ArmElf32_CheckHeaderValidity
      (ArmElf32_ExtractHeaderFromFile staleHeader ⟨wideFile, 0, false⟩).1 = 1 ∧
    (ArmElf32_ExtractHeaderFromFile staleHeader ⟨wideFile, 0, false⟩).1.e_phnum = 256 ∧
    exitStatusSpec 3 true true true = 0 ∧
    main IntelHex_WriteRecordToFile fuel 3 (some wideFile) (some OStream.opened) staleHeader
        stalePhdr staleRecord (fun _ => staleRecord) = none := by
  have h1 : ArmElf32_CheckHeaderValidity
      (ArmElf32_ExtractHeaderFromFile staleHeader ⟨wideFile, 0, false⟩).1 = 1 := by decide
  have h2 : (ArmElf32_ExtractHeaderFromFile staleHeader ⟨wideFile, 0, false⟩).1.e_phnum = 256 := by
    decide
  exact ⟨h1, h2, by decide,
    main_diverges _ fuel wideFile _ _ _ _ _ (by rw [h1]; decide) (by rw [h2])⟩

/-- The failure exits of the variant that do not depend on the output. -/
theorem main_variant_invalid {σ : Type} (writeRecord : IntelHexRecord_t → σ → σ) (fuel : Nat)
    (bytes : List Nat) (hexFile : Option σ) (unopened : σ) (elfFileHeader : Elf32_Ehdr)
    (elfProgramHeader : Elf32_Phdr) (record : IntelHexRecord_t)
    (uninit : Nat → IntelHexRecord_t)
    (h : ArmElf32_CheckHeaderValidity
      (ArmElf32_ExtractHeaderFromFile elfFileHeader ⟨bytes, 0, false⟩).1 = 0) :
    main_variant writeRecord fuel 3 (some bytes) hexFile unopened elfFileHeader
        elfProgramHeader record uninit
      = some { status := -3, hexFile := none } := by
  simp [main_variant, h, EXIT_CODE_INVALID_ELF_FILE]

/-- C13: for every input whose header fails the validity predicate, the
orchestrator, in either source file, ends with exit status -3 and leaves the
output alone: whether or not the output could be opened, it is not opened and
nothing is written. -/
theorem invalid_header_no_output {σ : Type} (writeRecord : IntelHexRecord_t → σ → σ)
    (fuel : Nat) (bytes : List Nat) (hexFile : Option σ) (unopened : σ)
    (elfFileHeader : Elf32_Ehdr) (elfProgramHeader : Elf32_Phdr) (record : IntelHexRecord_t)
    (uninit : Nat → IntelHexRecord_t)
    (h : ArmElf32_CheckHeaderValidity
      (ArmElf32_ExtractHeaderFromFile elfFileHeader ⟨bytes, 0, false⟩).1 = 0) :
    main writeRecord fuel 3 (some bytes) hexFile elfFileHeader elfProgramHeader record uninit
      = some { status := EXIT_CODE_INVALID_ELF_FILE, hexFile := none } ∧
    main_variant writeRecord fuel 3 (some bytes) hexFile unopened elfFileHeader
        elfProgramHeader record uninit
      = some { status := EXIT_CODE_INVALID_ELF_FILE, hexFile := none } := by
  refine ⟨?_, ?_⟩
  · exact (main_failures writeRecord fuel 3 (some bytes) hexFile elfFileHeader
      elfProgramHeader record uninit).2.2.1 bytes rfl rfl h
  · exact main_variant_invalid writeRecord fuel bytes hexFile unopened elfFileHeader
      elfProgramHeader record uninit h

set_option maxRecDepth 8192 in
theorem invalid_header_no_output_witness :
    (ArmElf32_ExtractHeaderFromFile staleHeader ⟨badMagicFile, 0, false⟩).1 = badMagicHeader ∧
    ArmElf32_CheckHeaderValidity
      (ArmElf32_ExtractHeaderFromFile staleHeader ⟨badMagicFile, 0, false⟩).1 = 0 ∧
    main IntelHex_WriteRecordToFile 2 3 (some badMagicFile) (some OStream.opened) staleHeader
        stalePhdr staleRecord (fun _ => staleRecord)
      = some { status := -3, hexFile := none } ∧
    main_variant IntelHex_WriteRecordToFile 2 3 (some badMagicFile) (some OStream.opened)
        OStream.closed staleHeader stalePhdr staleRecord (fun _ => staleRecord)
      = some { status := -3, hexFile := none } :=
  ⟨by decide, by decide,
    invalid_header_no_output IntelHex_WriteRecordToFile 2 badMagicFile (some OStream.opened)
      OStream.closed staleHeader stalePhdr staleRecord (fun _ => staleRecord) (by decide)⟩

/-! # The variant and an output that cannot be opened -/

theorem write_closed (s : OStream) (cs : List Char) (hs : s.good = false) : s.write cs = s := by
  simp [OStream.write, hs]

theorem putInt_closed (s : OStream) (n : Nat) (hs : s.good = false) :
    (s.putInt n).buf = s.buf := by
  simp [OStream.putInt, write_closed _ _ hs]

theorem putData_closed (f : Nat → Nat) (n : Nat) (s : OStream) (hs : s.good = false) :
    ((List.range n).foldl (fun (h : OStream) i => (h.setWidth 2).putInt (f i)) s).buf
      = s.buf := by
  induction n with
  | zero => rfl
  | succ n ih =>
    rw [List.range_succ, List.foldl_append]
    simp only [List.foldl_cons, List.foldl_nil]
    have hg : (((List.range n).foldl (fun (h : OStream) i => (h.setWidth 2).putInt (f i))
        s).setWidth 2).good = false := by
      show ((List.range n).foldl (fun (h : OStream) i => (h.setWidth 2).putInt (f i)) s).good
        = false
      rw [putData_good]
      exact hs
    rw [putInt_closed _ _ hg]
    exact ih

/-- A stream that rejects writes receives nothing from the record writer. -/
theorem writeRecord_closed (r : IntelHexRecord_t) (s : OStream) (hs : s.good = false) :
    (IntelHex_WriteRecordToFile r s).buf = s.buf ∧
    (IntelHex_WriteRecordToFile r s).good = false := by
  have hgood : (IntelHex_WriteRecordToFile r s).good = s.good := by
    simp only [IntelHex_WriteRecordToFile, OStream.endl, write_good, OStream.fill,
      OStream.setHex, OStream.setUppercase, OStream.setWidth, putInt_good]
    have h := putData_good r.dataAt r.dataLength
    simp only [OStream.setWidth] at h
    rw [h]
    simp [putInt_good, OStream.putChar, write_good]
  refine ⟨?_, by rw [hgood, hs]⟩
  have h1 : (s.putChar ':').good = false := by simp [OStream.putChar, write_good, hs]
  have h1b : (s.putChar ':').buf = s.buf := by simp [OStream.putChar, write_closed _ _ hs]
  have hd := putData_closed r.dataAt r.dataLength
  simp only [OStream.setWidth] at hd
  have hg := putData_good r.dataAt r.dataLength
  simp only [OStream.setWidth] at hg
  simp only [IntelHex_WriteRecordToFile, OStream.endl, OStream.fill, OStream.setHex,
    OStream.setUppercase, OStream.setWidth]
  rw [write_closed _ _ (by simp [putInt_good, hg, h1])]
  simp [putInt_closed, putInt_good, hd, hg, h1, h1b]

theorem writeRecords_closed (rs : List IntelHexRecord_t) :
    ∀ (s : OStream), s.good = false →
      (writeRecords IntelHex_WriteRecordToFile s rs).buf = s.buf := by
  induction rs with
  | nil => intro s _; rfl
  | cons r rs ih =>
    intro s hs
    simp only [writeRecords, List.foldl_cons] at ih ⊢
    rw [ih _ (writeRecord_closed r s hs).2, (writeRecord_closed r s hs).1]

/-- The variant never ends with the status for an output that cannot be
opened. -/
theorem main_variant_never_minus4 {σ : Type} (writeRecord : IntelHexRecord_t → σ → σ)
    (fuel : Nat) (argc : Int) (elfFile : Option (List Nat)) (hexFile : Option σ) (unopened : σ)
    (elfFileHeader : Elf32_Ehdr) (elfProgramHeader : Elf32_Phdr) (record : IntelHexRecord_t)
    (uninit : Nat → IntelHexRecord_t) (res : MainResult σ)
    (hres : main_variant writeRecord fuel argc elfFile hexFile unopened elfFileHeader
      elfProgramHeader record uninit = some res) :
    res.status ≠ EXIT_CODE_COULDNT_OPEN_HEX_FILE := by
  by_cases h1 : argc = 3
  · cases elfFile with
    | none =>
      simp only [main_variant, h1, if_true] at hres
      cases hres
      show (-2 : Int) ≠ -4
      decide
    | some bytes =>
      by_cases h3 : ArmElf32_CheckHeaderValidity
          (ArmElf32_ExtractHeaderFromFile elfFileHeader ⟨bytes, 0, false⟩).1 = 0
      · rw [h1, main_variant_invalid writeRecord fuel bytes hexFile unopened elfFileHeader
          elfProgramHeader record uninit h3] at hres
        cases hres
        show (-3 : Int) ≠ -4
        decide
      · simp only [main_variant, h1, if_true, h3, ne_eq, not_false_eq_true,
          Option.isSome_some] at hres
        split at hres
        · cases hres
          show (0 : Int) ≠ -4
          decide
        · exact absurd hres (by simp)
  · simp only [main_variant, h1, if_false] at hres
    cases hres
    show (-1 : Int) ≠ -4
    decide

/-- C20: in the variant, for every run with three arguments, an input that
opens, a valid header with `e_phnum ≤ 255` and an output that cannot be opened,
the failure goes undetected: the run ends with exit status 0, and the variant
never returns -4. `main` of the other file returns -4 on the same run. -/
theorem variant_open_failure_undetected (fuel : Nat) (bytes : List Nat)
    (elfFileHeader : Elf32_Ehdr) (elfProgramHeader : Elf32_Phdr) (record : IntelHexRecord_t)
    (uninit : Nat → IntelHexRecord_t) (hdr : Elf32_Ehdr) (inp : IStream)
    (hex : ArmElf32_ExtractHeaderFromFile elfFileHeader ⟨bytes, 0, false⟩ = (hdr, inp))
    (hvalid : ArmElf32_CheckHeaderValidity hdr = 1) (hph : hdr.e_phnum ≤ 255)
    (hfuel : hdr.e_phnum < fuel) :
    main_variant IntelHex_WriteRecordToFile fuel 3 (some bytes) none OStream.closed
        elfFileHeader elfProgramHeader record uninit
      = some { status := EXIT_CODE_ALL_SUCCEEDED, hexFile := none } ∧
    main IntelHex_WriteRecordToFile fuel 3 (some bytes) none elfFileHeader elfProgramHeader
        record uninit
      = some { status := EXIT_CODE_COULDNT_OPEN_HEX_FILE, hexFile := none } ∧
    (∀ rs, (writeRecords IntelHex_WriteRecordToFile OStream.closed rs).buf = []) ∧
    (∀ (fuel1 : Nat) (argc : Int) (elfFile : Option (List Nat)) (hexFile : Option OStream)
        (h0 : Elf32_Ehdr) (p0 : Elf32_Phdr) (r0 : IntelHexRecord_t)
        (u0 : Nat → IntelHexRecord_t) (res : MainResult OStream),
      main_variant IntelHex_WriteRecordToFile fuel1 argc elfFile hexFile OStream.closed h0 p0
          r0 u0 = some res →
      res.status ≠ EXIT_CODE_COULDNT_OPEN_HEX_FILE) := by
  refine ⟨?_, ?_, ?_, ?_⟩
  · have hloop := main_loop_eq IntelHex_WriteRecordToFile hdr uninit hph fuel 0
      elfProgramHeader inp OStream.closed (Nat.zero_le _) (by omega)
    simp only [main_variant, if_true, hex, hvalid, ne_eq, Nat.one_ne_zero, not_false_eq_true,
      Option.isSome_some, Option.getD_none, hloop, Option.map_none']
  · have hv : ArmElf32_CheckHeaderValidity
        (ArmElf32_ExtractHeaderFromFile elfFileHeader ⟨bytes, 0, false⟩).1 ≠ 0 := by
      rw [hex, hvalid]
      decide
    exact (main_failures IntelHex_WriteRecordToFile fuel 3 (some bytes) none elfFileHeader
      elfProgramHeader record uninit).2.2.2 bytes rfl rfl hv rfl
  · intro rs
    exact writeRecords_closed rs OStream.closed rfl
  · intro fuel1 argc elfFile hexFile h0 p0 r0 u0 res hres
    exact main_variant_never_minus4 _ fuel1 argc elfFile hexFile _ h0 p0 r0 u0 res hres

set_option maxRecDepth 8192 in
theorem variant_open_failure_undetected_witness :
    ArmElf32_ExtractHeaderFromFile staleHeader ⟨sampleFile, 0, false⟩
      = (sampleHeader, ⟨sampleFile, 52, false⟩) ∧
    ArmElf32_CheckHeaderValidity sampleHeader = 1 ∧ sampleHeader.e_phnum ≤ 255 ∧
    sampleHeader.e_phnum < 2 ∧
    main_variant IntelHex_WriteRecordToFile 2 3 (some sampleFile) none OStream.closed
        staleHeader stalePhdr staleRecord (fun _ => staleRecord)
      = some { status := 0, hexFile := none } ∧
    main IntelHex_WriteRecordToFile 2 3 (some sampleFile) none staleHeader stalePhdr
        staleRecord (fun _ => staleRecord)
      = some { status := -4, hexFile := none } := by
  have hex : ArmElf32_ExtractHeaderFromFile staleHeader ⟨sampleFile, 0, false⟩
      = (sampleHeader, ⟨sampleFile, 52, false⟩) := by decide
  have h := variant_open_failure_undetected 2 sampleFile staleHeader stalePhdr staleRecord
    (fun _ => staleRecord) sampleHeader ⟨sampleFile, 52, false⟩ hex (by decide) (by decide)
    (by decide)
  exact ⟨hex, by decide, by decide, by decide, h.1, h.2.1⟩

/-! # The lines of the end-to-end example -/

theorem sealed_checksum (r : IntelHexRecord_t) (hs : r.Sealed) :
    r.checksum = (256 - recordByteSum r % 256) % 256 := by
  obtain ⟨hwf, _, hsum⟩ := hs
  have hc : r.checksum < 256 := hwf.2.2.2.2.2
  omega

/-- The text of a sealed record is that of the canonical record with the same
length, address, type and payload: the bytes past `dataLength` play no part. -/
theorem sealed_recordText (r : IntelHexRecord_t) (hs : r.Sealed) :
    recordText r
      = recordText (canonicalRecord r.dataLength r.addressOffset r.type
          (r.data.take r.dataLength)) := by
  have hck := sealed_checksum r hs
  obtain ⟨hwf, hdl, _⟩ := hs
  have hlen : (r.data.take r.dataLength).length = r.dataLength := by
    rw [List.length_take, hwf.2.2.2.1]
    omega
  have htake : ((r.data.take r.dataLength)
      ++ List.replicate (16 - (r.data.take r.dataLength).length) 0).take r.dataLength
      = r.data.take r.dataLength := List.take_left' hlen
  have hc2 := checksum_eq
    { dataLength := r.dataLength, addressOffset := r.addressOffset, type := r.type,
      data := r.data.take r.dataLength
        ++ List.replicate (16 - (r.data.take r.dataLength).length) 0,
      checksum := 0 }
    (by simp only [List.length_append, List.length_replicate, hlen]; omega)
  have hsum : recordByteSum
      { dataLength := r.dataLength, addressOffset := r.addressOffset, type := r.type,
        data := r.data.take r.dataLength
          ++ List.replicate (16 - (r.data.take r.dataLength).length) 0,
        checksum := 0 } = recordByteSum r := by
    simp only [recordByteSum, htake]
  rw [hsum] at hc2
  simp only [recordText, canonicalRecord, checksum_dataLength, checksum_addressOffset,
    checksum_type, checksum_data, htake, hc2, hck]

theorem segment_addressRecord_take (ph : Elf32_Phdr) (rec : IntelHexRecord_t)
    (hrec : 2 ≤ rec.data.length) :
    (segment_addressRecord ph rec).data.take 2
      = [ph.p_paddr / 2 ^ 24 % 256, ph.p_paddr / 2 ^ 16 % 256] := by
  simp only [segment_addressRecord, IntelHexRecord_t.setData, checksum_data,
    and_0xFFFF0000_shift24, and_0xFFFF0000_shift16, u8]
  match hd : rec.data, hrec with
  | d0 :: d1 :: rest, _ =>
    simp only [List.set_cons_zero, List.set_cons_succ, List.take_succ_cons, List.take_zero]
    have : ph.p_paddr / 2 ^ 16 % 65536 % 256 = ph.p_paddr / 2 ^ 16 % 256 := by omega
    rw [this, Nat.mod_mod]

theorem seekg_bytes (s : IStream) (p : Nat) : (s.seekg p).bytes = s.bytes := by
  unfold IStream.seekg
  split <;> rfl

theorem read_bytes (s : IStream) (n : Nat) : (s.read n).2.bytes = s.bytes := by
  unfold IStream.read
  split <;> rfl

theorem extractHeader_bytes (h0 : Elf32_Ehdr) (s : IStream) :
    (ArmElf32_ExtractHeaderFromFile h0 s).2.bytes = s.bytes := by
  show ((s.seekg 0).read 52).2.bytes = s.bytes
  rw [read_bytes, seekg_bytes]

theorem extractPhdr_bytes (p0 : Elf32_Phdr) (i : Nat) (hdr : Elf32_Ehdr) (s : IStream) :
    (ArmElf32_ExtractProgramHeaderEntryFromFile p0 i hdr s).2.bytes = s.bytes := by
  show ((s.seekg (u32 (hdr.e_phoff + u32 (i * hdr.e_phentsize)))).read 32).2.bytes = s.bytes
  rw [read_bytes, seekg_bytes]

theorem list_length_one {α : Type} (L : List α) (h : L.length = 1) : ∃ a, L = [a] := by
  match L, h with
  | [a], _ => exact ⟨a, rfl⟩

/-- The run on an image with one program header entry of 20 bytes loaded at
`0x08000000`: five lines, the first and the last fixed, the second and third
the Data records of 16 and 4 bytes at offsets 0 and 16, the fourth the start
address record. -/
theorem example_lines (fuel : Nat) (bytes : List Nat) (elfFileHeader : Elf32_Ehdr)
    (elfProgramHeader : Elf32_Phdr) (record : IntelHexRecord_t)
    (uninit : Nat → IntelHexRecord_t) (hdr : Elf32_Ehdr) (inp : IStream)
    (ph : Elf32_Phdr) (inp2 : IStream)
    (hex : ArmElf32_ExtractHeaderFromFile elfFileHeader ⟨bytes, 0, false⟩ = (hdr, inp))
    (hvalid : ArmElf32_CheckHeaderValidity hdr = 1) (hnum : hdr.e_phnum = 1)
    (hfuel : 1 < fuel)
    (hent : ArmElf32_ExtractProgramHeaderEntryFromFile elfProgramHeader 0 hdr inp = (ph, inp2))
    (hpa : ph.p_paddr = 0x08000000) (hsz : ph.p_filesz = 20)
    (hrec : record.data.length = 16) (hb : ∀ b ∈ record.data, b < 256)
    (hun : ∀ k, (uninit k).data.length = 16 ∧ ∀ b ∈ (uninit k).data, b < 256) :
    ∃ (final : OStream) (d0 t : IntelHexRecord_t),
      main IntelHex_WriteRecordToFile fuel 3 (some bytes) (some OStream.opened) elfFileHeader
          elfProgramHeader record uninit
        = some { status := 0, hexFile := some final } ∧
      splitLines final.buf
        = [":020000040800F2".toList, recordText d0, recordText t,
           recordText (main_startRecord hdr record), ":00000001FF".toList] ∧
      (d0.Sealed ∧ d0.dataLength = 16 ∧ d0.type = 0 ∧ d0.addressOffset = 0) ∧
      (t.Sealed ∧ t.dataLength = 4 ∧ t.type = 0 ∧ t.addressOffset = 16) ∧
      (inp2.fail = false → (∀ b ∈ inp2.bytes, b < 256) →
        ph.p_offset + 20 ≤ inp2.bytes.length →
        d0.data.take 16 ++ t.data.take 4 = (inp2.bytes.drop ph.p_offset).take 20) := by
  have hmain := main_eq IntelHex_WriteRecordToFile fuel bytes OStream.opened elfFileHeader
    elfProgramHeader record uninit hdr inp hex hvalid (by omega) (by omega)
  have hsealed := main_log_sealed hdr uninit elfProgramHeader inp record hdr.e_phnum hrec hb hun
  have hbuf := writeRecords_sealed_buf _ OStream.opened (by decide) hsealed
  have hentry : (List.range hdr.e_phnum).flatMap (entryRecords hdr uninit elfProgramHeader inp)
      = segmentRecords ph inp2 (uninit 0) := by
    rw [hnum]
    simp [entryRecords, runEntries, hent, List.range_succ]
  obtain ⟨L, tl, heq, hL, hrecs, _, htl1, hpay⟩ :=
    segmentRecords_shape ph inp2 (uninit 0) (by rw [hsz]; decide)
  rw [hsz] at hL htl1 hpay
  obtain ⟨d0, rfl⟩ := list_length_one L hL
  obtain ⟨t, rfl, ht1, ht2, ht3⟩ := htl1 (by decide)
  have hd0 := hrecs 0 (by simp)
  simp only [List.getElem_cons_zero, hpa] at hd0
  rw [hpa] at ht3
  rw [hentry, heq] at hmain hsealed hbuf
  have hs_ela := hsealed (segment_addressRecord ph (uninit 0)) (by simp)
  have hs_d0 := hsealed d0 (by simp)
  have hs_t := hsealed t (by simp)
  have hs_eof := hsealed (main_eofRecord (main_startRecord hdr record)) (by simp)
  have hela : recordText (segment_addressRecord ph (uninit 0)) = ":020000040800F2".toList := by
    rw [sealed_recordText _ hs_ela]
    have h2 : (segment_addressRecord ph (uninit 0)).dataLength = 2 := rfl
    have h0 : (segment_addressRecord ph (uninit 0)).addressOffset = 0 := rfl
    have h4 : (segment_addressRecord ph (uninit 0)).type = 4 := rfl
    rw [h2, h0, h4, segment_addressRecord_take ph (uninit 0) (by rw [(hun 0).1]; decide), hpa]
    decide
  have heof : recordText (main_eofRecord (main_startRecord hdr record))
      = ":00000001FF".toList := by
    rw [sealed_recordText _ hs_eof]
    have h2 : (main_eofRecord (main_startRecord hdr record)).dataLength = 0 := rfl
    have h0 : (main_eofRecord (main_startRecord hdr record)).addressOffset = 0 := rfl
    have h4 : (main_eofRecord (main_startRecord hdr record)).type = 1 := rfl
    rw [h2, h0, h4, List.take_zero]
    decide
  refine ⟨_, d0, t, hmain, ?_, ⟨hs_d0, hd0.2.1, hd0.1, by simpa using hd0.2.2⟩,
    ⟨hs_t, ht2, ht1, by simpa using ht3⟩, ?_⟩
  · rw [hbuf]
    have h0 : OStream.opened.buf = [] := rfl
    rw [h0, List.nil_append, splitLines_recordLines]
    simp only [List.cons_append, List.nil_append, List.map_cons, List.map_nil, hela, heof]
  · intro hf hbytes hlen
    have hin : inp2 = ⟨inp2.bytes, inp2.pos, false⟩ := by
      cases inp2
      simp only at hf
      simp [hf]
    have h := hpay inp2.bytes inp2.pos hin hbytes (hun 0).1 hlen
    simpa [payload, hd0.2.1, ht2] using h

set_option maxRecDepth 100000 in
/-- C14, as stated, fails on the code: the sample image has entry point
`0x08000201`, one program header entry, physical address `0x08000000` and file
size 20, and the first line written for it is `:020000040800F2`, not
`:02000004080008F4`. -/
theorem example_first_line_counterexample :
    ArmElf32_ExtractHeaderFromFile staleHeader ⟨sampleFile, 0, false⟩
      = (sampleHeader, ⟨sampleFile, 52, false⟩) ∧
    sampleHeader.e_entry = 0x08000201 ∧ sampleHeader.e_phnum = 1 ∧
    (ArmElf32_ExtractProgramHeaderEntryFromFile stalePhdr 0 sampleHeader
      ⟨sampleFile, 52, false⟩).1.p_paddr = 0x08000000 ∧
    (ArmElf32_ExtractProgramHeaderEntryFromFile stalePhdr 0 sampleHeader
      ⟨sampleFile, 52, false⟩).1.p_filesz = 20 ∧
    main IntelHex_WriteRecordToFile 2 3 (some sampleFile) (some OStream.opened) staleHeader
        stalePhdr staleRecord (fun _ => staleRecord)
      = some { status := 0, hexFile := some sampleOutput } ∧
    (splitLines sampleOutput.buf).head? = some ":020000040800F2".toList ∧
    (splitLines sampleOutput.buf).head? ≠ some ":02000004080008F4".toList := by
  decide

/-- C14, amended: for an ELF image with `e_phnum = 1` and one segment with
`p_paddr = 0x08000000` and `p_filesz = 20`, the first output line (the
extended address record) is exactly `:020000040800F2`. -/
theorem example_first_line (fuel : Nat) (bytes : List Nat) (elfFileHeader : Elf32_Ehdr)
    (elfProgramHeader : Elf32_Phdr) (record : IntelHexRecord_t)
    (uninit : Nat → IntelHexRecord_t) (hdr : Elf32_Ehdr) (inp : IStream)
    (ph : Elf32_Phdr) (inp2 : IStream)
    (hex : ArmElf32_ExtractHeaderFromFile elfFileHeader ⟨bytes, 0, false⟩ = (hdr, inp))
    (hvalid : ArmElf32_CheckHeaderValidity hdr = 1) (hnum : hdr.e_phnum = 1)
    (hfuel : 1 < fuel)
    (hent : ArmElf32_ExtractProgramHeaderEntryFromFile elfProgramHeader 0 hdr inp = (ph, inp2))
    (hpa : ph.p_paddr = 0x08000000) (hsz : ph.p_filesz = 20)
    (hrec : record.data.length = 16) (hb : ∀ b ∈ record.data, b < 256)
    (hun : ∀ k, (uninit k).data.length = 16 ∧ ∀ b ∈ (uninit k).data, b < 256) :
    ∃ final : OStream,
      main IntelHex_WriteRecordToFile fuel 3 (some bytes) (some OStream.opened) elfFileHeader
          elfProgramHeader record uninit
        = some { status := 0, hexFile := some final } ∧
      (splitLines final.buf).head? = some ":020000040800F2".toList := by
  obtain ⟨final, d0, t, hmain, hlines, _⟩ := example_lines fuel bytes elfFileHeader
    elfProgramHeader record uninit hdr inp ph inp2 hex hvalid hnum hfuel hent hpa hsz hrec hb hun
  exact ⟨final, hmain, by rw [hlines]; rfl⟩

set_option maxRecDepth 100000 in
theorem example_first_line_witness :
    ArmElf32_ExtractHeaderFromFile staleHeader ⟨sampleFile, 0, false⟩
      = (sampleHeader, ⟨sampleFile, 52, false⟩) ∧
    ArmElf32_CheckHeaderValidity sampleHeader = 1 ∧ sampleHeader.e_phnum = 1 ∧
    (ArmElf32_ExtractProgramHeaderEntryFromFile stalePhdr 0 sampleHeader
      ⟨sampleFile, 52, false⟩).1.p_paddr = 0x08000000 ∧
    (ArmElf32_ExtractProgramHeaderEntryFromFile stalePhdr 0 sampleHeader
      ⟨sampleFile, 52, false⟩).1.p_filesz = 20 ∧
    staleRecord.data.length = 16 ∧ (∀ b ∈ staleRecord.data, b < 256) ∧
    ∃ final : OStream,
      main IntelHex_WriteRecordToFile 2 3 (some sampleFile) (some OStream.opened) staleHeader
          stalePhdr staleRecord (fun _ => staleRecord)
        = some { status := 0, hexFile := some final } ∧
      (splitLines final.buf).head? = some ":020000040800F2".toList := by
  have hex : ArmElf32_ExtractHeaderFromFile staleHeader ⟨sampleFile, 0, false⟩
      = (sampleHeader, ⟨sampleFile, 52, false⟩) := by decide
  have hpa : (ArmElf32_ExtractProgramHeaderEntryFromFile stalePhdr 0 sampleHeader
      ⟨sampleFile, 52, false⟩).1.p_paddr = 0x08000000 := by decide
  have hsz : (ArmElf32_ExtractProgramHeaderEntryFromFile stalePhdr 0 sampleHeader
      ⟨sampleFile, 52, false⟩).1.p_filesz = 20 := by decide
  exact ⟨hex, by decide, by decide, hpa, hsz, by decide, by decide,
    example_first_line 2 sampleFile staleHeader stalePhdr staleRecord (fun _ => staleRecord)
      sampleHeader ⟨sampleFile, 52, false⟩ _ _ hex (by decide) (by decide) (by decide) rfl
      hpa hsz (by decide) (by decide)
      (fun _ => ⟨(by decide : staleRecord.data.length = 16),
        (by decide : ∀ b ∈ staleRecord.data, b < 256)⟩)⟩

/-- C15: for an ELF image with entry point `0x08000201`, one program header
entry and one segment with `p_paddr = 0x08000000`, `p_filesz = 20` and bytes
`00 01 .. 13`, the output has exactly five lines; line 2 is the Data record at
offset 0000 with the 16 bytes `00..0F`, line 3 the Data record at offset 0010
with the 4 bytes `10 11 12 13`, line 4 the start address record with data
`08 00 02 01`, and line 5 is `:00000001FF`. -/
theorem example_remaining_lines (fuel : Nat) (bytes : List Nat) (elfFileHeader : Elf32_Ehdr)
    (elfProgramHeader : Elf32_Phdr) (record : IntelHexRecord_t)
    (uninit : Nat → IntelHexRecord_t) (hdr : Elf32_Ehdr) (inp : IStream)
    (ph : Elf32_Phdr) (inp2 : IStream)
    (hex : ArmElf32_ExtractHeaderFromFile elfFileHeader ⟨bytes, 0, false⟩ = (hdr, inp))
    (hvalid : ArmElf32_CheckHeaderValidity hdr = 1) (hnum : hdr.e_phnum = 1)
    (hentry : hdr.e_entry = 0x08000201) (hfuel : 1 < fuel)
    (hent : ArmElf32_ExtractProgramHeaderEntryFromFile elfProgramHeader 0 hdr inp = (ph, inp2))
    (hgood : inp2.fail = false)
    (hpa : ph.p_paddr = 0x08000000) (hsz : ph.p_filesz = 20)
    (hbytes : ∀ b ∈ bytes, b < 256)
    (hseg : (bytes.drop ph.p_offset).take 20 = List.range 20)
    (hrec : record.data.length = 16) (hb : ∀ b ∈ record.data, b < 256)
    (hun : ∀ k, (uninit k).data.length = 16 ∧ ∀ b ∈ (uninit k).data, b < 256) :
    ∃ (final : OStream) (line1 : List Char),
      main IntelHex_WriteRecordToFile fuel 3 (some bytes) (some OStream.opened) elfFileHeader
          elfProgramHeader record uninit
        = some { status := 0, hexFile := some final } ∧
      splitLines final.buf
        = [line1,
           ":10000000000102030405060708090A0B0C0D0E0F78".toList,
           ":0400100010111213A6".toList,
           ":0400000508000201EC".toList,
           ":00000001FF".toList] ∧
      (splitLines final.buf).length = 5 := by
  obtain ⟨final, d0, t, hmain, hlines, ⟨hs0, h0dl, h0ty, h0ad⟩, ⟨hst, htdl, htty, htad⟩, hdata⟩ :=
    example_lines fuel bytes elfFileHeader elfProgramHeader record uninit hdr inp ph inp2 hex
      hvalid hnum hfuel hent hpa hsz hrec hb hun
  have hb2 : inp2.bytes = bytes := by
    have h1 := extractPhdr_bytes elfProgramHeader 0 hdr inp
    have h2 := extractHeader_bytes elfFileHeader ⟨bytes, 0, false⟩
    rw [hent] at h1
    rw [hex] at h2
    exact h1.trans h2
  have hlen : ph.p_offset + 20 ≤ bytes.length := by
    have := congrArg List.length hseg
    simp only [List.length_take, List.length_drop, List.length_range] at this
    omega
  have hd := hdata hgood (by rw [hb2]; exact hbytes) (by rw [hb2]; exact hlen)
  rw [hb2, hseg] at hd
  have hl0 : (d0.data.take 16).length = (List.range 16).length := by
    rw [List.length_take, hs0.1.2.2.2.1]
    rfl
  have hsplit : List.range 20 = List.range 16 ++ [16, 17, 18, 19] := by decide
  rw [hsplit] at hd
  obtain ⟨hd0, hdt⟩ := List.append_inj hd hl0
  have hline2 : recordText d0 = ":10000000000102030405060708090A0B0C0D0E0F78".toList := by
    rw [sealed_recordText d0 hs0, h0dl, h0ty, h0ad, hd0]
    decide
  have hline3 : recordText t = ":0400100010111213A6".toList := by
    rw [sealed_recordText t hst, htdl, htty, htad, hdt]
    decide
  have hline4 : recordText (main_startRecord hdr record) = ":0400000508000201EC".toList := by
    rw [sealed_recordText _ (main_startRecord_sealed hdr record hrec hb)]
    have h4 : (main_startRecord hdr record).dataLength = 4 := rfl
    have ha : (main_startRecord hdr record).addressOffset = 0 := rfl
    have h5 : (main_startRecord hdr record).type = 5 := rfl
    rw [h4, ha, h5, main_startRecord_data hdr record hrec, hentry]
    simp only [List.cons_append, List.nil_append, List.take_succ_cons, List.take_zero]
    decide
  refine ⟨final, ":020000040800F2".toList, hmain, ?_, by rw [hlines]; rfl⟩
  rw [hlines, hline2, hline3, hline4]

set_option maxRecDepth 100000 in
theorem example_remaining_lines_witness :
    ArmElf32_ExtractHeaderFromFile staleHeader ⟨sampleFile, 0, false⟩
      = (sampleHeader, ⟨sampleFile, 52, false⟩) ∧
    ArmElf32_CheckHeaderValidity sampleHeader = 1 ∧ sampleHeader.e_phnum = 1 ∧
    sampleHeader.e_entry = 0x08000201 ∧
    (ArmElf32_ExtractProgramHeaderEntryFromFile stalePhdr 0 sampleHeader
      ⟨sampleFile, 52, false⟩).2.fail = false ∧
    (∀ b ∈ sampleFile, b < 256) ∧
    ∃ (final : OStream) (line1 : List Char),
      main IntelHex_WriteRecordToFile 2 3 (some sampleFile) (some OStream.opened) staleHeader
          stalePhdr staleRecord (fun _ => staleRecord)
        = some { status := 0, hexFile := some final } ∧
      splitLines final.buf
        = [line1,
           ":10000000000102030405060708090A0B0C0D0E0F78".toList,
           ":0400100010111213A6".toList,
           ":0400000508000201EC".toList,
           ":00000001FF".toList] ∧
      (splitLines final.buf).length = 5 := by
  have hex : ArmElf32_ExtractHeaderFromFile staleHeader ⟨sampleFile, 0, false⟩
      = (sampleHeader, ⟨sampleFile, 52, false⟩) := by decide
  have hgood : (ArmElf32_ExtractProgramHeaderEntryFromFile stalePhdr 0 sampleHeader
      ⟨sampleFile, 52, false⟩).2.fail = false := by decide
  have hbytes : ∀ b ∈ sampleFile, b < 256 := by decide
  exact ⟨hex, by decide, by decide, by decide, hgood, hbytes,
    example_remaining_lines 2 sampleFile staleHeader stalePhdr staleRecord
      (fun _ => staleRecord) sampleHeader ⟨sampleFile, 52, false⟩ _ _ hex (by decide)
      (by decide) (by decide) (by decide) rfl hgood (by decide) (by decide) hbytes (by decide)
      (by decide) (by decide)
      (fun _ => ⟨(by decide : staleRecord.data.length = 16),
        (by decide : ∀ b ∈ staleRecord.data, b < 256)⟩)⟩

/-! # A segment of 33 bytes -/

theorem list_length_two {α : Type} (L : List α) (h : L.length = 2) : ∃ a b, L = [a, b] := by
  match L, h with
  | [a, b], _ => exact ⟨a, b, rfl⟩

/-- C16: encoding a segment with `p_filesz = 33` and `p_paddr = 0x08000000`
produces exactly four records: one Extended Linear Address record, two Data
records of length 16 at offsets `0x0000` and `0x0010`, one Data record of length
1 at offset `0x0020`. The segment encoder emits no Start Linear Address and no
End Of File record; in a run these two follow the records of all segments. -/
theorem segment_33_records (elfProgramHeader : Elf32_Phdr) (elfFileHandle : IStream)
    (record : IntelHexRecord_t) (hsz : elfProgramHeader.p_filesz = 33)
    (hpa : elfProgramHeader.p_paddr = 0x08000000) :
    (∃ ela d0 d1 t : IntelHexRecord_t,
      segmentRecords elfProgramHeader elfFileHandle record = [ela, d0, d1, t] ∧
      (ela.type = HEX_RECORD_TYPE_EXTENDED_LINEAR_ADDR ∧ ela.dataLength = 2 ∧
        ela.addressOffset = 0) ∧
      (d0.type = HEX_RECORD_TYPE_DATA ∧ d0.dataLength = 16 ∧ d0.addressOffset = 0x0000) ∧
      (d1.type = HEX_RECORD_TYPE_DATA ∧ d1.dataLength = 16 ∧ d1.addressOffset = 0x0010) ∧
      (t.type = HEX_RECORD_TYPE_DATA ∧ t.dataLength = 1 ∧ t.addressOffset = 0x0020)) ∧
    (∀ r ∈ segmentRecords elfProgramHeader elfFileHandle record,
      r.type ≠ HEX_RECORD_TYPE_START_LINEAR_ADDR ∧ r.type ≠ HEX_RECORD_TYPE_EOF) ∧
    (∀ (fuel : Nat) (bytes : List Nat) (h0 : Elf32_Ehdr) (p0 : Elf32_Phdr)
        (r0 : IntelHexRecord_t) (u0 : Nat → IntelHexRecord_t) (hdr : Elf32_Ehdr) (inp : IStream),
      ArmElf32_ExtractHeaderFromFile h0 ⟨bytes, 0, false⟩ = (hdr, inp) →
      ArmElf32_CheckHeaderValidity hdr = 1 → hdr.e_phnum ≤ 255 → hdr.e_phnum < fuel →
      main logRecord fuel 3 (some bytes) (some []) h0 p0 r0 u0
        = some { status := 0
                 hexFile := some ((List.range hdr.e_phnum).flatMap (entryRecords hdr u0 p0 inp)
                   ++ [main_startRecord hdr r0, main_eofRecord (main_startRecord hdr r0)]) }) := by
  refine ⟨?_, ?_, ?_⟩
  · obtain ⟨L, tl, heq, hL, hrecs, _, htl1, _⟩ :=
      segmentRecords_shape elfProgramHeader elfFileHandle record (by rw [hsz]; decide)
    rw [hsz] at hL htl1
    obtain ⟨d0, d1, rfl⟩ := list_length_two L hL
    obtain ⟨t, rfl, ht1, ht2, ht3⟩ := htl1 (by decide)
    have h0 := hrecs 0 (by simp)
    have h1 := hrecs 1 (by simp)
    simp only [List.getElem_cons_zero, List.getElem_cons_succ, hpa] at h0 h1
    rw [hpa] at ht3
    exact ⟨_, d0, d1, t, heq, segment_addressRecord_fields _ _,
      ⟨h0.1, h0.2.1, by simpa using h0.2.2⟩, ⟨h1.1, h1.2.1, by simpa using h1.2.2⟩,
      ⟨ht1, ht2, by simpa using ht3⟩⟩
  · intro r hr
    rcases segmentRecords_types _ _ _ r hr with h | h <;> rw [h] <;> decide
  · intro fuel bytes h0 p0 r0 u0 hdr inp hex hvalid hph hfuel
    rw [main_eq logRecord fuel bytes [] h0 p0 r0 u0 hdr inp hex hvalid hph hfuel,
      writeRecords_log]
    rfl

theorem segment_33_records_witness :
    phdr33.p_filesz = 33 ∧ phdr33.p_paddr = 0x08000000 ∧
    ∃ ela d0 d1 t : IntelHexRecord_t,
      segmentRecords phdr33 stream40 staleRecord = [ela, d0, d1, t] ∧
      (ela.type = HEX_RECORD_TYPE_EXTENDED_LINEAR_ADDR ∧ ela.dataLength = 2 ∧
        ela.addressOffset = 0) ∧
      (d0.type = HEX_RECORD_TYPE_DATA ∧ d0.dataLength = 16 ∧ d0.addressOffset = 0x0000) ∧
      (d1.type = HEX_RECORD_TYPE_DATA ∧ d1.dataLength = 16 ∧ d1.addressOffset = 0x0010) ∧
      (t.type = HEX_RECORD_TYPE_DATA ∧ t.dataLength = 1 ∧ t.addressOffset = 0x0020) :=
  ⟨rfl, rfl, (segment_33_records phdr33 stream40 staleRecord rfl rfl).1⟩

/-! # Reading a program header entry -/

theorem fieldAt_append (got rest : List Nat) (off w : Nat) (h : off + w ≤ got.length) :
    fieldAt (got ++ rest) off w = fieldAt got off w := by
  unfold fieldAt
  rw [List.drop_append_of_le_length (by omega),
    List.take_append_of_le_length (by rw [List.length_drop]; omega)]

theorem fieldAt_take_drop (bs : List Nat) (p n off w : Nat) (h : off + w ≤ n) :
    fieldAt ((bs.drop p).take n) off w = fieldAt bs (p + off) w := by
  unfold fieldAt
  rw [List.drop_take, List.take_take, List.drop_drop, Nat.min_eq_left (by omega)]

theorem seekg_good (s : IStream) (p : Nat) (h : s.fail = false) :
    s.seekg p = { s with pos := p } := by
  simp [IStream.seekg, h]

theorem read_full (s : IStream) (n : Nat) (h : s.fail = false) (hlen : s.pos + n ≤ s.bytes.length) :
    s.read n = ((s.bytes.drop s.pos).take n, { s with pos := s.pos + n }) := by
  have hl : ((s.bytes.drop s.pos).take n).length = n := by
    rw [List.length_take, List.length_drop]
    omega
  simp [IStream.read, h, hl]

theorem phdrPosition_eq (hdr : Elf32_Ehdr) (i : Nat) (hsz : hdr.e_phentsize < 65536)
    (hi : i ≤ 255) :
    u32 (hdr.e_phoff + u32 (i * hdr.e_phentsize)) = phdrPosition hdr i ∧
    i * hdr.e_phentsize < 4294967296 := by
  have hprod : i * hdr.e_phentsize < 4294967296 := by
    have h1 : i * hdr.e_phentsize ≤ 255 * hdr.e_phentsize := Nat.mul_le_mul_right _ hi
    omega
  refine ⟨?_, hprod⟩
  unfold u32 phdrPosition
  rw [Nat.mod_eq_of_lt hprod]

/-- C17: for every header and every index `i ≤ 255`, with the stream good and
the 32 bytes of the entry present, `ArmElf32_ExtractProgramHeaderEntryFromFile`
positions the source at `(e_phoff + i * e_phentsize) mod 2^32`, which is
`e_phoff + i * e_phentsize` whenever that is below `2^32` (the product never
overflows 32 bits), and returns the entry whose `p_offset`, `p_paddr` and
`p_filesz` are the little-endian 32-bit values 4, 12 and 16 bytes after that
position. -/
theorem extractProgramHeaderEntry_spec (elfProgramHeader : Elf32_Phdr) (i : Nat)
    (elfFileHeader : Elf32_Ehdr) (elfFileHandle : IStream)
    (hsz : elfFileHeader.e_phentsize < 65536) (hi : i ≤ 255)
    (hgood : elfFileHandle.fail = false)
    (hlen : phdrPosition elfFileHeader i + 32 ≤ elfFileHandle.bytes.length) :
    elfFileHandle.seekg
        (u32 (elfFileHeader.e_phoff + u32 (i * elfFileHeader.e_phentsize)))
      = { elfFileHandle with pos := phdrPosition elfFileHeader i } ∧
    i * elfFileHeader.e_phentsize < 4294967296 ∧
    (elfFileHeader.e_phoff + i * elfFileHeader.e_phentsize < 4294967296 →
      phdrPosition elfFileHeader i = elfFileHeader.e_phoff + i * elfFileHeader.e_phentsize) ∧
    (ArmElf32_ExtractProgramHeaderEntryFromFile elfProgramHeader i elfFileHeader
        elfFileHandle).1.p_offset
      = fieldAt elfFileHandle.bytes (phdrPosition elfFileHeader i + 4) 4 ∧
    (ArmElf32_ExtractProgramHeaderEntryFromFile elfProgramHeader i elfFileHeader
        elfFileHandle).1.p_paddr
      = fieldAt elfFileHandle.bytes (phdrPosition elfFileHeader i + 12) 4 ∧
    (ArmElf32_ExtractProgramHeaderEntryFromFile elfProgramHeader i elfFileHeader
        elfFileHandle).1.p_filesz
      = fieldAt elfFileHandle.bytes (phdrPosition elfFileHeader i + 16) 4 ∧
    (ArmElf32_ExtractProgramHeaderEntryFromFile elfProgramHeader i elfFileHeader
        elfFileHandle).2
      = { elfFileHandle with pos := phdrPosition elfFileHeader i + 32 } := by
  obtain ⟨hpos, hprod⟩ := phdrPosition_eq elfFileHeader i hsz hi
  have hseek := seekg_good elfFileHandle (phdrPosition elfFileHeader i) hgood
  have hread := read_full { elfFileHandle with pos := phdrPosition elfFileHeader i } 32 hgood hlen
  simp only at hread
  have hgl : ((elfFileHandle.bytes.drop (phdrPosition elfFileHeader i)).take 32).length = 32 := by
    rw [List.length_take, List.length_drop]
    omega
  have hfield : ∀ off, off + 4 ≤ 32 →
      fieldAt (overlay elfProgramHeader.toBytes
        ((elfFileHandle.bytes.drop (phdrPosition elfFileHeader i)).take 32)) off 4
      = fieldAt elfFileHandle.bytes (phdrPosition elfFileHeader i + off) 4 := by
    intro off hoff
    unfold overlay
    rw [fieldAt_append _ _ _ _ (by rw [hgl]; exact hoff), fieldAt_take_drop _ _ _ _ _ hoff]
  refine ⟨by rw [hpos]; exact hseek, hprod, ?_, ?_, ?_, ?_, ?_⟩
  · intro hlt
    exact Nat.mod_eq_of_lt hlt
  · simp only [ArmElf32_ExtractProgramHeaderEntryFromFile, hpos, hseek, hread,
      Elf32_Phdr.ofBytes]
    exact hfield 4 (by decide)
  · simp only [ArmElf32_ExtractProgramHeaderEntryFromFile, hpos, hseek, hread,
      Elf32_Phdr.ofBytes]
    exact hfield 12 (by decide)
  · simp only [ArmElf32_ExtractProgramHeaderEntryFromFile, hpos, hseek, hread,
      Elf32_Phdr.ofBytes]
    exact hfield 16 (by decide)
  · simp only [ArmElf32_ExtractProgramHeaderEntryFromFile, hpos, hseek, hread]

set_option maxRecDepth 8192 in
theorem extractProgramHeaderEntry_spec_witness :
    sampleHeader.e_phentsize < 65536 ∧ (0 : Nat) ≤ 255 ∧
    (IStream.mk sampleFile 52 false).fail = false ∧
    phdrPosition sampleHeader 0 + 32 ≤ (IStream.mk sampleFile 52 false).bytes.length ∧
    (ArmElf32_ExtractProgramHeaderEntryFromFile stalePhdr 0 sampleHeader
        ⟨sampleFile, 52, false⟩).1.p_offset = 84 ∧
    (ArmElf32_ExtractProgramHeaderEntryFromFile stalePhdr 0 sampleHeader
        ⟨sampleFile, 52, false⟩).1.p_paddr = 0x08000000 ∧
    (ArmElf32_ExtractProgramHeaderEntryFromFile stalePhdr 0 sampleHeader
        ⟨sampleFile, 52, false⟩).1.p_filesz = 20 := by
  have h := extractProgramHeaderEntry_spec stalePhdr 0 sampleHeader ⟨sampleFile, 52, false⟩
    (by decide) (by decide) rfl (by decide)
  exact ⟨by decide, by decide, rfl, by decide, h.2.2.2.1.trans (by decide),
    h.2.2.2.2.1.trans (by decide), h.2.2.2.2.2.1.trans (by decide)⟩

/-! # A source shorter than the file header -/

theorem read_short (s : IStream) (n : Nat) (h : s.fail = false) (h0 : s.pos = 0)
    (hlen : s.bytes.length < n) :
    s.read n = (s.bytes, { s with pos := s.bytes.length, fail := true }) := by
  have hl : (s.bytes.drop 0).take n = s.bytes := by
    rw [List.drop_zero, List.take_of_length_le (by omega)]
  simp only [IStream.read, h, h0, hl, if_false, Bool.false_eq_true, Nat.zero_add,
    decide_eq_true hlen]

set_option maxRecDepth 100000 in
/-- C18, as stated, fails on the code: from a source of 51 bytes the reader
returns a header, which here passes the validity predicate, and `main` goes
on to write two lines and to end with status 0. -/
theorem extractHeader_short_counterexample :
    shortFile.length = 51 ∧
    ArmElf32_ExtractHeaderFromFile zeroHeader ⟨shortFile, 0, false⟩
      = (sampleHeader, ⟨shortFile, 51, true⟩) ∧
    ArmElf32_CheckHeaderValidity
      (ArmElf32_ExtractHeaderFromFile zeroHeader ⟨shortFile, 0, false⟩).1 = 1 ∧
    main IntelHex_WriteRecordToFile 2 3 (some shortFile) (some OStream.opened) zeroHeader
        zeroPhdr staleRecord (fun _ => staleRecord)
      = some { status := 0, hexFile := some shortOutput } := by
  decide

/-- C18, amended: for every source that holds fewer than 52 bytes, reading the
file header reports no error: it returns the header object with the bytes of
the source stored over its start and the rest as it was, and leaves the stream
failed; `main` then applies the validity predicate to that header, and ends
with status -3 when it fails. -/
theorem extractHeader_short (elfFileHeader : Elf32_Ehdr) (bytes : List Nat)
    (hlen : bytes.length < 52) :
    ArmElf32_ExtractHeaderFromFile elfFileHeader ⟨bytes, 0, false⟩
      = (Elf32_Ehdr.ofBytes (bytes ++ elfFileHeader.toBytes.drop bytes.length),
         ⟨bytes, bytes.length, true⟩) ∧
    (∀ (fuel : Nat) (hexFile : Option OStream) (elfProgramHeader : Elf32_Phdr)
        (record : IntelHexRecord_t) (uninit : Nat → IntelHexRecord_t),
      ArmElf32_CheckHeaderValidity
        (Elf32_Ehdr.ofBytes (bytes ++ elfFileHeader.toBytes.drop bytes.length)) = 0 →
      main IntelHex_WriteRecordToFile fuel 3 (some bytes) hexFile elfFileHeader
          elfProgramHeader record uninit
        = some { status := EXIT_CODE_INVALID_ELF_FILE, hexFile := none }) := by
  have hread := read_short ⟨bytes, 0, false⟩ 52 rfl rfl hlen
  have hseek : (IStream.mk bytes 0 false).seekg 0 = ⟨bytes, 0, false⟩ := rfl
  have hext : ArmElf32_ExtractHeaderFromFile elfFileHeader ⟨bytes, 0, false⟩
      = (Elf32_Ehdr.ofBytes (bytes ++ elfFileHeader.toBytes.drop bytes.length),
         ⟨bytes, bytes.length, true⟩) := by
    simp only [ArmElf32_ExtractHeaderFromFile, hseek, hread, overlay]
  refine ⟨hext, ?_⟩
  intro fuel hexFile elfProgramHeader record uninit hv
  exact (main_failures IntelHex_WriteRecordToFile fuel 3 (some bytes) hexFile elfFileHeader
    elfProgramHeader record uninit).2.2.1 bytes rfl rfl (by rw [hext]; exact hv)

theorem extractHeader_short_witness :
    shortFile.length < 52 ∧
    ArmElf32_ExtractHeaderFromFile staleHeader ⟨shortFile, 0, false⟩
      = (Elf32_Ehdr.ofBytes (shortFile ++ staleHeader.toBytes.drop shortFile.length),
         ⟨shortFile, shortFile.length, true⟩) :=
  ⟨by decide, (extractHeader_short staleHeader shortFile (by decide)).1⟩

/-! # A source shorter than the segment -/

theorem advance_add (s : IStream) (a b : Nat) :
    (s.advance a).advance b = s.advance (a + b) := by
  induction b with
  | zero => rfl
  | succ b ih =>
    show ((s.advance a).advance b).get.2 = (s.advance (a + b)).get.2
    rw [ih]

theorem peek_advance (s : IStream) (a j : Nat) : (s.advance a).peek j = s.peek (a + j) := by
  unfold IStream.peek
  rw [advance_add]

theorem set_append_drop (A D : List Nat) (n v : Nat) (hA : A.length = n) (hD : n < D.length) :
    (A ++ D.drop n).set n v = A ++ v :: D.drop (n + 1) := by
  rw [List.set_append]
  simp only [hA, Nat.lt_irrefl, if_false, Nat.sub_self]
  rw [List.drop_eq_getElem_cons hD]
  rfl

/-- The loop stores in `data[0..n)` what `n` calls of `(uint8_t)get()` yield,
whatever the state of the stream. -/
theorem readData_eq (n : Nat) (record : IntelHexRecord_t) (s : IStream)
    (hn : n ≤ record.data.length) :
    readData n record s
      = ({ record with data := (List.range n).map s.peek ++ record.data.drop n },
         s.advance n) := by
  induction n with
  | zero => simp [readData, IStream.advance]
  | succ n ih =>
    rw [readData_succ, ih (by omega)]
    simp only [IntelHexRecord_t.setData]
    rw [set_append_drop _ _ _ _ (by simp) (by omega)]
    have hr : (List.range (n + 1)).map s.peek = (List.range n).map s.peek ++ [s.peek n] := by
      rw [List.range_succ, List.map_append]
      rfl
    rw [hr]
    simp [IStream.peek, IStream.advance]

theorem range_add_map (f : Nat → Nat) (a b : Nat) :
    (List.range (a + b)).map f = (List.range a).map f ++ (List.range b).map (fun j => f (a + j)) := by
  rw [List.range_add, List.map_append, List.map_map]
  rfl

theorem padInv_step (st0 st : SegState (List IntelHexRecord_t)) (k : Nat)
    (h : PadInv st0 st k) : PadInv st0 (fullRecordStep logRecord st) (k + 1) := by
  obtain ⟨hdl, hlen, hs, L, hlog, hpay⟩ := h
  have h16 : HEX_MAX_RECORD_LENGTH = 16 := rfl
  have hr : readData 16 { st.record with addressOffset := st.segmentMemAddr } st.elfFileHandle
      = ({ st.record with
             addressOffset := st.segmentMemAddr,
             data := (List.range 16).map st.elfFileHandle.peek ++ st.record.data.drop 16 },
         st.elfFileHandle.advance 16) :=
    readData_eq 16 { st.record with addressOffset := st.segmentMemAddr } st.elfFileHandle
      (by rw [hlen])
  have hrec : (fullRecordStep logRecord st).record
      = IntelHex_CalcRecordChecksum
          { st.record with
              addressOffset := st.segmentMemAddr,
              data := (List.range 16).map st.elfFileHandle.peek ++ st.record.data.drop 16 } := by
    rw [fullRecordStep_record, h16, hr]
  have hstream : (fullRecordStep logRecord st).elfFileHandle = st.elfFileHandle.advance 16 := by
    rw [fullRecordStep_stream, h16, hr]
  have hml : ((List.range 16).map st.elfFileHandle.peek).length = 16 := by simp
  refine ⟨?_, ?_, ?_, L ++ [(fullRecordStep logRecord st).record], ?_, ?_⟩
  · rw [hrec]
    exact hdl
  · rw [hrec, checksum_data]
    simp only [List.length_append, List.length_map, List.length_range, List.length_drop]
    omega
  · rw [hstream, hs, advance_add, Nat.mul_add]
  · rw [fullRecordStep_log, hlog, List.append_assoc]
  · rw [payload_append, payload_singleton, hpay, hrec, checksum_dataLength, checksum_data]
    simp only [hdl]
    rw [List.take_left' hml, Nat.mul_add, range_add_map, hs]
    have hp : (List.range 16).map (st0.elfFileHandle.advance (16 * k)).peek
        = (List.range 16).map (fun j => st0.elfFileHandle.peek (16 * k + j)) :=
      List.map_congr_left (fun j _ => peek_advance _ _ _)
    rw [hp]

theorem padInv_iterate (st0 : SegState (List IntelHexRecord_t))
    (hdl : st0.record.dataLength = 16) (hlen : st0.record.data.length = 16) (k : Nat) :
    PadInv st0 ((fullRecordStep logRecord)^[k] st0) k := by
  induction k with
  | zero => exact ⟨hdl, hlen, rfl, [], by simp, rfl⟩
  | succ k ih =>
    rw [Function.iterate_succ_apply']
    exact padInv_step st0 _ k ih

theorem get_bytes (t : IStream) : t.get.2.bytes = t.bytes := by
  unfold IStream.get
  split
  · rfl
  · split <;> rfl

theorem get_good (t : IStream) (h : t.fail = false) (hlt : t.pos < t.bytes.length) :
    t.get = ((t.bytes[t.pos] : Int), { t with pos := t.pos + 1 }) := by
  simp [IStream.get, h, List.getElem?_eq_getElem hlt]

theorem get_eof (t : IStream) (h : t.fail = false → t.bytes.length ≤ t.pos) :
    t.get.1 = EOF ∧ t.get.2.fail = true := by
  unfold IStream.get
  by_cases hf : t.fail = true
  · simp [hf]
  · have hf2 : t.fail = false := by simpa using hf
    have hnone : t.bytes[t.pos]? = none := List.getElem?_eq_none (h hf2)
    simp [hf2, hnone]

/-- The stream after `j` calls of `get()` keeps its bytes; if it is still
good, every call delivered a byte. -/
theorem advance_inv (s : IStream) (j : Nat) :
    (s.advance j).bytes = s.bytes ∧
    ((s.advance j).fail = false →
      (s.advance j).pos = s.pos + j ∧ s.fail = false ∧ (0 < j → s.pos + j ≤ s.bytes.length)) := by
  induction j with
  | zero => exact ⟨rfl, fun h => ⟨rfl, h, fun h0 => absurd h0 (by decide)⟩⟩
  | succ j ih =>
    obtain ⟨ihb, ihf⟩ := ih
    have hadv : s.advance (j + 1) = (s.advance j).get.2 := rfl
    refine ⟨by rw [hadv, get_bytes, ihb], ?_⟩
    intro hgood
    rw [hadv] at hgood ⊢
    by_cases hlt : (s.advance j).fail = false ∧ (s.advance j).pos < (s.advance j).bytes.length
    · obtain ⟨hf, hp⟩ := hlt
      obtain ⟨h1, h2, _⟩ := ihf hf
      rw [get_good _ hf hp]
      rw [ihb, h1] at hp
      exact ⟨by simp only [h1]; omega, h2, fun _ => by omega⟩
    · have he := get_eof (s.advance j) (fun hf => by
        by_contra hc
        exact hlt ⟨hf, by omega⟩)
      rw [he.2] at hgood
      exact absurd hgood (by decide)

theorem advance_good (s : IStream) (h : s.fail = false) (j : Nat)
    (hlen : s.pos + j ≤ s.bytes.length) : s.advance j = { s with pos := s.pos + j } := by
  induction j with
  | zero => rfl
  | succ j ih =>
    have hadv : s.advance (j + 1) = (s.advance j).get.2 := rfl
    have hlt : (IStream.mk s.bytes (s.pos + j) s.fail).pos
        < (IStream.mk s.bytes (s.pos + j) s.fail).bytes.length := by
      show s.pos + j < s.bytes.length
      omega
    rw [hadv, ih (by omega), get_good ⟨s.bytes, s.pos + j, s.fail⟩ h hlt]
    rfl

theorem advance_fail (s : IStream) (n : Nat) (hn : 0 < n) (hshort : s.bytes.length < s.pos + n) :
    (s.advance n).fail = true := by
  by_contra hc
  have hf : (s.advance n).fail = false := by simpa using hc
  have := ((advance_inv s n).2 hf).2.2 hn
  omega

theorem u8OfInt_EOF : u8OfInt EOF = 255 := by decide

/-- What the call number `j` of `(uint8_t)get()` yields on a good stream: the
byte of the file at that place, or 255 when the file has ended. -/
theorem peek_eq (s : IStream) (hgood : s.fail = false) (hb : ∀ b ∈ s.bytes, b < 256) (j : Nat) :
    s.peek j = (s.bytes[s.pos + j]?).getD 255 := by
  unfold IStream.peek
  by_cases hlt : s.pos + j < s.bytes.length
  · rw [advance_good s hgood j (by omega), get_good ⟨s.bytes, s.pos + j, s.fail⟩ hgood hlt]
    simp only [List.getElem?_eq_getElem hlt, Option.getD_some]
    exact u8OfInt_byte _ (hb _ (List.getElem_mem hlt))
  · have hinv := advance_inv s j
    have he := get_eof (s.advance j) (fun hf => by
      rw [hinv.1, (hinv.2 hf).1]
      omega)
    rw [he.1, u8OfInt_EOF, List.getElem?_eq_none (by omega)]
    rfl

theorem tailRecordStep_stream {σ : Type} (writeRecord : IntelHexRecord_t → σ → σ)
    (ph : Elf32_Phdr) (st : SegState σ) :
    (tailRecordStep writeRecord ph st).elfFileHandle
      = (readData (u8 (ph.p_filesz % HEX_MAX_RECORD_LENGTH))
          { st.record with dataLength := u8 (ph.p_filesz % HEX_MAX_RECORD_LENGTH),
                           addressOffset := st.segmentMemAddr } st.elfFileHandle).2 := by
  simp only [tailRecordStep]

theorem segmentRecords_length (ph : Elf32_Phdr) (inp : IStream) (rec : IntelHexRecord_t)
    (hn : ph.p_filesz ≠ 0) :
    (segmentRecords ph inp rec).length = 1 + (ph.p_filesz + 15) / 16 := by
  obtain ⟨L, tl, heq, hL, _, htl0, htl1, _⟩ := segmentRecords_shape ph inp rec hn
  rw [heq]
  by_cases hz : ph.p_filesz % 16 = 0
  · simp only [htl0 hz, List.append_nil, List.length_cons, hL]
    omega
  · obtain ⟨t, ht, _⟩ := htl1 hz
    simp only [ht, List.length_cons, List.length_append, hL, List.length_nil]
    omega

/-- The Data records of a segment carry what `p_filesz` calls of
`(uint8_t)get()` yield after the seek to `p_offset`, whatever the source
holds, and the stream is left as after these calls. -/
theorem segmentRecords_padded (ph : Elf32_Phdr) (inp : IStream) (rec : IntelHexRecord_t)
    (hn : ph.p_filesz ≠ 0) (hrec : rec.data.length = 16) :
    payload (dataRecords (segmentRecords ph inp rec))
      = (List.range ph.p_filesz).map (inp.seekg ph.p_offset).peek ∧
    (IntelHex_WriteElfProgramHeaderEntryToFile logRecord ph inp [] rec).1
      = (inp.seekg ph.p_offset).advance ph.p_filesz := by
  obtain ⟨L1, tl1, heq, _, hrecs, htl0, htl1, _⟩ := segmentRecords_shape ph inp rec hn
  have hdata := dataRecords_segment ph inp rec L1 tl1 heq hrecs htl0 htl1
  obtain ⟨i1, _, i3, _, i5, i6⟩ := segment_loopInit_log ph inp rec
  have hinv := padInv_iterate (segment_loopInit logRecord ph inp [] rec) i1 (by rw [i3, hrec])
    (ph.p_filesz / 16)
  obtain ⟨hdl, hlen, hs, L, hlog, hpay⟩ := hinv
  rw [i5] at hs hpay
  rw [i6] at hlog
  have h16 : HEX_MAX_RECORD_LENGTH = 16 := rfl
  have hsplit : 16 * (ph.p_filesz / 16) + ph.p_filesz % 16 = ph.p_filesz := Nat.div_add_mod _ 16
  by_cases ht : ph.p_filesz % 16 = 0
  · have hseg : segmentRecords ph inp rec = segment_addressRecord ph rec :: L := by
      simp only [segmentRecords, IntelHex_WriteElfProgramHeaderEntryToFile, hn, ne_eq,
        not_false_eq_true, if_true, h16, ht, not_true_eq_false, if_false, hlog]
      rfl
    have hLL : L1 ++ tl1 = L := by
      rw [heq] at hseg
      exact List.tail_eq_of_cons_eq hseg
    have hk : 16 * (ph.p_filesz / 16) = ph.p_filesz := by omega
    refine ⟨by rw [hdata, hLL, hpay, hk], ?_⟩
    simp only [IntelHex_WriteElfProgramHeaderEntryToFile, hn, ne_eq, not_false_eq_true,
      if_true, h16, ht, not_true_eq_false, if_false, hs, hk]
  · have hu8 : u8 (ph.p_filesz % 16) = ph.p_filesz % 16 := by unfold u8; omega
    have hr := readData_eq (ph.p_filesz % 16)
      { ((fullRecordStep logRecord)^[ph.p_filesz / 16]
            (segment_loopInit logRecord ph inp [] rec)).record with
          dataLength := ph.p_filesz % 16,
          addressOffset := ((fullRecordStep logRecord)^[ph.p_filesz / 16]
            (segment_loopInit logRecord ph inp [] rec)).segmentMemAddr }
      ((fullRecordStep logRecord)^[ph.p_filesz / 16]
            (segment_loopInit logRecord ph inp [] rec)).elfFileHandle
      (by show ph.p_filesz % 16 ≤ _; rw [hlen]; omega)
    have hseg : segmentRecords ph inp rec
        = segment_addressRecord ph rec :: (L ++ [(tailRecordStep logRecord ph
            ((fullRecordStep logRecord)^[ph.p_filesz / 16]
              (segment_loopInit logRecord ph inp [] rec))).record]) := by
      simp only [segmentRecords, IntelHex_WriteElfProgramHeaderEntryToFile, hn, ne_eq,
        not_false_eq_true, if_true, h16, ht, tailRecordStep_log, hlog]
      rfl
    have hLL : L1 ++ tl1 = L ++ [(tailRecordStep logRecord ph
          ((fullRecordStep logRecord)^[ph.p_filesz / 16]
            (segment_loopInit logRecord ph inp [] rec))).record] := by
      rw [heq] at hseg
      exact List.tail_eq_of_cons_eq hseg
    have hml : ((List.range (ph.p_filesz % 16)).map
        ((fullRecordStep logRecord)^[ph.p_filesz / 16]
          (segment_loopInit logRecord ph inp [] rec)).elfFileHandle.peek).length
        = ph.p_filesz % 16 := by simp
    have hp : (List.range (ph.p_filesz % 16)).map
        ((inp.seekg ph.p_offset).advance (16 * (ph.p_filesz / 16))).peek
        = (List.range (ph.p_filesz % 16)).map
            (fun j => (inp.seekg ph.p_offset).peek (16 * (ph.p_filesz / 16) + j)) :=
      List.map_congr_left (fun j _ => peek_advance _ _ _)
    refine ⟨?_, ?_⟩
    · rw [hdata, hLL, payload_append, payload_singleton, hpay, tailRecordStep_record, h16, hu8,
        hr, checksum_dataLength, checksum_data]
      simp only
      rw [List.take_left' hml, hs, hp, ← range_add_map, hsplit]
    · simp only [IntelHex_WriteElfProgramHeaderEntryToFile, hn, ne_eq, not_false_eq_true,
        if_true, h16, ht, tailRecordStep_stream, hu8]
      rw [hr]
      simp only [hs, advance_add, hsplit]

theorem advance_failed (s : IStream) (h : s.fail = true) (j : Nat) : s.advance j = s := by
  induction j with
  | zero => rfl
  | succ j ih =>
    show (s.advance j).get.2 = s
    rw [ih]
    simp [IStream.get, h]

/-- On a stream that has failed, every call of `(uint8_t)get()` yields 255. -/
theorem peek_failed (s : IStream) (h : s.fail = true) (j : Nat) : s.peek j = 255 := by
  unfold IStream.peek
  rw [advance_failed s h j]
  simp only [IStream.get, h, if_true]
  exact u8OfInt_EOF

theorem seekg_failed (s : IStream) (h : s.fail = true) (p : Nat) : s.seekg p = s := by
  simp [IStream.seekg, h]

/-- A segment encoded from a stream that has failed on entry: every payload
byte is 255, whatever the file holds, and the stream is returned as it was. -/
theorem segmentRecords_failed (ph : Elf32_Phdr) (inp : IStream) (rec : IntelHexRecord_t)
    (hn : ph.p_filesz ≠ 0) (hrec : rec.data.length = 16) (hf : inp.fail = true) :
    payload (dataRecords (segmentRecords ph inp rec)) = List.replicate ph.p_filesz 255 ∧
    (IntelHex_WriteElfProgramHeaderEntryToFile logRecord ph inp [] rec).1 = inp := by
  obtain ⟨hpay, hstream⟩ := segmentRecords_padded ph inp rec hn hrec
  rw [seekg_failed inp hf] at hpay hstream
  refine ⟨?_, by rw [hstream, advance_failed inp hf]⟩
  rw [hpay]
  apply List.ext_getElem
  · simp
  · intro j h1 h2
    simp [peek_failed inp hf]

set_option maxRecDepth 100000 in
/-- C19, as stated, fails on the code: for a segment of 20 bytes at file
offset 4 and a source of 10 bytes, the encoder writes its three lines; the Data
records carry the 6 bytes the source holds from offset 4 and then fourteen
bytes `0xFF` that were not read from the source. -/
theorem segment_short_source_counterexample :
    samplePhdr.p_filesz = 20 ∧ samplePhdr.p_offset = 4 ∧ shortStream.bytes.length = 10 ∧
    payload (dataRecords (segmentRecords samplePhdr shortStream staleRecord))
      = [104, 105, 106, 107, 108, 109] ++ List.replicate 14 255 ∧
    (IntelHex_WriteElfProgramHeaderEntryToFile IntelHex_WriteRecordToFile samplePhdr
        shortStream OStream.opened staleRecord).2.buf = shortSegmentText := by
  decide

/-- C19, amended: for every program header entry with `p_filesz > 0` whose
source holds fewer than `p_filesz` bytes from `p_offset`, and for every state
of the input stream on entry, the segment encoder still emits its
`1 + ⌈p_filesz / 16⌉` records and reports no error. If the stream has not
failed on entry, byte `j` of the payload of the Data records is the source byte
at `p_offset + j` where the source has one and `0xFF` elsewhere; if it has
failed on entry, every payload byte is `0xFF`. In both cases the stream is left
failed, so every later call of the encoder on it emits `0xFF` only. -/
theorem segment_short_source (elfProgramHeader : Elf32_Phdr) (record : IntelHexRecord_t)
    (elfFileHandle : IStream) (hn : 0 < elfProgramHeader.p_filesz)
    (hb : ∀ b ∈ elfFileHandle.bytes, b < 256) (hrec : record.data.length = 16)
    (hshort : elfFileHandle.bytes.length
      < elfProgramHeader.p_offset + elfProgramHeader.p_filesz) :
    (segmentRecords elfProgramHeader elfFileHandle record).length
      = 1 + (elfProgramHeader.p_filesz + 15) / 16 ∧
    payload (dataRecords (segmentRecords elfProgramHeader elfFileHandle record))
      = (List.range elfProgramHeader.p_filesz).map
          (fun j => if elfFileHandle.fail = true then 255
                    else (elfFileHandle.bytes[elfProgramHeader.p_offset + j]?).getD 255) ∧
    (IntelHex_WriteElfProgramHeaderEntryToFile logRecord elfProgramHeader elfFileHandle
        [] record).1.fail = true ∧
    (∀ hexFileHandle : OStream,
      (IntelHex_WriteElfProgramHeaderEntryToFile IntelHex_WriteRecordToFile elfProgramHeader
          elfFileHandle hexFileHandle record).1.fail = true ∧
      (IntelHex_WriteElfProgramHeaderEntryToFile IntelHex_WriteRecordToFile elfProgramHeader
          elfFileHandle hexFileHandle record).2
        = writeRecords IntelHex_WriteRecordToFile hexFileHandle
            (segmentRecords elfProgramHeader elfFileHandle record)) ∧
    (∀ (hexFileHandle : OStream) (next : Elf32_Phdr) (record2 : IntelHexRecord_t),
      0 < next.p_filesz → record2.data.length = 16 →
      payload (dataRecords (segmentRecords next
          (IntelHex_WriteElfProgramHeaderEntryToFile IntelHex_WriteRecordToFile elfProgramHeader
            elfFileHandle hexFileHandle record).1 record2))
        = List.replicate next.p_filesz 255) := by
  have hne : elfProgramHeader.p_filesz ≠ 0 := by omega
  have hfail : (IntelHex_WriteElfProgramHeaderEntryToFile logRecord elfProgramHeader
      elfFileHandle [] record).1.fail = true ∧
      payload (dataRecords (segmentRecords elfProgramHeader elfFileHandle record))
        = (List.range elfProgramHeader.p_filesz).map
            (fun j => if elfFileHandle.fail = true then 255
                      else (elfFileHandle.bytes[elfProgramHeader.p_offset + j]?).getD 255) := by
    by_cases hf : elfFileHandle.fail = true
    · obtain ⟨hpay, hstream⟩ := segmentRecords_failed elfProgramHeader elfFileHandle record
        hne hrec hf
      refine ⟨by rw [hstream]; exact hf, ?_⟩
      rw [hpay]
      apply List.ext_getElem
      · simp
      · intro j h1 h2
        simp [hf]
    · have hf2 : elfFileHandle.fail = false := by simpa using hf
      obtain ⟨hpay, hstream⟩ :=
        segmentRecords_padded elfProgramHeader elfFileHandle record hne hrec
      have hseek : elfFileHandle.seekg elfProgramHeader.p_offset
          = ⟨elfFileHandle.bytes, elfProgramHeader.p_offset, false⟩ := by
        simp [IStream.seekg, hf2]
      rw [hseek] at hpay hstream
      refine ⟨?_, ?_⟩
      · rw [hstream]
        exact advance_fail ⟨elfFileHandle.bytes, elfProgramHeader.p_offset, false⟩ _ hn hshort
      · rw [hpay]
        apply List.map_congr_left
        intro j _
        rw [peek_eq ⟨elfFileHandle.bytes, elfProgramHeader.p_offset, false⟩ rfl hb j]
        simp [hf2]
  have hreal : ∀ hexFileHandle : OStream,
      (IntelHex_WriteElfProgramHeaderEntryToFile IntelHex_WriteRecordToFile elfProgramHeader
          elfFileHandle hexFileHandle record).1
        = (IntelHex_WriteElfProgramHeaderEntryToFile logRecord elfProgramHeader elfFileHandle
            [] record).1 := by
    intro hexFileHandle
    rw [segment_eq_writeRecords]
  refine ⟨segmentRecords_length _ _ _ hne, hfail.2, hfail.1, ?_, ?_⟩
  · intro hexFileHandle
    refine ⟨by rw [hreal]; exact hfail.1, ?_⟩
    rw [segment_eq_writeRecords]
  · intro hexFileHandle next record2 hn2 hrec2
    rw [hreal]
    exact (segmentRecords_failed next _ record2 (by omega) hrec2 hfail.1).1

set_option maxRecDepth 100000 in
theorem segment_short_source_witness :
    (0 < samplePhdr.p_filesz ∧ (∀ b ∈ shortStream.bytes, b < 256) ∧
      staleRecord.data.length = 16 ∧
      shortStream.bytes.length < samplePhdr.p_offset + samplePhdr.p_filesz ∧
      shortStream.fail = false ∧
      payload (dataRecords (segmentRecords samplePhdr shortStream staleRecord))
        = [104, 105, 106, 107, 108, 109] ++ List.replicate 14 255 ∧
      (IntelHex_WriteElfProgramHeaderEntryToFile IntelHex_WriteRecordToFile samplePhdr
        shortStream OStream.opened staleRecord).1 = failedStream) ∧
    ((∀ b ∈ failedStream.bytes, b < 256) ∧
      failedStream.bytes.length < samplePhdr.p_offset + samplePhdr.p_filesz ∧
      failedStream.fail = true ∧
      payload (dataRecords (segmentRecords samplePhdr failedStream staleRecord))
        = List.replicate 20 255 ∧
      (IntelHex_WriteElfProgramHeaderEntryToFile logRecord samplePhdr failedStream
        [] staleRecord).1.fail = true) := by
  have h1 := segment_short_source samplePhdr staleRecord shortStream (by decide) (by decide)
    (by decide) (by decide)
  have h2 := segment_short_source samplePhdr staleRecord failedStream (by decide) (by decide)
    (by decide) (by decide)
  exact ⟨⟨by decide, by decide, by decide, by decide, rfl, h1.2.1.trans (by decide), by decide⟩,
    ⟨by decide, by decide, rfl, h2.2.1.trans (by decide), h2.2.2.1⟩⟩


/-! # The loop over the program header table does not end -/

/-- A run of the variant that reaches the loop with 256 entries or more has
no exit status. -/
theorem main_variant_diverges {σ : Type} (writeRecord : IntelHexRecord_t → σ → σ) (fuel : Nat)
    (bytes : List Nat) (hexFile : Option σ) (unopened : σ) (elfFileHeader : Elf32_Ehdr)
    (elfProgramHeader : Elf32_Phdr) (record : IntelHexRecord_t) (uninit : Nat → IntelHexRecord_t)
    (hvalid : ArmElf32_CheckHeaderValidity
      (ArmElf32_ExtractHeaderFromFile elfFileHeader ⟨bytes, 0, false⟩).1 ≠ 0)
    (hph : 256 ≤ (ArmElf32_ExtractHeaderFromFile elfFileHeader ⟨bytes, 0, false⟩).1.e_phnum) :
    main_variant writeRecord fuel 3 (some bytes) hexFile unopened elfFileHeader elfProgramHeader
        record uninit
      = none := by
  have hloop := main_loop_diverges writeRecord _ uninit hph fuel 0 0 elfProgramHeader
    (ArmElf32_ExtractHeaderFromFile elfFileHeader ⟨bytes, 0, false⟩).2
    (hexFile.getD unopened) (by decide)
  simp only [main_variant, if_true, hvalid, ne_eq, not_false_eq_true, Option.isSome_some, hloop]

/-- C21: for every valid header the loop over the program header table
should end after `e_phnum` calls of the segment encoder. Here the code is run
where it does not: for every header with `e_phnum = 256 + n` the loop is still
running after any number of iterations, from any value of its 8-bit counter;
on the 52-byte image of a valid header with `e_phnum = 65535`, `main` of either
source file never reaches the start address record and has no exit status. -/
theorem phdr_loop_never_ends {σ : Type} (writeRecord : IntelHexRecord_t → σ → σ)
    (hdr : Elf32_Ehdr) (n : Nat) (uninit : Nat → IntelHexRecord_t) (fuel k i : Nat)
    (elfProgramHeader : Elf32_Phdr) (elfFileHandle : IStream) (hexFileHandle : σ) :
    main_loop writeRecord { hdr with e_phnum := 256 + n } uninit fuel k (u8 i)
        elfProgramHeader elfFileHandle hexFileHandle = none ∧
    ArmElf32_CheckHeaderValidity
      (ArmElf32_ExtractHeaderFromFile staleHeader ⟨maxFile, 0, false⟩).1 = 1 ∧
    (ArmElf32_ExtractHeaderFromFile staleHeader ⟨maxFile, 0, false⟩).1.e_phnum = 65535 ∧
    main IntelHex_WriteRecordToFile fuel 3 (some maxFile) (some OStream.opened) staleHeader
        stalePhdr staleRecord (fun _ => staleRecord) = none ∧
    main_variant IntelHex_WriteRecordToFile fuel 3 (some maxFile) (some OStream.opened)
        OStream.closed staleHeader stalePhdr staleRecord (fun _ => staleRecord) = none := by
  have h1 : ArmElf32_CheckHeaderValidity
      (ArmElf32_ExtractHeaderFromFile staleHeader ⟨maxFile, 0, false⟩).1 = 1 := by decide
  have h2 : (ArmElf32_ExtractHeaderFromFile staleHeader ⟨maxFile, 0, false⟩).1.e_phnum
      = 65535 := by decide
  refine ⟨?_, h1, h2, ?_, ?_⟩
  · exact main_loop_diverges writeRecord _ uninit (Nat.le_add_right 256 n) fuel k (u8 i) _ _ _
      (Nat.mod_lt _ (by decide))
  · exact main_diverges _ fuel maxFile _ _ _ _ _ (by rw [h1]; decide) (by rw [h2]; decide)
  · exact main_variant_diverges _ fuel maxFile _ _ _ _ _ _ (by rw [h1]; decide)
      (by rw [h2]; decide)

/-! # Three ways to the checksum -/

theorem foldl_mask_add (l : List Nat) (c : Nat) :
    l.foldl (fun acc b => (acc + b) % 256) (c % 256) = (c + l.sum) % 256 := by
  induction l generalizing c with
  | nil => simp
  | cons a l ih =>
    simp only [List.foldl_cons, List.sum_cons]
    rw [ih, Nat.add_assoc]
    omega

theorem checksumBytes_sum (r : IntelHexRecord_t) : (checksumBytes r).sum = recordByteSum r := by
  simp only [checksumBytes, recordByteSum, List.sum_append, List.sum_cons, List.sum_nil]
  omega

/-- C24: for every record with `dataLength ≤ 16`, the checksum with a
reduction to 8 bits after every single addition, the checksum
`IntelHex_CalcRecordChecksum` computes, and the checksum with one narrowing at
the end of an unreduced sum are the same number. -/
theorem checksum_three_ways (record : IntelHexRecord_t) (hdata : record.data.length = 16)
    (hlen : record.dataLength ≤ 16) :
    checksumMaskedEachStep record = (IntelHex_CalcRecordChecksum record).checksum ∧
    (IntelHex_CalcRecordChecksum record).checksum = checksumNarrowedAtEnd record := by
  have h := checksum_eq record (by omega)
  have hm := foldl_mask_add (checksumBytes record) 0
  simp only [Nat.zero_mod, Nat.zero_add] at hm
  refine ⟨?_, ?_⟩
  · rw [h, checksumMaskedEachStep, hm, checksumBytes_sum]
  · rw [h, checksumNarrowedAtEnd, checksumBytes_sum]
    unfold u8OfInt
    omega

theorem checksum_three_ways_witness :
    sampleRecord.data.length = 16 ∧ sampleRecord.dataLength ≤ 16 ∧
    checksumMaskedEachStep sampleRecord = 0x78 ∧
    (IntelHex_CalcRecordChecksum sampleRecord).checksum = 0x78 ∧
    checksumNarrowedAtEnd sampleRecord = 0x78 := by
  have h := checksum_three_ways sampleRecord (by decide) (by decide)
  exact ⟨by decide, by decide, h.1.trans (by decide), by decide, h.2.symm.trans (by decide)⟩

/-! # The line of a record, read back -/

theorem parseRecordLine_recordText (r : IntelHexRecord_t) (hwf : r.WF) (hlen : r.dataLength ≤ 16) :
    parseRecordLine (recordText r) = some r.fields := by
  have hdec := decodeHexBytes_recordText r hwf
  have htk : (r.data.take r.dataLength).length = r.dataLength := by
    rw [List.length_take, hwf.2.2.2.1]
    omega
  have hao : 256 * (r.addressOffset / 256) + r.addressOffset % 256 = r.addressOffset := by omega
  have ht : recordText r = ':' :: (recordText r).tail := rfl
  rw [ht]
  simp only [parseRecordLine, hdec, recordBytes, List.cons_append, List.nil_append,
    List.length_append, htk, List.length_singleton, if_true, hao, List.take_left' htk,
    IntelHexRecord_t.fields]
  congr 2
  rw [List.getD_eq_getElem?_getD, List.getElem?_append_right (by omega), htk]
  simp

/-- C25: for every record with `dataLength ≤ 16`, the line
`IntelHex_WriteRecordToFile` writes, read back at the fixed positions, gives
the record's `dataLength`, `addressOffset`, `type`, `data[0..dataLength)` and
`checksum`; so a record whose line is the same has the same five fields. -/
theorem record_line_lossless (record : IntelHexRecord_t) (hexFileHandle : OStream)
    (hwf : record.WF) (hlen : record.dataLength ≤ 16) (hs : hexFileHandle.Ready) :
    (IntelHex_WriteRecordToFile record hexFileHandle).buf
      = hexFileHandle.buf ++ recordText record ++ ['\n'] ∧
    parseRecordLine (recordText record)
      = some { dataLength := record.dataLength, addressOffset := record.addressOffset,
               type := record.type, data := record.data.take record.dataLength,
               checksum := record.checksum } ∧
    (∀ other : IntelHexRecord_t, other.WF → other.dataLength ≤ 16 →
      (IntelHex_WriteRecordToFile other hexFileHandle).buf
        = (IntelHex_WriteRecordToFile record hexFileHandle).buf →
      other.dataLength = record.dataLength ∧ other.addressOffset = record.addressOffset ∧
      other.type = record.type ∧
      other.data.take other.dataLength = record.data.take record.dataLength ∧
      other.checksum = record.checksum) := by
  have hw := writeRecord_eq record hexFileHandle hwf hlen hs
  refine ⟨?_, parseRecordLine_recordText record hwf hlen, ?_⟩
  · rw [hw]
    simp [recordLine]
  · intro other howf holen heq
    rw [hw, writeRecord_eq other hexFileHandle howf holen hs] at heq
    simp only [recordLine] at heq
    have ht : recordText other = recordText record :=
      List.append_inj_left' (List.append_cancel_left heq) rfl
    have hp := parseRecordLine_recordText other howf holen
    rw [ht, parseRecordLine_recordText record hwf hlen] at hp
    have hf : record.fields = other.fields := Option.some.inj hp
    simp only [IntelHexRecord_t.fields, ParsedRecord.mk.injEq] at hf
    exact ⟨hf.1.symm, hf.2.1.symm, hf.2.2.1.symm, hf.2.2.2.1.symm, hf.2.2.2.2.symm⟩

theorem record_line_lossless_witness :
    (IntelHex_CalcRecordChecksum sampleRecord).WF ∧
    (IntelHex_CalcRecordChecksum sampleRecord).dataLength ≤ 16 ∧ OStream.opened.Ready ∧
    parseRecordLine ":10001000000102030405060708090A0B0C0D0EFF78".toList
      = some { dataLength := 16, addressOffset := 0x0010, type := 0,
               data := [0, 1, 2, 3, 4, 5, 6, 7, 8, 9, 10, 11, 12, 13, 14, 0xFF],
               checksum := 0x78 } :=
  ⟨by decide, by decide, by decide,
    (congrArg parseRecordLine (by decide :
        ":10001000000102030405060708090A0B0C0D0EFF78".toList
          = recordText (IntelHex_CalcRecordChecksum sampleRecord))).trans
      ((record_line_lossless (IntelHex_CalcRecordChecksum sampleRecord) OStream.opened
        (by decide) (by decide) (by decide)).2.1.trans (by decide))⟩

/-! # Byte by byte -/

/-- In a list of records that are all full except possibly the last, record
`i` carries the bytes of the payload from position `16 * i` on. -/
theorem payload_chunk (R : List IntelHexRecord_t) :
    (∀ r ∈ R, r.dataLength ≤ r.data.length) →
    (∀ i (hi : i < R.length), i + 1 < R.length → R[i].dataLength = 16) →
    ∀ i (hi : i < R.length),
      R[i].data.take R[i].dataLength
        = ((payload R).drop (16 * i)).take R[i].dataLength := by
  induction R with
  | nil => intro _ _ i hi; exact absurd hi (by simp)
  | cons r R ih =>
    intro hlen hfull i hi
    have hl : (r.data.take r.dataLength).length = r.dataLength := by
      rw [List.length_take]
      exact Nat.min_eq_left (hlen r (List.mem_cons_self _ _))
    have hp : payload (r :: R) = r.data.take r.dataLength ++ payload R := by
      simp [payload]
    cases i with
    | zero =>
      simp only [List.getElem_cons_zero, Nat.mul_zero, List.drop_zero]
      rw [hp, List.take_left' hl]
    | succ i =>
      have hi2 : i < R.length := by simpa using hi
      have h16 : r.dataLength = 16 := by
        have := hfull 0 (by simp) (by simp; omega)
        simpa using this
      rw [h16] at hl
      have hstep := ih (fun r hr => hlen r (List.mem_cons_of_mem _ hr))
        (fun k hk hk1 => by
          have := hfull (k + 1) (by simp; omega) (by simp; omega)
          simpa using this) i hi2
      simp only [List.getElem_cons_succ]
      rw [hp, h16, show 16 * (i + 1) = 16 + 16 * i from by omega, ← List.drop_drop,
        List.drop_left' hl]
      exact hstep

/-- The Data records of a segment with `p_filesz ≠ 0`, one by one: record `i`
is sealed, has type 0, the 16-bit address `p_paddr mod 65536 + 16 * i` reduced
modulo 65536, the length `min 16 (p_filesz - 16 * i)`, and carries what the
calls `16 * i ..` of `(uint8_t)get()` yield after the seek to `p_offset`. -/
theorem segmentRecords_data (ph : Elf32_Phdr) (inp : IStream) (rec : IntelHexRecord_t)
    (hn : ph.p_filesz ≠ 0) (hrec : rec.data.length = 16) (hb : ∀ b ∈ rec.data, b < 256) :
    ∃ D : List IntelHexRecord_t,
      segmentRecords ph inp rec = segment_addressRecord ph rec :: D ∧
      dataRecords (segmentRecords ph inp rec) = D ∧
      D.length = (ph.p_filesz + 15) / 16 ∧
      ∀ i (hi : i < D.length),
        D[i].Sealed ∧ D[i].type = 0 ∧
        D[i].addressOffset = (ph.p_paddr % 65536 + 16 * i) % 65536 ∧
        D[i].dataLength = min 16 (ph.p_filesz - 16 * i) ∧
        D[i].data.take D[i].dataLength
          = (((List.range ph.p_filesz).map (inp.seekg ph.p_offset).peek).drop (16 * i)).take
              D[i].dataLength := by
  obtain ⟨L, tl, heq, hL, hrecs, htl0, htl1, _⟩ := segmentRecords_shape ph inp rec hn
  have hdata := dataRecords_segment ph inp rec L tl heq hrecs htl0 htl1
  have hpay := (segmentRecords_padded ph inp rec hn hrec).1
  rw [hdata] at hpay
  have hsealed := segmentRecords_sealed ph inp rec hrec hb
  rw [heq] at hsealed
  have hlenD : (L ++ tl).length = (ph.p_filesz + 15) / 16 := by
    by_cases hz : ph.p_filesz % 16 = 0
    · simp only [htl0 hz, List.append_nil, hL]
      omega
    · obtain ⟨t, ht, _⟩ := htl1 hz
      simp only [ht, List.length_append, hL, List.length_singleton]
      omega
  have hfields : ∀ i (hi : i < (L ++ tl).length),
      (L ++ tl)[i].type = 0 ∧
      (L ++ tl)[i].addressOffset = (ph.p_paddr % 65536 + 16 * i) % 65536 ∧
      (L ++ tl)[i].dataLength = min 16 (ph.p_filesz - 16 * i) := by
    intro i hi
    by_cases hik : i < L.length
    · rw [List.getElem_append_left hik]
      obtain ⟨h1, h2, h3⟩ := hrecs i hik
      refine ⟨h1, h3, ?_⟩
      rw [h2]
      omega
    · by_cases hz : ph.p_filesz % 16 = 0
      · rw [htl0 hz] at hi
        simp at hi
        omega
      · obtain ⟨t, ht, h1, h2, h3⟩ := htl1 hz
        subst ht
        have hieq : i = L.length := by
          simp at hi
          omega
        subst hieq
        rw [List.getElem_append_right (le_refl _)]
        simp only [Nat.sub_self, List.getElem_cons_zero]
        refine ⟨h1, by rw [h3, hL], ?_⟩
        rw [h2]
        omega
  have hS : ∀ r ∈ L ++ tl, r.Sealed := fun r hr => hsealed r (List.mem_cons_of_mem _ hr)
  have hchunk := payload_chunk (L ++ tl)
    (fun r hr => by
      have := hS r hr
      rw [this.1.2.2.2.1]
      exact this.2.1)
    (fun i hi hi1 => by
      rw [(hfields i hi).2.2]
      omega)
  refine ⟨L ++ tl, heq, hdata, hlenD, ?_⟩
  intro i hi
  obtain ⟨f1, f2, f3⟩ := hfields i hi
  refine ⟨hS _ (List.getElem_mem hi), f1, f2, f3, ?_⟩
  rw [← hpay]
  exact hchunk i hi

/-- Byte `j` of a segment: it is byte `j mod 16` of Data record `j / 16`. -/
theorem segmentRecords_byte (ph : Elf32_Phdr) (inp : IStream) (rec : IntelHexRecord_t)
    (hn : ph.p_filesz ≠ 0) (hrec : rec.data.length = 16) (hb : ∀ b ∈ rec.data, b < 256) :
    ∃ D : List IntelHexRecord_t,
      segmentRecords ph inp rec = segment_addressRecord ph rec :: D ∧
      dataRecords (segmentRecords ph inp rec) = D ∧
      (∀ r ∈ D, r.type = HEX_RECORD_TYPE_DATA) ∧
      ∀ j, j < ph.p_filesz → ∃ hi : j / 16 < D.length,
        j % 16 < D[j / 16].dataLength ∧
        D[j / 16].dataAt (j % 16) = (inp.seekg ph.p_offset).peek j ∧
        D[j / 16].addressOffset = (ph.p_paddr % 65536 + 16 * (j / 16)) % 65536 := by
  obtain ⟨D, heq, hdata, hlen, hall⟩ := segmentRecords_data ph inp rec hn hrec hb
  refine ⟨D, heq, hdata, ?_, ?_⟩
  · intro r hr
    obtain ⟨i, hi, rfl⟩ := List.getElem_of_mem hr
    exact (hall i hi).2.1
  · intro j hj
    have hi : j / 16 < D.length := by
      rw [hlen]
      omega
    obtain ⟨hs, _, ha, hdl, hchunk⟩ := hall (j / 16) hi
    have hk : j % 16 < D[j / 16].dataLength := by
      rw [hdl]
      omega
    refine ⟨hi, hk, ?_, ha⟩
    have hk2 : j % 16 < D[j / 16].data.length := by
      rw [hs.1.2.2.2.1]
      omega
    have h1 : (D[j / 16].data.take D[j / 16].dataLength)[j % 16]?
        = some (D[j / 16].dataAt (j % 16)) := by
      rw [List.getElem?_take_of_lt hk, List.getElem?_eq_getElem hk2]
      simp [IntelHexRecord_t.dataAt, List.getD_eq_getElem?_getD, List.getElem?_eq_getElem hk2]
    rw [hchunk, List.getElem?_take_of_lt hk, List.getElem?_drop,
      show 16 * (j / 16) + j % 16 = j from Nat.div_add_mod j 16,
      List.getElem?_map, List.getElem?_range hj] at h1
    simpa using h1.symm


theorem addressRecord_upper (ph : Elf32_Phdr) (rec : IntelHexRecord_t)
    (hp : ph.p_paddr < 4294967296) (hrec : 2 ≤ rec.data.length) :
    256 * (segment_addressRecord ph rec).dataAt 0 + (segment_addressRecord ph rec).dataAt 1
      = ph.p_paddr / 65536 := by
  obtain ⟨h0, h1⟩ := segment_addressRecord_data ph rec hrec
  rw [h0, h1]
  omega

/-- C22: for every program header entry with `p_filesz = n > 0` and
`p_paddr mod 65536 + n ≤ 65536`, and every source holding the `n` bytes, byte
`j` of the segment (the source byte at `p_offset + j`) is data byte `j mod 16`
of Data record `j / 16`, and `65536 * (256 * E0 + E1) + addressOffset + j mod 16`
is `p_paddr + j`, where `E0`, `E1` are the data bytes of the segment's Extended
Linear Address record. -/
theorem segment_bytes_at_load_address (elfProgramHeader : Elf32_Phdr)
    (record : IntelHexRecord_t) (bytes : List Nat) (pos : Nat)
    (hp : elfProgramHeader.p_paddr < 4294967296) (hn : 0 < elfProgramHeader.p_filesz)
    (hfit : elfProgramHeader.p_paddr % 65536 + elfProgramHeader.p_filesz ≤ 65536)
    (hb : ∀ b ∈ bytes, b < 256)
    (hle : elfProgramHeader.p_offset + elfProgramHeader.p_filesz ≤ bytes.length)
    (hrec : record.data.length = 16) (hrb : ∀ b ∈ record.data, b < 256) :
    ∃ (ela : IntelHexRecord_t) (D : List IntelHexRecord_t),
      segmentRecords elfProgramHeader ⟨bytes, pos, false⟩ record = ela :: D ∧
      ela.type = HEX_RECORD_TYPE_EXTENDED_LINEAR_ADDR ∧
      dataRecords (segmentRecords elfProgramHeader ⟨bytes, pos, false⟩ record) = D ∧
      (∀ r ∈ D, r.type = HEX_RECORD_TYPE_DATA) ∧
      ∀ j, j < elfProgramHeader.p_filesz → ∃ hi : j / 16 < D.length,
        j % 16 < D[j / 16].dataLength ∧
        bytes[elfProgramHeader.p_offset + j]? = some (D[j / 16].dataAt (j % 16)) ∧
        65536 * (256 * ela.dataAt 0 + ela.dataAt 1) + D[j / 16].addressOffset + j % 16
          = elfProgramHeader.p_paddr + j := by
  obtain ⟨D, heq, hdata, htype, hbyte⟩ := segmentRecords_byte elfProgramHeader
    ⟨bytes, pos, false⟩ record (by omega) hrec hrb
  refine ⟨_, D, heq, rfl, hdata, htype, ?_⟩
  intro j hj
  obtain ⟨hi, hk, hd, ha⟩ := hbyte j hj
  refine ⟨hi, hk, ?_, ?_⟩
  · have hseek : (IStream.mk bytes pos false).seekg elfProgramHeader.p_offset
        = ⟨bytes, elfProgramHeader.p_offset, false⟩ := rfl
    rw [hd, hseek, peek_eq ⟨bytes, elfProgramHeader.p_offset, false⟩ rfl hb j]
    have hlt : elfProgramHeader.p_offset + j < bytes.length := by omega
    simp [List.getElem?_eq_getElem hlt]
  · rw [addressRecord_upper elfProgramHeader record hp (by omega), ha]
    omega

set_option maxRecDepth 100000 in
theorem segment_bytes_at_load_address_witness :
    phdr33.p_paddr < 4294967296 ∧ 0 < phdr33.p_filesz ∧
    phdr33.p_paddr % 65536 + phdr33.p_filesz ≤ 65536 ∧
    (∀ b ∈ stream40.bytes, b < 256) ∧ phdr33.p_offset + phdr33.p_filesz ≤ stream40.bytes.length ∧
    staleRecord.data.length = 16 ∧ (∀ b ∈ staleRecord.data, b < 256) ∧
    ∃ (ela : IntelHexRecord_t) (D : List IntelHexRecord_t),
      segmentRecords phdr33 ⟨stream40.bytes, 0, false⟩ staleRecord = ela :: D ∧
      ∃ hi : 32 / 16 < D.length,
        stream40.bytes[phdr33.p_offset + 32]? = some (D[32 / 16].dataAt (32 % 16)) ∧
        65536 * (256 * ela.dataAt 0 + ela.dataAt 1) + D[32 / 16].addressOffset + 32 % 16
          = phdr33.p_paddr + 32 := by
  obtain ⟨ela, D, heq, _, _, _, h⟩ := segment_bytes_at_load_address phdr33 staleRecord
    stream40.bytes 0 (by decide) (by decide) (by decide) (by decide) (by decide) (by decide)
    (by decide)
  obtain ⟨hi, _, h1, h2⟩ := h 32 (by decide)
  exact ⟨by decide, by decide, by decide, by decide, by decide, by decide, by decide,
    ela, D, heq, hi, h1, h2⟩

/-- C23: there are program header entries whose 16-bit address range crosses
a 64KB boundary, and for each of them (with `p_filesz ≤ 65536`) the segment
encoder emits one Extended Linear Address record only; for a byte `j` whose
Data record starts at or beyond the boundary, the `addressOffset` of this record
has wrapped below that of the first Data record, and
`65536 * (256 * E0 + E1) + addressOffset + j mod 16` is `p_paddr + j - 65536`,
not `p_paddr + j`. -/
theorem segment_offset_wraps (elfProgramHeader : Elf32_Phdr) (elfFileHandle : IStream)
    (record : IntelHexRecord_t) (j : Nat)
    (hp : elfProgramHeader.p_paddr < 4294967296) (hj : j < elfProgramHeader.p_filesz)
    (hsmall : elfProgramHeader.p_filesz ≤ 65536)
    (hcross : 65536 ≤ elfProgramHeader.p_paddr % 65536 + 16 * (j / 16))
    (hrec : record.data.length = 16) (hrb : ∀ b ∈ record.data, b < 256) :
    ∃ (ela : IntelHexRecord_t) (D : List IntelHexRecord_t),
      segmentRecords elfProgramHeader elfFileHandle record = ela :: D ∧
      ela.type = HEX_RECORD_TYPE_EXTENDED_LINEAR_ADDR ∧
      (∀ r ∈ D, r.type = HEX_RECORD_TYPE_DATA) ∧
      ∃ (h0 : 0 < D.length) (hi : j / 16 < D.length),
        j % 16 < D[j / 16].dataLength ∧
        D[j / 16].dataAt (j % 16)
          = (elfFileHandle.seekg elfProgramHeader.p_offset).peek j ∧
        D[j / 16].addressOffset < D[0].addressOffset ∧
        65536 * (256 * ela.dataAt 0 + ela.dataAt 1) + D[j / 16].addressOffset + j % 16 + 65536
          = elfProgramHeader.p_paddr + j ∧
        65536 * (256 * ela.dataAt 0 + ela.dataAt 1) + D[j / 16].addressOffset + j % 16
          ≠ elfProgramHeader.p_paddr + j := by
  obtain ⟨D, heq, _, htype, hbyte⟩ := segmentRecords_byte elfProgramHeader
    elfFileHandle record (by omega) hrec hrb
  refine ⟨_, D, heq, rfl, htype, ?_⟩
  obtain ⟨hi, hk, hd, ha⟩ := hbyte j hj
  obtain ⟨h0, _, _, ha0⟩ := hbyte 0 (by omega)
  have hup := addressRecord_upper elfProgramHeader record hp (by omega)
  simp only [Nat.zero_div, Nat.mul_zero, Nat.add_zero, Nat.mod_mod] at ha0 h0
  refine ⟨h0, hi, hk, hd, ?_, ?_, ?_⟩
  · rw [ha, ha0]
    omega
  · rw [hup, ha]
    omega
  · rw [hup, ha]
    omega

set_option maxRecDepth 100000 in
theorem segment_offset_wraps_witness :
    crossPhdr.p_paddr = 0x0800FFF0 ∧ crossPhdr.p_filesz = 32 ∧
    65536 ≤ crossPhdr.p_paddr % 65536 + 16 * (16 / 16) ∧
    (dataRecords (segmentRecords crossPhdr stream40 staleRecord)).map
        (fun r => r.addressOffset) = [0xFFF0, 0x0000] ∧
    ∃ (ela : IntelHexRecord_t) (D : List IntelHexRecord_t),
      segmentRecords crossPhdr stream40 staleRecord = ela :: D ∧
      ela.type = HEX_RECORD_TYPE_EXTENDED_LINEAR_ADDR ∧
      (∀ r ∈ D, r.type = HEX_RECORD_TYPE_DATA) ∧
      ∃ (h0 : 0 < D.length) (hi : 16 / 16 < D.length),
        D[16 / 16].addressOffset < D[0].addressOffset ∧
        65536 * (256 * ela.dataAt 0 + ela.dataAt 1) + D[16 / 16].addressOffset + 16 % 16
          ≠ crossPhdr.p_paddr + 16 := by
  obtain ⟨ela, D, heq, h1, h2, h0, hi, _, _, h3, _, h4⟩ :=
    segment_offset_wraps crossPhdr stream40 staleRecord 16 (by decide) (by decide) (by decide)
      (by decide) (by decide) (by decide)
  exact ⟨rfl, rfl, by decide, by decide, ela, D, heq, h1, h2, h0, hi, h3, h4⟩

/-! # What the text of a segment is made of -/

theorem segmentRecords_text (ph : Elf32_Phdr) (inp : IStream) (rec : IntelHexRecord_t)
    (hrec : rec.data.length = 16) (hb : ∀ b ∈ rec.data, b < 256) :
    (segmentRecords ph inp rec).map recordText
      = segmentLines ph.p_paddr ph.p_filesz
          ((List.range ph.p_filesz).map (inp.seekg ph.p_offset).peek) := by
  by_cases hn : ph.p_filesz = 0
  · simp [segmentRecords, IntelHex_WriteElfProgramHeaderEntryToFile, hn, segmentLines]
  · obtain ⟨D, heq, _, hlen, hall⟩ := segmentRecords_data ph inp rec hn hrec hb
    have hsealed := segmentRecords_sealed ph inp rec hrec hb
    rw [heq] at hsealed
    have hs_ela := hsealed (segment_addressRecord ph rec) (by simp)
    have hela : recordText (segment_addressRecord ph rec)
        = recordText (canonicalRecord 2 0 HEX_RECORD_TYPE_EXTENDED_LINEAR_ADDR
            [ph.p_paddr / 2 ^ 24 % 256, ph.p_paddr / 2 ^ 16 % 256]) := by
      rw [sealed_recordText _ hs_ela]
      have h2 : (segment_addressRecord ph rec).dataLength = 2 := rfl
      have h0 : (segment_addressRecord ph rec).addressOffset = 0 := rfl
      have h4 : (segment_addressRecord ph rec).type = HEX_RECORD_TYPE_EXTENDED_LINEAR_ADDR := rfl
      rw [h2, h0, h4, segment_addressRecord_take ph rec (by rw [hrec]; decide)]
    rw [heq, segmentLines, if_neg hn, List.map_cons, hela]
    congr 1
    apply List.ext_getElem
    · simp [hlen]
    · intro i h1 h2
      have hi : i < D.length := by simpa using h1
      obtain ⟨hs, ht, ha, hdl, hchunk⟩ := hall i hi
      simp only [List.getElem_map, List.getElem_range]
      rw [sealed_recordText _ hs, hchunk, ht, ha, hdl]
      rfl

theorem flatMap_recordLine (rs : List IntelHexRecord_t) :
    rs.flatMap recordLine = (rs.map recordText).flatMap (fun l => l ++ ['\n']) := by
  induction rs with
  | nil => rfl
  | cons r rs ih => simp [List.flatMap_cons, recordLine, ih]

/-- The text the segment encoder writes is made of the physical address, the
size, and what `p_filesz` calls of `(uint8_t)get()` yield after the seek to
`p_offset`; the initial content of the record buffer plays no part. -/
theorem segment_buf (ph : Elf32_Phdr) (inp : IStream) (out : OStream) (rec : IntelHexRecord_t)
    (hs : out.Ready) (hrec : rec.data.length = 16) (hb : ∀ b ∈ rec.data, b < 256) :
    (IntelHex_WriteElfProgramHeaderEntryToFile IntelHex_WriteRecordToFile ph inp out rec).2.buf
      = out.buf ++ (segmentLines ph.p_paddr ph.p_filesz
          ((List.range ph.p_filesz).map (inp.seekg ph.p_offset).peek)).flatMap
            (fun l => l ++ ['\n']) := by
  rw [segment_eq_writeRecords]
  show (writeRecords IntelHex_WriteRecordToFile out (segmentRecords ph inp rec)).buf = _
  rw [writeRecords_sealed_buf _ out hs (segmentRecords_sealed ph inp rec hrec hb),
    flatMap_recordLine, segmentRecords_text ph inp rec hrec hb]

theorem calcRecordChecksum_congr (r1 r2 : IntelHexRecord_t)
    (hdl : r1.dataLength = r2.dataLength) (ha : r1.addressOffset = r2.addressOffset)
    (ht : r1.type = r2.type) (hd : ∀ i, i < r1.dataLength → r1.dataAt i = r2.dataAt i) :
    (IntelHex_CalcRecordChecksum r1).checksum = (IntelHex_CalcRecordChecksum r2).checksum := by
  have hf : ∀ c0 : Nat,
      (List.range r1.dataLength).foldl (fun c i => u8 (c + r1.dataAt i)) c0
        = (List.range r1.dataLength).foldl (fun c i => u8 (c + r2.dataAt i)) c0 := by
    intro c0
    apply List.foldl_ext
    intro c i hi
    rw [hd i (List.mem_range.mp hi)]
  simp only [IntelHex_CalcRecordChecksum, ← hdl, ← ha, ← ht, hf]

theorem writeRecord_congr (r1 r2 : IntelHexRecord_t) (s : OStream)
    (hdl : r1.dataLength = r2.dataLength) (ha : r1.addressOffset = r2.addressOffset)
    (ht : r1.type = r2.type) (hd : ∀ i, i < r1.dataLength → r1.dataAt i = r2.dataAt i)
    (hc : r1.checksum = r2.checksum) :
    IntelHex_WriteRecordToFile r1 s = IntelHex_WriteRecordToFile r2 s := by
  have hf : ∀ h : OStream,
      (List.range r1.dataLength).foldl (fun h i => (h.setWidth 2).putInt (r1.dataAt i)) h
        = (List.range r1.dataLength).foldl (fun h i => (h.setWidth 2).putInt (r2.dataAt i)) h := by
    intro h
    apply List.foldl_ext
    intro c i hi
    rw [hd i (List.mem_range.mp hi)]
  simp only [IntelHex_WriteRecordToFile, ← hdl, ← ha, ← ht, ← hc, hf]

/-- C26: for any two records that agree on `dataLength`, `addressOffset`,
`type` and `data[0..dataLength)`, `IntelHex_CalcRecordChecksum` computes the
same checksum and the record is then written as the same line, whatever
`data[dataLength..16)` and the previous checksum hold. So the text of a segment
does not depend on the content of the record buffer the encoder starts with,
and the End Of File line is `:00000001FF` whatever the buffer holds. -/
theorem stale_bytes_never_written (r1 r2 : IntelHexRecord_t)
    (hdl : r1.dataLength = r2.dataLength) (ha : r1.addressOffset = r2.addressOffset)
    (ht : r1.type = r2.type) (hd : ∀ i, i < r1.dataLength → r1.dataAt i = r2.dataAt i) :
    (IntelHex_CalcRecordChecksum r1).checksum = (IntelHex_CalcRecordChecksum r2).checksum ∧
    (∀ hexFileHandle : OStream,
      IntelHex_WriteRecordToFile (IntelHex_CalcRecordChecksum r1) hexFileHandle
        = IntelHex_WriteRecordToFile (IntelHex_CalcRecordChecksum r2) hexFileHandle) ∧
    (∀ (elfProgramHeader : Elf32_Phdr) (elfFileHandle : IStream) (hexFileHandle : OStream)
        (record1 record2 : IntelHexRecord_t),
      hexFileHandle.Ready →
      record1.data.length = 16 → (∀ b ∈ record1.data, b < 256) →
      record2.data.length = 16 → (∀ b ∈ record2.data, b < 256) →
      (IntelHex_WriteElfProgramHeaderEntryToFile IntelHex_WriteRecordToFile elfProgramHeader
          elfFileHandle hexFileHandle record1).2.buf
        = (IntelHex_WriteElfProgramHeaderEntryToFile IntelHex_WriteRecordToFile elfProgramHeader
          elfFileHandle hexFileHandle record2).2.buf) ∧
    (∀ (record : IntelHexRecord_t) (hexFileHandle : OStream), record.WF → hexFileHandle.Ready →
      (IntelHex_WriteRecordToFile (main_eofRecord record) hexFileHandle).buf
        = hexFileHandle.buf ++ ":00000001FF\n".toList) := by
  have hck := calcRecordChecksum_congr r1 r2 hdl ha ht hd
  refine ⟨hck, ?_, ?_, ?_⟩
  · intro s
    exact writeRecord_congr _ _ s hdl ha ht hd hck
  · intro ph inp out rec1 rec2 hs h1 hb1 h2 hb2
    rw [segment_buf ph inp out rec1 hs h1 hb1, segment_buf ph inp out rec2 hs h2 hb2]
  · intro r s hwf hs
    exact main_eofRecord_line r hwf s hs

theorem stale_bytes_never_written_witness :
    staleTail.dataLength = cleanTail.dataLength ∧
    staleTail.addressOffset = cleanTail.addressOffset ∧ staleTail.type = cleanTail.type ∧
    (∀ i, i < staleTail.dataLength → staleTail.dataAt i = cleanTail.dataAt i) ∧
    staleTail.data ≠ cleanTail.data ∧ staleTail.checksum ≠ cleanTail.checksum ∧
    (IntelHex_CalcRecordChecksum staleTail).checksum
      = (IntelHex_CalcRecordChecksum cleanTail).checksum ∧
    (IntelHex_WriteRecordToFile (IntelHex_CalcRecordChecksum staleTail) OStream.opened).buf
      = ":0400100000010203E6\n".toList ∧
    (IntelHex_WriteRecordToFile (IntelHex_CalcRecordChecksum cleanTail) OStream.opened).buf
      = ":0400100000010203E6\n".toList := by
  have hd : ∀ i, i < staleTail.dataLength → staleTail.dataAt i = cleanTail.dataAt i := by
    decide
  have h := stale_bytes_never_written staleTail cleanTail rfl rfl rfl hd
  have hc : (IntelHex_WriteRecordToFile (IntelHex_CalcRecordChecksum cleanTail)
      OStream.opened).buf = ":0400100000010203E6\n".toList := by decide
  exact ⟨rfl, rfl, rfl, hd, by decide, by decide, h.1,
    (congrArg OStream.buf (h.2.1 OStream.opened)).trans hc, hc⟩

/-- C27: the records of a segment depend only on `p_offset`, `p_paddr`,
`p_filesz` and the source bytes at `p_offset .. p_offset + p_filesz - 1`. Two
entries that agree on the three fields give the same result on every stream,
sink and record buffer, whatever their `p_type`, `p_vaddr`, `p_memsz`,
`p_flags` and `p_align`; and on two good sources that hold the same bytes at
these positions they are written as the same text. -/
theorem segment_depends_on_three_fields {σ : Type} (writeRecord : IntelHexRecord_t → σ → σ)
    (ph1 ph2 : Elf32_Phdr) (hoff : ph1.p_offset = ph2.p_offset)
    (hpa : ph1.p_paddr = ph2.p_paddr) (hsz : ph1.p_filesz = ph2.p_filesz) :
    (∀ (elfFileHandle : IStream) (hexFileHandle : σ) (record : IntelHexRecord_t),
      IntelHex_WriteElfProgramHeaderEntryToFile writeRecord ph1 elfFileHandle hexFileHandle record
        = IntelHex_WriteElfProgramHeaderEntryToFile writeRecord ph2 elfFileHandle hexFileHandle
            record) ∧
    (∀ (elfFileHandle : IStream) (record : IntelHexRecord_t),
      segmentRecords ph1 elfFileHandle record = segmentRecords ph2 elfFileHandle record) ∧
    (∀ (bytes1 bytes2 : List Nat) (pos1 pos2 : Nat) (hexFileHandle : OStream)
        (record1 record2 : IntelHexRecord_t),
      hexFileHandle.Ready →
      record1.data.length = 16 → (∀ b ∈ record1.data, b < 256) →
      record2.data.length = 16 → (∀ b ∈ record2.data, b < 256) →
      (∀ b ∈ bytes1, b < 256) → (∀ b ∈ bytes2, b < 256) →
      (∀ j, j < ph1.p_filesz → bytes1[ph1.p_offset + j]? = bytes2[ph1.p_offset + j]?) →
      (IntelHex_WriteElfProgramHeaderEntryToFile IntelHex_WriteRecordToFile ph1
          ⟨bytes1, pos1, false⟩ hexFileHandle record1).2.buf
        = (IntelHex_WriteElfProgramHeaderEntryToFile IntelHex_WriteRecordToFile ph2
          ⟨bytes2, pos2, false⟩ hexFileHandle record2).2.buf) := by
  have hfun : ∀ (τ : Type) (w : IntelHexRecord_t → τ → τ) (inp : IStream) (out : τ)
      (rec : IntelHexRecord_t),
      IntelHex_WriteElfProgramHeaderEntryToFile w ph1 inp out rec
        = IntelHex_WriteElfProgramHeaderEntryToFile w ph2 inp out rec := by
    intro τ w inp out rec
    simp only [IntelHex_WriteElfProgramHeaderEntryToFile, segment_loopInit,
      segment_addressRecord, tailRecordStep, hoff, hpa, hsz]
  refine ⟨hfun σ writeRecord, ?_, ?_⟩
  · intro inp rec
    simp only [segmentRecords, hfun]
  · intro bytes1 bytes2 pos1 pos2 out rec1 rec2 hs h1 hb1 h2 hb2 hbs1 hbs2 hsame
    rw [segment_buf ph1 _ out rec1 hs h1 hb1, segment_buf ph2 _ out rec2 hs h2 hb2,
      ← hoff, ← hpa, ← hsz]
    have hseek1 : (IStream.mk bytes1 pos1 false).seekg ph1.p_offset
        = ⟨bytes1, ph1.p_offset, false⟩ := rfl
    have hseek2 : (IStream.mk bytes2 pos2 false).seekg ph1.p_offset
        = ⟨bytes2, ph1.p_offset, false⟩ := rfl
    have hpl : (List.range ph1.p_filesz).map (IStream.mk bytes1 ph1.p_offset false).peek
        = (List.range ph1.p_filesz).map (IStream.mk bytes2 ph1.p_offset false).peek := by
      apply List.map_congr_left
      intro j hj
      rw [peek_eq ⟨bytes1, ph1.p_offset, false⟩ rfl hbs1 j,
        peek_eq ⟨bytes2, ph1.p_offset, false⟩ rfl hbs2 j]
      exact congrArg (fun o => Option.getD o 255) (hsame j (List.mem_range.mp hj))
    rw [hseek1, hseek2, hpl]

set_option maxRecDepth 100000 in
theorem segment_depends_on_three_fields_witness :
    samplePhdr.p_offset = samplePhdrNote.p_offset ∧ samplePhdr.p_paddr = samplePhdrNote.p_paddr ∧
    samplePhdr.p_filesz = samplePhdrNote.p_filesz ∧ samplePhdr.p_type ≠ samplePhdrNote.p_type ∧
    IntelHex_WriteElfProgramHeaderEntryToFile IntelHex_WriteRecordToFile samplePhdr sampleStream
        OStream.opened staleRecord
      = IntelHex_WriteElfProgramHeaderEntryToFile IntelHex_WriteRecordToFile samplePhdrNote
          sampleStream OStream.opened staleRecord ∧
    (IntelHex_WriteElfProgramHeaderEntryToFile IntelHex_WriteRecordToFile samplePhdrNote
        sampleStream OStream.opened staleRecord).2.buf
      = (":020000040800F2\n:10FFF00068696A6B6C6D6E6F707172737475767709\n"
          ++ ":0400000078797A7B16\n").toList :=
  ⟨rfl, rfl, rfl, by decide,
    (segment_depends_on_three_fields IntelHex_WriteRecordToFile samplePhdr samplePhdrNote
      rfl rfl rfl).1 sampleStream OStream.opened staleRecord, by decide⟩

/-! # The two source files -/

theorem variant_checkHeaderValidity (h : Elf32_Ehdr) :
    Variant.ArmElf32_CheckHeaderValidity h = ArmElf32_CheckHeaderValidity h := rfl

theorem variant_calcRecordChecksum (r : IntelHexRecord_t) :
    Variant.IntelHex_CalcRecordChecksum r = IntelHex_CalcRecordChecksum r := rfl

theorem variant_writeRecordToFile (r : IntelHexRecord_t) (s : OStream) :
    Variant.IntelHex_WriteRecordToFile r s = IntelHex_WriteRecordToFile r s := rfl

theorem variant_readData (n : Nat) (r : IntelHexRecord_t) (s : IStream) :
    Variant.readData n r s = readData n r s := by
  simp only [Variant.readData, readData]

theorem variant_readDataConverted (n : Nat) (r : IntelHexRecord_t) (s : IStream) :
    Variant.readDataConverted n r s = readData n r s := by
  simp only [Variant.readDataConverted, readData]

theorem variant_fullRecordStep {σ : Type} (w : IntelHexRecord_t → σ → σ) :
    Variant.fullRecordStep w = fullRecordStep w := by
  funext st
  simp only [Variant.fullRecordStep, fullRecordStep, variant_readData,
    variant_calcRecordChecksum]

theorem variant_writeEntry {σ : Type} (w : IntelHexRecord_t → σ → σ) (ph : Elf32_Phdr)
    (inp : IStream) (out : σ) (rec : IntelHexRecord_t) :
    Variant.IntelHex_WriteElfProgramHeaderEntryToFile w ph inp out rec
      = IntelHex_WriteElfProgramHeaderEntryToFile w ph inp out rec := by
  simp only [Variant.IntelHex_WriteElfProgramHeaderEntryToFile,
    IntelHex_WriteElfProgramHeaderEntryToFile, variant_fullRecordStep,
    Variant.segment_loopInit, segment_loopInit, Variant.segment_addressRecord,
    segment_addressRecord, Variant.tailRecordStep, tailRecordStep, variant_readDataConverted,
    variant_calcRecordChecksum]

theorem variant_extractPhdr (p0 : Elf32_Phdr) (i : Nat) (hdr : Elf32_Ehdr) (s : IStream) :
    Variant.ArmElf32_ExtractProgramHeaderEntryFromFile p0 i hdr s
      = ArmElf32_ExtractProgramHeaderEntryFromFile p0 i hdr s := rfl

theorem variant_extractHeader (h0 : Elf32_Ehdr) (s : IStream) :
    Variant.ArmElf32_ExtractHeaderFromFile h0 s = ArmElf32_ExtractHeaderFromFile h0 s := rfl

theorem variant_main_loop {σ : Type} (w : IntelHexRecord_t → σ → σ) (hdr : Elf32_Ehdr)
    (uninit : Nat → IntelHexRecord_t) (fuel : Nat) :
    ∀ (k i : Nat) (ph : Elf32_Phdr) (inp : IStream) (out : σ),
      Variant.main_loop w hdr uninit fuel k i ph inp out
        = main_loop w hdr uninit fuel k i ph inp out := by
  induction fuel with
  | zero => intro k i ph inp out; simp only [Variant.main_loop, main_loop]
  | succ fuel ih =>
    intro k i ph inp out
    simp only [Variant.main_loop, main_loop, variant_extractPhdr, variant_writeEntry, ih]

theorem variant_main_startRecord (hdr : Elf32_Ehdr) (r : IntelHexRecord_t) :
    Variant.main_startRecord hdr r = main_startRecord hdr r := by
  simp only [Variant.main_startRecord, main_startRecord, variant_calcRecordChecksum]

theorem variant_main_eofRecord (r : IntelHexRecord_t) :
    Variant.main_eofRecord r = main_eofRecord r := by
  simp only [Variant.main_eofRecord, main_eofRecord, variant_calcRecordChecksum]

/-- The second file's `main` is `main_variant`. -/
theorem variant_main_eq {σ : Type} (w : IntelHexRecord_t → σ → σ) (fuel : Nat) (argc : Int)
    (elfFile : Option (List Nat)) (hexFile : Option σ) (unopened : σ)
    (elfFileHeader : Elf32_Ehdr) (elfProgramHeader : Elf32_Phdr) (record : IntelHexRecord_t)
    (uninit : Nat → IntelHexRecord_t) :
    Variant.main w fuel argc elfFile hexFile unopened elfFileHeader elfProgramHeader record uninit
      = main_variant w fuel argc elfFile hexFile unopened elfFileHeader elfProgramHeader record
          uninit := by
  simp only [Variant.main, main_variant, variant_main_loop, variant_extractHeader,
    variant_checkHeaderValidity, variant_main_startRecord, variant_main_eofRecord]

/-- With an output that opens, `main_variant` is `main`. -/
theorem main_variant_opened {σ : Type} (w : IntelHexRecord_t → σ → σ) (fuel : Nat) (argc : Int)
    (elfFile : Option (List Nat)) (out unopened : σ)
    (elfFileHeader : Elf32_Ehdr) (elfProgramHeader : Elf32_Phdr) (record : IntelHexRecord_t)
    (uninit : Nat → IntelHexRecord_t) :
    main_variant w fuel argc elfFile (some out) unopened elfFileHeader elfProgramHeader record
        uninit
      = main w fuel argc elfFile (some out) elfFileHeader elfProgramHeader record uninit := by
  cases elfFile with
  | none => rfl
  | some bytes =>
    simp only [main_variant, main, Option.getD_some, Option.isSome_some, if_true,
      Option.map_some']

/-- C28: with `u8`, `u16`, `u32` read as unsigned integers of 8, 16 and 32
bits, the functions of the two source files return the same results on every
input: `ArmElf32_CheckHeaderValidity`, `IntelHex_CalcRecordChecksum`,
`IntelHex_WriteRecordToFile`, `IntelHex_WriteElfProgramHeaderEntryToFile` and
the two readers; and on every run in which the output file opens the two
`main` functions give the same exit status and the same output. -/
theorem variant_agrees {σ : Type} (writeRecord : IntelHexRecord_t → σ → σ) :
    (∀ elfFileHeader : Elf32_Ehdr,
      Variant.ArmElf32_CheckHeaderValidity elfFileHeader
        = ArmElf32_CheckHeaderValidity elfFileHeader) ∧
    (∀ record : IntelHexRecord_t,
      Variant.IntelHex_CalcRecordChecksum record = IntelHex_CalcRecordChecksum record) ∧
    (∀ (record : IntelHexRecord_t) (hexFileHandle : OStream),
      Variant.IntelHex_WriteRecordToFile record hexFileHandle
        = IntelHex_WriteRecordToFile record hexFileHandle) ∧
    (∀ (elfProgramHeader : Elf32_Phdr) (elfFileHandle : IStream) (hexFileHandle : OStream)
        (record : IntelHexRecord_t),
      Variant.IntelHex_WriteElfProgramHeaderEntryToFile Variant.IntelHex_WriteRecordToFile
          elfProgramHeader elfFileHandle hexFileHandle record
        = IntelHex_WriteElfProgramHeaderEntryToFile IntelHex_WriteRecordToFile
            elfProgramHeader elfFileHandle hexFileHandle record) ∧
    (∀ (elfFileHeader : Elf32_Ehdr) (elfFileHandle : IStream),
      Variant.ArmElf32_ExtractHeaderFromFile elfFileHeader elfFileHandle
        = ArmElf32_ExtractHeaderFromFile elfFileHeader elfFileHandle) ∧
    (∀ (elfProgramHeader : Elf32_Phdr) (entryNum : Nat) (elfFileHeader : Elf32_Ehdr)
        (elfFileHandle : IStream),
      Variant.ArmElf32_ExtractProgramHeaderEntryFromFile elfProgramHeader entryNum
          elfFileHeader elfFileHandle
        = ArmElf32_ExtractProgramHeaderEntryFromFile elfProgramHeader entryNum elfFileHeader
            elfFileHandle) ∧
    (∀ (fuel : Nat) (argc : Int) (elfFile : Option (List Nat)) (hexFileHandle unopened : σ)
        (elfFileHeader : Elf32_Ehdr) (elfProgramHeader : Elf32_Phdr)
        (record : IntelHexRecord_t) (uninit : Nat → IntelHexRecord_t),
      Variant.main writeRecord fuel argc elfFile (some hexFileHandle) unopened elfFileHeader
          elfProgramHeader record uninit
        = main writeRecord fuel argc elfFile (some hexFileHandle) elfFileHeader
            elfProgramHeader record uninit) := by
  refine ⟨variant_checkHeaderValidity, variant_calcRecordChecksum, variant_writeRecordToFile,
    ?_, variant_extractHeader, variant_extractPhdr, ?_⟩
  · intro ph inp out rec
    exact variant_writeEntry _ ph inp out rec
  · intro fuel argc elfFile out unopened h0 p0 r0 u0
    rw [variant_main_eq, main_variant_opened]

end ElHex
